import Mathlib

/-!
Verification of the IP-information aggregation-and-caching engine.

The definitions below are a shallow embedding of the repository's
JavaScript/TypeScript sources:

* `MemoryCache`, its operations and `cachedFetch` embed `cacheUtils.js`
  (the `MemoryCache` class and the `cachedFetch` wrapper).  A JS `Map` is
  modelled as an insertion-ordered association list with (invariantly)
  pairwise-distinct keys; timestamps are natural-number milliseconds.
* `assessConnectionQuality`, `assessThreatLevel`, `generateRequestId`,
  `getContinentName`, `getDatacenterLocation` and `validateIP` embed
  `cloudflareUtils.ts`.
* `EnhancedIPService.combineData`, `geolocationView`, `securityView`,
  `networkView`, `extractCoordinates` and `fetchIPInfoData` embed
  `enhancedIPService.js` (the record-building parts of `combineData`,
  `getGeolocation`, `getSecurityInfo`, `getNetworkInfo`,
  `extractCoordinates`, `fetchIPInfoData`).

Modelling conventions, applied uniformly:

* JS strings that the code only tests for truthiness (`a || b`, `!!a`)
  are modelled as `String`, with the empty string standing for both
  `undefined` and `""` (exactly the two falsy string cases).
* JS numbers that the code tests with `!== undefined` or uses behind
  optional chaining are modelled as `Option Nat`.
* The Cloudflare latitude/longitude fields are numeric *strings* in the
  source; the code tests the string for truthiness and later parses it
  with `parseFloat`.  They are modelled as `Option Rat`: `none` is an
  absent/empty string, `some q` a non-empty numeric string of value `q`
  (so string truthiness is `isSome`, and the parsed number's own
  truthiness is `q ≠ 0` — the two genuinely differ for the string "0").
* A nullable JS value of payload type `V` is `Option V` (`none` = `null`).
* Wall-clock reads (`Date.now()`, `new Date().toISOString()`) and the
  random part of `generateRequestId` are passed in as explicit arguments:
  the embedding is the same computation with the ambient effects made
  into inputs.
-/

namespace IPInfo

/-! ## cacheUtils.js — `MemoryCache` -/

/-- A cache entry, from the `CacheEntry` typedef of `cacheUtils.js`:
`{ data, timestamp, ttl }`. -/
structure CacheEntry (α : Type) where
  data : α
  timestamp : Nat
  ttl : Nat
deriving Repr, DecidableEq

/-- The `MemoryCache` class: a JS `Map` (insertion-ordered association
list) plus the `maxEntries` capacity. -/
structure MemoryCache (α : Type) where
  entries : List (String × CacheEntry α)
  maxEntries : Nat
deriving Repr, DecidableEq

variable {α : Type}

/-- `Map.prototype.get`: the value stored under `k`, if any. -/
def mapFind : List (String × CacheEntry α) → String → Option (CacheEntry α)
  | [], _ => none
  | p :: rest, k => if p.1 = k then some p.2 else mapFind rest k

/-- `Map.prototype.delete`: remove the entry stored under `k` (a JS `Map`
holds at most one entry per key). -/
def mapDelete (m : List (String × CacheEntry α)) (k : String) :
    List (String × CacheEntry α) :=
  m.filter (fun p => p.1 ≠ k)

/-- `Map.prototype.set`: replace in place when the key is present
(preserving insertion order), otherwise append at the end. -/
def mapInsert (m : List (String × CacheEntry α)) (k : String) (e : CacheEntry α) :
    List (String × CacheEntry α) :=
  if m.any (fun p => p.1 = k) then
    m.map (fun p => if p.1 = k then (k, e) else p)
  else
    m ++ [(k, e)]

/-- `MemoryCache.get(key)` at wall-clock time `now`.  Returns the JS
return value (`none` = the JS `null`, for a miss or an expired entry)
together with the cache after the lazy deletion of an expired entry.
Expiry test from the source: `now - entry.timestamp > entry.ttl`. -/
def MemoryCache.get (c : MemoryCache α) (key : String) (now : Nat) :
    Option α × MemoryCache α :=
  match mapFind c.entries key with
  | none => (none, c)
  | some entry =>
    if now - entry.timestamp > entry.ttl then
      (none, { c with entries := mapDelete c.entries key })
    else
      (some entry.data, c)

/-- `MemoryCache.cleanup()` at time `now`: remove all expired entries;
if the cache still holds `maxEntries` or more, sort the entries by
`timestamp` (ascending, stable — JS `Array.prototype.sort`) and delete
the first `Math.floor(maxEntries * 0.2)` of them.  For every `n < 2^53`
the double-precision product `n * 0.2` rounds to a value whose floor is
`n / 5` (the stored constant `0.2` exceeds `1/5` by `1/(5·2^54)`, an
error below half an ulp of the product), so the count is embedded as
`maxEntries / 5`. -/
def MemoryCache.cleanup (c : MemoryCache α) (now : Nat) : MemoryCache α :=
  let afterExpired := c.entries.filter (fun p => ¬ (now - p.2.timestamp > p.2.ttl))
  if afterExpired.length ≥ c.maxEntries then
    let sorted := List.insertionSort
      (fun a b => a.2.timestamp ≤ b.2.timestamp) afterExpired
    let toRemove := sorted.take (c.maxEntries / 5)
    { c with entries := toRemove.foldl (fun m p => mapDelete m p.1) afterExpired }
  else
    { c with entries := afterExpired }

/-- `MemoryCache.set(key, data, ttlMs)` at time `now`: run `cleanup`
when the cache is full, then store a fresh entry. -/
def MemoryCache.set (c : MemoryCache α) (key : String) (data : α)
    (ttlMs now : Nat) : MemoryCache α :=
  let c1 := if c.entries.length ≥ c.maxEntries then c.cleanup now else c
  { c1 with entries := mapInsert c1.entries key ⟨data, now, ttlMs⟩ }

/-- `MemoryCache.delete(key)`. -/
def MemoryCache.del (c : MemoryCache α) (key : String) :
    Bool × MemoryCache α :=
  (c.entries.any (fun p => p.1 = key), { c with entries := mapDelete c.entries key })

/-- An empty cache with the given capacity (`new MemoryCache(maxEntries)`). -/
def MemoryCache.empty (maxEntries : Nat) : MemoryCache α :=
  ⟨[], maxEntries⟩

/-- `cachedFetch(cache, cacheKey, fetchFn, ttl)` for a nullable payload
(`Option V` is the JS value, `none` = `null`).  The stored data is itself
nullable, and the single JS `null` conflates a cached `null` with a miss:
the observable result of `cache.get` is the `Option.join` of the model's
`get`.  `fetchResult` is the value `fetchFn` would produce; the returned
`Nat` counts the invocations of `fetchFn` (0 or 1). -/
def cachedFetch {V : Type} (c : MemoryCache (Option V)) (cacheKey : String)
    (fetchResult : Option V) (ttl now : Nat) :
    Option V × MemoryCache (Option V) × Nat :=
  let r := c.get cacheKey now
  match r.1.join with
  | some v => (some v, r.2, 0)
  | none =>
    let data := fetchResult
    (data, r.2.set cacheKey data ttl now, 1)

/-- Two sequential `cachedFetch` calls for the same key starting from an
empty cache of capacity `maxEntries`: results of the first and second
call, and the total number of `fetchFn` invocations. -/
def cachedFetchTwice {V : Type} (maxEntries : Nat) (key : String)
    (f1 f2 : Option V) (ttl t1 t2 : Nat) :
    Option V × Option V × Nat :=
  let r1 := cachedFetch (MemoryCache.empty maxEntries) key f1 ttl t1
  let r2 := cachedFetch r1.2.1 key f2 ttl t2
  (r1.1, r2.1, r1.2.2 + r2.2.2)

/-! ## Data model — `types.ts`, restricted to the fields the code reads -/

/-- The `botManagement` sub-object of `CloudflareRequestData`. -/
structure BotManagement where
  score : Option Nat
  staticResource : Option Bool
  verifiedBot : Option Bool
deriving Repr, DecidableEq

/-- `CloudflareRequestData` (the output of `extractCloudflareData`).
String fields use `""` for an absent value; `latitude`/`longitude` are
numeric strings, see the header comment. -/
structure CloudflareRequestData where
  country : String
  region : String
  city : String
  postalCode : String
  timezone : String
  latitude : Option Rat
  longitude : Option Rat
  continent : String
  asn : Nat
  asOrganization : String
  colo : String
  httpProtocol : String
  tlsVersion : String
  tlsCipher : String
  botManagement : Option BotManagement
  clientTcpRtt : Option Nat
deriving Repr, DecidableEq

/-- The `privacy` block of an IPInfo response. -/
structure IPInfoPrivacy where
  vpn : Bool
  proxy : Bool
  tor : Bool
  hosting : Bool
deriving Repr, DecidableEq

/-- The `asn` block of an IPInfo response.  `asnNum` is the numeric value
of `parseInt(asn.asn.replace('AS', ''))` — the code only ever uses the
`"AS…"` identifier through that expression. -/
structure IPInfoAsn where
  asnNum : Nat
  domain : String
  route : String
  asnType : String
deriving Repr, DecidableEq

/-- An IPInfo response body (`IPInfoData`); the whole lookup result is
`Option IPInfoData` (`none` = `null`). -/
structure IPInfoData where
  country : String
  region : String
  city : String
  postal : String
  timezone : String
  org : String
  loc : Option (Rat × Rat)
  privacy : Option IPInfoPrivacy
  asn : Option IPInfoAsn
  company : Option String
  carrier : Option String
deriving Repr, DecidableEq

/-- The three-valued threat classification. -/
inductive ThreatLevel where
  | low
  | medium
  | high
deriving Repr, DecidableEq

/-- The four-valued connection-quality classification. -/
inductive ConnQuality where
  | excellent
  | good
  | fair
  | poor
deriving Repr, DecidableEq

/-- The three-valued location-accuracy classification. -/
inductive Accuracy where
  | low
  | medium
  | high
deriving Repr, DecidableEq

/-- JS `a || b` on strings under the `"" = absent` convention. -/
def jsOr (a b : String) : String :=
  if a = "" then b else a

/-- Optional-chain field read `d?.f` for a string-valued field. -/
def chainStr (d : Option IPInfoData) (f : IPInfoData → String) : String :=
  match d with
  | some x => f x
  | none => ""

/-- Optional-chain read `ipinfoData?.privacy?.flag || false`. -/
def privacyFlag (d : Option IPInfoData) (f : IPInfoPrivacy → Bool) : Bool :=
  match d with
  | some x =>
    match x.privacy with
    | some p => f p
    | none => false
  | none => false

/-! ## cloudflareUtils.ts -/

/-- `getContinentName`: continent code → name, unknown codes pass through. -/
def getContinentName (code : String) : String :=
  if code = "AF" then "Africa"
  else if code = "AN" then "Antarctica"
  else if code = "AS" then "Asia"
  else if code = "EU" then "Europe"
  else if code = "NA" then "North America"
  else if code = "OC" then "Oceania"
  else if code = "SA" then "South America"
  else code

/-- `getDatacenterLocation`: colo code → location name, with the
`` `${colo} Datacenter` `` fallback. -/
def getDatacenterLocation (colo : String) : String :=
  if colo = "ATL" then "Atlanta, US"
  else if colo = "DFW" then "Dallas, US"
  else if colo = "EWR" then "Newark, US"
  else if colo = "IAD" then "Ashburn, US"
  else if colo = "LAX" then "Los Angeles, US"
  else if colo = "MIA" then "Miami, US"
  else if colo = "ORD" then "Chicago, US"
  else if colo = "SJC" then "San Jose, US"
  else if colo = "SEA" then "Seattle, US"
  else if colo = "LHR" then "London, UK"
  else if colo = "CDG" then "Paris, France"
  else if colo = "FRA" then "Frankfurt, Germany"
  else if colo = "AMS" then "Amsterdam, Netherlands"
  else if colo = "SIN" then "Singapore"
  else if colo = "NRT" then "Tokyo, Japan"
  else if colo = "HKG" then "Hong Kong"
  else if colo = "SYD" then "Sydney, Australia"
  else if colo = "GRU" then "São Paulo, Brazil"
  else if colo = "YYZ" then "Toronto, Canada"
  else colo ++ " Datacenter"

/-- `assessConnectionQuality`.  The JS truthiness test
`cfData.clientTcpRtt && …` is false for an absent rtt and for `rtt = 0`. -/
def assessConnectionQuality (cfData : CloudflareRequestData) : ConnQuality :=
  let protoScore : Nat :=
    if cfData.httpProtocol = "HTTP/3" then 3
    else if cfData.httpProtocol = "HTTP/2" then 2
    else if cfData.httpProtocol = "HTTP/1.1" then 1
    else 0
  let tlsScore : Nat :=
    if cfData.tlsVersion = "TLSv1.3" then 2
    else if cfData.tlsVersion = "TLSv1.2" then 1
    else 0
  let rttScore : Nat :=
    match cfData.clientTcpRtt with
    | some rtt =>
      if rtt ≠ 0 ∧ rtt < 50 then 2
      else if rtt ≠ 0 ∧ rtt < 100 then 1
      else 0
    | none => 0
  let score := protoScore + tlsScore + rttScore
  if score ≥ 6 then .excellent
  else if score ≥ 4 then .good
  else if score ≥ 2 then .fair
  else .poor

/-- The bot-management contribution to the risk score of
`assessThreatLevel` (the first `if` block of the source). -/
def botRiskScore (cfData : CloudflareRequestData) : Nat :=
  match cfData.botManagement with
  | some bm =>
    match bm.score with
    | some s => if s < 30 then 3 else if s < 50 then 2 else if s < 80 then 1 else 0
    | none => 0
  | none => 0

/-- The privacy-flag contribution to the risk score of
`assessThreatLevel` (the second `if` block of the source). -/
def privacyRiskScore (ipinfoPrivacy : Option IPInfoPrivacy) : Nat :=
  match ipinfoPrivacy with
  | some p =>
    (if p.tor then 3 else 0) + (if p.vpn then 2 else 0) +
    (if p.proxy then 2 else 0) + (if p.hosting then 1 else 0)
  | none => 0

/-- `assessThreatLevel`. -/
def assessThreatLevel (cfData : CloudflareRequestData)
    (ipinfoPrivacy : Option IPInfoPrivacy) : ThreatLevel :=
  let riskScore := botRiskScore cfData + privacyRiskScore ipinfoPrivacy
  if riskScore ≥ 5 then .high
  else if riskScore ≥ 3 then .medium
  else .low

/-- `generateRequestId`: `` `req_${Date.now()}_${rand}` `` with the two
ambient effects (clock, random suffix) as inputs. -/
def generateRequestId (now : Nat) (rand : String) : String :=
  "req_" ++ toString now ++ "_" ++ rand

/-- `calculateProcessingTime(startTime)` read at clock value `now`. -/
def calculateProcessingTime (startTime now : Nat) : Nat :=
  now - startTime

/-! ## enhancedIPService.js — record building -/

/-- A coordinate pair (JS numbers after `parseFloat`). -/
structure Coordinates where
  latitude : Rat
  longitude : Rat
deriving Repr, DecidableEq

/-- `EnhancedIPService.extractCoordinates`: prefer the Cloudflare
latitude/longitude strings when both are truthy, else the IPInfo
`"lat,lon"` string, else `(0, 0)`. -/
def extractCoordinates (cfData : CloudflareRequestData)
    (ipinfoData : Option IPInfoData) : Coordinates :=
  match cfData.latitude, cfData.longitude with
  | some la, some lo => ⟨la, lo⟩
  | _, _ =>
    match ipinfoData with
    | some d =>
      match d.loc with
      | some (la, lo) => ⟨la, lo⟩
      | none => ⟨0, 0⟩
    | none => ⟨0, 0⟩

/-- The `location` section of the combined record. -/
structure LocationSection where
  country : String
  countryCode : String
  region : String
  city : String
  postalCode : String
  timezone : String
  coordinates : Coordinates
  continent : String
  accuracy : Accuracy
  sources : List String
deriving Repr, DecidableEq

/-- The `network` section of the combined record. -/
structure NetworkSection where
  asn : Nat
  organization : String
  isp : String
  domain : String
  asnType : String
  route : String
deriving Repr, DecidableEq

/-- The `security` section of the combined record. -/
structure SecuritySection where
  vpn : Bool
  proxy : Bool
  tor : Bool
  hosting : Bool
  threatLevel : ThreatLevel
  botScore : Option Nat
  verifiedBot : Option Bool
  malicious : Bool
deriving Repr, DecidableEq

/-- The `connection` section of the combined record. -/
structure ConnectionSection where
  datacenter : String
  httpProtocol : String
  tlsVersion : String
  tlsCipher : String
  tcpRtt : Option Nat
  edgeLocation : String
deriving Repr, DecidableEq

/-- The top-level `sources` block of the combined record. -/
structure SourcesSection where
  ipinfo : Bool
  cloudflare : Bool
  computed : List String
deriving Repr, DecidableEq

/-- The combined (unified) record returned by `combineData`. -/
structure UnifiedRecord where
  requestId : String
  timestamp : String
  processingTime : Nat
  ip : String
  ipVersion : Nat
  location : LocationSection
  network : NetworkSection
  security : SecuritySection
  connection : ConnectionSection
  company : Option String
  carrier : Option String
  sources : SourcesSection
deriving Repr, DecidableEq

/-- `ipinfoData?.asn`-dependent ASN number:
`cfData.asn || (ipinfoData?.asn ? parseInt(ipinfoData.asn.asn.replace('AS', '')) : 0)`. -/
def combinedAsn (cfData : CloudflareRequestData) (ipinfoData : Option IPInfoData) : Nat :=
  if cfData.asn ≠ 0 then cfData.asn
  else
    match ipinfoData with
    | some d =>
      match d.asn with
      | some a => a.asnNum
      | none => 0
    | none => 0

/-- `ipinfoData?.asn?.f || dflt` for a string field of the ASN block. -/
def chainAsnStr (ipinfoData : Option IPInfoData) (f : IPInfoAsn → String) : String :=
  match ipinfoData with
  | some d =>
    match d.asn with
    | some a => f a
    | none => ""
  | none => ""

/-- `EnhancedIPService.combineData(ip, ipVersion, cfData, ipinfoData,
requestId, startTime)`.  `now` is the `Date.now()` value and `nowIso` the
`new Date().toISOString()` value read while the record is built. -/
def combineData (ip : String) (ipVersion : Nat) (cfData : CloudflareRequestData)
    (ipinfoData : Option IPInfoData) (requestId : String)
    (startTime now : Nat) (nowIso : String) : UnifiedRecord :=
  let coordinates := extractCoordinates cfData ipinfoData
  let sources : List String :=
    (if cfData.country ≠ "" then ["cloudflare"] else []) ++
    (if ipinfoData.isSome then ["ipinfo"] else [])
  let highAccuracy : Bool :=
    sources.length ≥ 2 ∧ coordinates.latitude ≠ 0 ∧ coordinates.longitude ≠ 0
  let locationAccuracy : Accuracy :=
    if highAccuracy then .high
    else if sources.length ≥ 1 then .medium
    else .low
  let computedFields : List String :=
    if highAccuracy then ["location_accuracy"] else []
  { requestId := requestId
    timestamp := nowIso
    processingTime := calculateProcessingTime startTime now
    ip := ip
    ipVersion := ipVersion
    location :=
      { country := jsOr cfData.country (chainStr ipinfoData (·.country))
        countryCode := cfData.country
        region := jsOr cfData.region (chainStr ipinfoData (·.region))
        city := jsOr cfData.city (chainStr ipinfoData (·.city))
        postalCode := jsOr cfData.postalCode (chainStr ipinfoData (·.postal))
        timezone := jsOr cfData.timezone (chainStr ipinfoData (·.timezone))
        coordinates := coordinates
        continent := getContinentName cfData.continent
        accuracy := locationAccuracy
        sources := sources }
    network :=
      { asn := combinedAsn cfData ipinfoData
        organization := jsOr cfData.asOrganization (chainStr ipinfoData (·.org))
        isp := chainStr ipinfoData (·.org)
        domain := chainAsnStr ipinfoData (·.domain)
        asnType := jsOr (chainAsnStr ipinfoData (·.asnType)) "unknown"
        route := chainAsnStr ipinfoData (·.route) }
    security :=
      { vpn := privacyFlag ipinfoData (·.vpn)
        proxy := privacyFlag ipinfoData (·.proxy)
        tor := privacyFlag ipinfoData (·.tor)
        hosting := privacyFlag ipinfoData (·.hosting)
        threatLevel := assessThreatLevel cfData (ipinfoData.bind (·.privacy))
        botScore := cfData.botManagement.bind (·.score)
        verifiedBot := cfData.botManagement.bind (·.verifiedBot)
        malicious := assessThreatLevel cfData (ipinfoData.bind (·.privacy)) = .high }
    connection :=
      { datacenter := getDatacenterLocation cfData.colo
        httpProtocol := jsOr cfData.httpProtocol "unknown"
        tlsVersion := cfData.tlsVersion
        tlsCipher := cfData.tlsCipher
        tcpRtt := cfData.clientTcpRtt
        edgeLocation := jsOr cfData.colo "unknown" }
    company := ipinfoData.bind (·.company)
    carrier := ipinfoData.bind (·.carrier)
    sources :=
      { ipinfo := ipinfoData.isSome
        cloudflare := cfData.country ≠ "" ∨ cfData.colo ≠ ""
        computed := computedFields } }

/-- The record built by the focused `getGeolocation` endpoint
(the part of the source after validation and cache lookup). -/
structure GeoView where
  ip : String
  country : String
  countryCode : String
  region : String
  city : String
  postalCode : String
  timezone : String
  coordinates : Coordinates
  continent : String
  accuracy : Accuracy
  sources : List String
deriving Repr, DecidableEq

/-- `EnhancedIPService.getGeolocation`, record-building part.  Note the
two differences from `combineData`: `'ipinfo'` is counted as a source
only when the IPInfo *country* is truthy, and the `high` accuracy test
uses the raw Cloudflare latitude/longitude strings. -/
def geolocationView (ip : String) (cfData : CloudflareRequestData)
    (ipinfoData : Option IPInfoData) : GeoView :=
  let sources : List String :=
    (if cfData.country ≠ "" then ["cloudflare"] else []) ++
    (if chainStr ipinfoData (·.country) ≠ "" then ["ipinfo"] else [])
  let accuracy : Accuracy :=
    if sources.length ≥ 2 ∧ cfData.latitude.isSome ∧ cfData.longitude.isSome then .high
    else if sources.length ≥ 1 then .medium
    else .low
  { ip := ip
    country := jsOr cfData.country (chainStr ipinfoData (·.country))
    countryCode := cfData.country
    region := jsOr cfData.region (chainStr ipinfoData (·.region))
    city := jsOr cfData.city (chainStr ipinfoData (·.city))
    postalCode := jsOr cfData.postalCode (chainStr ipinfoData (·.postal))
    timezone := jsOr cfData.timezone (chainStr ipinfoData (·.timezone))
    coordinates := extractCoordinates cfData ipinfoData
    continent := getContinentName cfData.continent
    accuracy := accuracy
    sources := sources }

/-- The record built by the focused `getSecurityInfo` endpoint. -/
structure SecurityView where
  ip : String
  vpn : Bool
  proxy : Bool
  tor : Bool
  hosting : Bool
  threatLevel : ThreatLevel
  botScore : Option Nat
  verifiedBot : Option Bool
  malicious : Bool
  riskFactors : List String
deriving Repr, DecidableEq

/-- `EnhancedIPService.getSecurityInfo`, record-building part.  Here
`malicious` carries the explicit `(tor && proxy)` override, and the
low-bot-score risk factor uses a truthiness test on the score. -/
def securityView (ip : String) (cfData : CloudflareRequestData)
    (ipinfoData : Option IPInfoData) : SecurityView :=
  let vpn := privacyFlag ipinfoData (·.vpn)
  let proxy := privacyFlag ipinfoData (·.proxy)
  let tor := privacyFlag ipinfoData (·.tor)
  let hosting := privacyFlag ipinfoData (·.hosting)
  let riskFactors : List String :=
    (if vpn then ["VPN usage detected"] else []) ++
    (if proxy then ["Proxy usage detected"] else []) ++
    (if tor then ["Tor network usage detected"] else []) ++
    (if hosting then ["Hosting/datacenter IP"] else []) ++
    (match cfData.botManagement.bind (·.score) with
     | some s => if s ≠ 0 ∧ s < 50 then ["Low bot management score"] else []
     | none => [])
  let threatLevel := assessThreatLevel cfData (ipinfoData.bind (·.privacy))
  { ip := ip
    vpn := vpn
    proxy := proxy
    tor := tor
    hosting := hosting
    threatLevel := threatLevel
    botScore := cfData.botManagement.bind (·.score)
    verifiedBot := cfData.botManagement.bind (·.verifiedBot)
    malicious := threatLevel = .high ∨ (tor ∧ proxy)
    riskFactors := riskFactors }

/-- The record built by the focused `getNetworkInfo` endpoint. -/
structure NetworkView where
  ip : String
  asn : Nat
  organization : String
  isp : String
  asnType : String
  route : String
  datacenter : String
  httpProtocol : String
  tlsVersion : String
  connectionQuality : ConnQuality
deriving Repr, DecidableEq

/-- `EnhancedIPService.getNetworkInfo`, record-building part. -/
def networkView (ip : String) (cfData : CloudflareRequestData)
    (ipinfoData : Option IPInfoData) : NetworkView :=
  { ip := ip
    asn := combinedAsn cfData ipinfoData
    organization := jsOr cfData.asOrganization (chainStr ipinfoData (·.org))
    isp := chainStr ipinfoData (·.org)
    asnType := jsOr (chainAsnStr ipinfoData (·.asnType)) "unknown"
    route := chainAsnStr ipinfoData (·.route)
    datacenter := getDatacenterLocation cfData.colo
    httpProtocol := jsOr cfData.httpProtocol "unknown"
    tlsVersion := cfData.tlsVersion
    connectionQuality := assessConnectionQuality cfData }

/-! ## enhancedIPService.js — `fetchIPInfoData` -/

/-- What the outbound HTTP call can do, from the caller's viewpoint:
throw during transport, or deliver a response with an ok/not-ok status
whose body parses to `some j` or fails to parse (`none`). -/
inductive FetchOutcome (J : Type) where
  | transportError
  | response (ok : Bool) (body : Option J)
deriving Repr, DecidableEq

/-- A JS exception escaping the `try` block of `fetchIPInfoData`. -/
inductive JsError where
  | network
  | parse
deriving Repr, DecidableEq

/-- The body of the `try` block of `fetchIPInfoData`: `fetch` may throw,
a non-ok status returns `null`, `response.json()` may throw. -/
def fetchBody {J : Type} (o : FetchOutcome J) : Except JsError (Option J) :=
  match o with
  | .transportError => .error .network
  | .response ok body =>
    if ok = false then .ok none
    else
      match body with
      | some j => .ok (some j)
      | none => .error .parse

/-- `EnhancedIPService.fetchIPInfoData`: the `try` body with its
`catch` clause, which absorbs any exception into a `null` result. -/
def fetchIPInfoData {J : Type} (o : FetchOutcome J) : Except JsError (Option J) :=
  match fetchBody o with
  | .ok v => .ok v
  | .error _ => .ok none

/-! ## Spec-side definitions and test fixtures -/

/-- Spec-side rendering of the connection-quality rule as the claim
states it: the rtt bonus is `+2` whenever the round-trip time is below
50 ms (including 0 ms) and `+1` whenever it is below 100 ms, exclusive
bands.  Differs from `assessConnectionQuality` only in the treatment of
a present rtt equal to 0. -/
def specConnectionQuality (cfData : CloudflareRequestData) : ConnQuality :=
  let protoScore : Nat :=
    if cfData.httpProtocol = "HTTP/3" then 3
    else if cfData.httpProtocol = "HTTP/2" then 2
    else if cfData.httpProtocol = "HTTP/1.1" then 1
    else 0
  let tlsScore : Nat :=
    if cfData.tlsVersion = "TLSv1.3" then 2
    else if cfData.tlsVersion = "TLSv1.2" then 1
    else 0
  let rttScore : Nat :=
    match cfData.clientTcpRtt with
    | some rtt => if rtt < 50 then 2 else if rtt < 100 then 1 else 0
    | none => 0
  let score := protoScore + tlsScore + rttScore
  if score ≥ 6 then .excellent
  else if score ≥ 4 then .good
  else if score ≥ 2 then .fair
  else .poor

/-! ## cloudflareUtils.ts — `validateIP`

The validator tests its input against two JS regexes.  The embedding is
a small backtracking matcher over a regex AST; the two regexes of the
source are transcribed into that AST construct by construct.  Strings
are modelled as `List Char`; matching is anchored (`^ … $`, as in the
source) and a JS word boundary `\b` is evaluated from the previous
character and the head of the remaining input. -/

/-- A matcher context: the previously consumed character (`none` at the
start of input) and the remaining input. -/
abbrev RCtx : Type := Option Char × List Char

/-- Regex AST: character class, empty word, concatenation, alternation,
bounded repetition `{lo,hi}`, Kleene star of a character class, and the
word-boundary assertion `\b`. -/
inductive Regex : Type where
  | cls (p : Char → Bool)
  | eps
  | cat (r1 r2 : Regex)
  | alt (r1 r2 : Regex)
  | rep (lo hi : Nat) (r : Regex)
  | starCls (p : Char → Bool)
  | wb

/-- JS word character (`\w`): ASCII letter, digit or underscore. -/
def isWordChar (c : Char) : Bool :=
  c.isAlphanum || c = '_'

/-- JS `\b`: exactly one side of the position is a word character. -/
def atBoundary (prev : Option Char) (s : List Char) : Bool :=
  let pw := match prev with
    | some c => isWordChar c
    | none => false
  let nw := match s with
    | c :: _ => isWordChar c
    | [] => false
  pw != nw

/-- `k`-fold iteration of a nondeterministic step. -/
def runIter (f : RCtx → List RCtx) : Nat → RCtx → List RCtx
  | 0, ctx => [ctx]
  | k + 1, ctx => (f ctx).flatMap (runIter f k)

/-- Bounded repetition `{lo,hi}` of a nondeterministic step: at least
`lo` and (for `lo ≤ hi`) at most `hi` iterations. -/
def runRep (f : RCtx → List RCtx) : Nat → Nat → RCtx → List RCtx
  | 0, 0, ctx => [ctx]
  | 0, hi + 1, ctx => ctx :: (f ctx).flatMap (runRep f 0 hi)
  | lo + 1, hi, ctx => (f ctx).flatMap (runRep f lo (hi - 1))
termination_by lo hi _ => (lo, hi)

/-- Kleene star of a character class: stop anywhere, or consume a
matching character and continue. -/
def runStar (p : Char → Bool) : RCtx → List RCtx
  | (prev, []) => [(prev, [])]
  | (prev, c :: rest) =>
    (prev, c :: rest) :: (if p c then runStar p (some c, rest) else [])
termination_by ctx => ctx.2.length

/-- The matcher: all contexts reachable by matching `r` against a prefix
of the remaining input. -/
def runRegex : Regex → RCtx → List RCtx
  | .cls p, (_, s) =>
    match s with
    | [] => []
    | c :: rest => if p c then [(some c, rest)] else []
  | .eps, ctx => [ctx]
  | .cat r1 r2, ctx => (runRegex r1 ctx).flatMap (runRegex r2)
  | .alt r1 r2, ctx => runRegex r1 ctx ++ runRegex r2 ctx
  | .rep lo hi r, ctx => runRep (runRegex r) lo hi ctx
  | .starCls p, ctx => runStar p ctx
  | .wb, (prev, s) => if atBoundary prev s then [(prev, s)] else []

/-- Anchored acceptance (`^ … $`): some match consumes the whole input. -/
def accepts (r : Regex) (s : List Char) : Bool :=
  (runRegex r (none, s)).any (fun ctx => ctx.2.isEmpty)

/-- A single-character class. -/
def chC (c : Char) : Regex :=
  .cls (fun x => x = c)

/-- A character range class `[a-b]` (by code point, as in JS). -/
def rng (a b : Char) : Regex :=
  .cls (fun x => a ≤ x ∧ x ≤ b)

/-- `\d`. -/
def digitC : Regex :=
  .cls Char.isDigit

/-- `[0-9A-Fa-f]`. -/
def isHexC (c : Char) : Bool :=
  c.isDigit || ('a' ≤ c && c ≤ 'f') || ('A' ≤ c && c ≤ 'F')

/-- `r?`. -/
def optR (r : Regex) : Regex :=
  .alt r .eps

/-- The octet pattern of the IPv4 regex:
`(25[0-5]|(2[0-4]|1\d|[1-9]|)\d)`. -/
def octetRegex : Regex :=
  .alt (.cat (chC '2') (.cat (chC '5') (rng '0' '5')))
    (.cat (.alt (.cat (chC '2') (rng '0' '4'))
        (.alt (.cat (chC '1') digitC)
          (.alt (rng '1' '9') .eps)))
      digitC)

/-- One group of the IPv4 regex: `(octet)\.?\b`. -/
def ipv4Group : Regex :=
  .cat octetRegex (.cat (optR (chC '.')) .wb)

/-- The IPv4 regex of `validateIP`:
`/^((25[0-5]|(2[0-4]|1\d|[1-9]|)\d)\.?\b){4}$/`. -/
def ipv4Regex : Regex :=
  .rep 4 4 ipv4Group

/-- `[0-9A-Fa-f]{1,4}` — one hextet. -/
def h16 : Regex :=
  .rep 1 4 (.cls isHexC)

/-- `[0-9A-Fa-f]{1,4}:` — a hextet followed by a colon. -/
def h16c : Regex :=
  .cat h16 (chC ':')

/-- `:[0-9A-Fa-f]{1,4}` — a colon followed by a hextet. -/
def ch16 : Regex :=
  .cat (chC ':') h16

/-- The octet pattern embedded in the IPv6 regex:
`(25[0-5]|2[0-4]\d|1\d\d|[1-9]?\d)`. -/
def v4octRegex : Regex :=
  .alt (.cat (chC '2') (.cat (chC '5') (rng '0' '5')))
    (.alt (.cat (chC '2') (.cat (rng '0' '4') digitC))
      (.alt (.cat (chC '1') (.cat digitC digitC))
        (.cat (optR (rng '1' '9')) digitC)))

/-- The dotted quad embedded in the IPv6 regex: `(oct)(\.(oct)){3}`. -/
def v4InV6Regex : Regex :=
  .cat v4octRegex (.rep 3 3 (.cat (chC '.') v4octRegex))

/-- Alternative 1 of the IPv6 regex: `(h16:){7}(h16|:)`. -/
def ipv6Alt1 : Regex :=
  .cat (.rep 7 7 h16c) (.alt h16 (chC ':'))

/-- Alternative 2: `(h16:){6}(:h16|v4|:)`. -/
def ipv6Alt2 : Regex :=
  .cat (.rep 6 6 h16c) (.alt ch16 (.alt v4InV6Regex (chC ':')))

/-- Alternative 3: `(h16:){5}((:h16){1,2}|:v4|:)`. -/
def ipv6Alt3 : Regex :=
  .cat (.rep 5 5 h16c)
    (.alt (.rep 1 2 ch16) (.alt (.cat (chC ':') v4InV6Regex) (chC ':')))

/-- Alternative 4: `(h16:){4}((:h16){1,3}|(:h16)?:v4|:)`. -/
def ipv6Alt4 : Regex :=
  .cat (.rep 4 4 h16c)
    (.alt (.rep 1 3 ch16)
      (.alt (.cat (optR ch16) (.cat (chC ':') v4InV6Regex)) (chC ':')))

/-- Alternative 5: `(h16:){3}((:h16){1,4}|(:h16){0,2}:v4|:)`. -/
def ipv6Alt5 : Regex :=
  .cat (.rep 3 3 h16c)
    (.alt (.rep 1 4 ch16)
      (.alt (.cat (.rep 0 2 ch16) (.cat (chC ':') v4InV6Regex)) (chC ':')))

/-- Alternative 6: `(h16:){2}((:h16){1,5}|(:h16){0,3}:v4|:)`. -/
def ipv6Alt6 : Regex :=
  .cat (.rep 2 2 h16c)
    (.alt (.rep 1 5 ch16)
      (.alt (.cat (.rep 0 3 ch16) (.cat (chC ':') v4InV6Regex)) (chC ':')))

/-- Alternative 7: `(h16:){1}((:h16){1,6}|(:h16){0,4}:v4|:)`. -/
def ipv6Alt7 : Regex :=
  .cat (.rep 1 1 h16c)
    (.alt (.rep 1 6 ch16)
      (.alt (.cat (.rep 0 4 ch16) (.cat (chC ':') v4InV6Regex)) (chC ':')))

/-- Alternative 8: `:((:h16){1,7}|(:h16){0,5}:v4|:)`. -/
def ipv6Alt8 : Regex :=
  .cat (chC ':')
    (.alt (.rep 1 7 ch16)
      (.alt (.cat (.rep 0 5 ch16) (.cat (chC ':') v4InV6Regex)) (chC ':')))

/-- The core alternation of the IPv6 regex, in source order. -/
def ipv6Core : Regex :=
  .alt ipv6Alt1 (.alt ipv6Alt2 (.alt ipv6Alt3 (.alt ipv6Alt4
    (.alt ipv6Alt5 (.alt ipv6Alt6 (.alt ipv6Alt7 ipv6Alt8))))))

/-- JS `\s` (the whitespace class of the regex's `\s*` padding). -/
def isJsWs (c : Char) : Bool :=
  c = ' ' || c = '\t' || c = '\n' || c = '\u000B' || c = '\u000C' || c = '\r' ||
  c = '\u00A0' || c = '\u1680' ||
  ('\u2000' ≤ c && c ≤ '\u200A') ||
  c = '\u2028' || c = '\u2029' || c = '\u202F' || c = '\u205F' ||
  c = '\u3000' || c = '\uFEFF'

/-- JS `.` without the `s` flag: any character but a line terminator. -/
def isDotC (c : Char) : Bool :=
  !(c = '\n' || c = '\r' || c = '\u2028' || c = '\u2029')

/-- The zone-id suffix `(%.+)?`. -/
def zoneRegex : Regex :=
  optR (.cat (chC '%') (.cat (.cls isDotC) (.starCls isDotC)))

/-- The full IPv6 regex of `validateIP`:
`/^\s*(alt1|…|alt8)(%.+)?\s*$/`. -/
def ipv6Regex : Regex :=
  .cat (.starCls isJsWs) (.cat ipv6Core (.cat zoneRegex (.starCls isJsWs)))

/-- The result shape of `validateIP`:
`{valid: true, version} | {valid: false, error}`. -/
inductive ValidationResult : Type where
  | ok (version : Nat)
  | invalid (error : String)
deriving Repr, DecidableEq

/-- `validateIP(ip)`: empty input is rejected with the required-error,
then the IPv4 regex is tried, then the IPv6 regex. -/
def validateIP (ip : List Char) : ValidationResult :=
  if ip = [] then .invalid "IP address is required"
  else if accepts ipv4Regex ip then .ok 4
  else if accepts ipv6Regex ip then .ok 6
  else .invalid "Invalid IP address format"

/-- The previous-character component after consuming `t` on top of
`prev`: the last character of `t` when `t` is nonempty. -/
def prevAfter (prev : Option Char) (t : List Char) : Option Char :=
  match t.getLast? with
  | some c => some c
  | none => prev

/-- Numeric value of a decimal digit string. -/
def digitsVal (t : List Char) : Nat :=
  t.foldl (fun a c => a * 10 + (c.toNat - 48)) 0

/-- Spec-side: a canonical decimal octet in 0–255 — nonempty, at most
three digits, no leading zero (except `"0"` itself), value at most 255. -/
def isCanonOctet (t : List Char) : Bool :=
  (decide (t ≠ [])) && t.all Char.isDigit && (decide (t.length ≤ 3)) &&
  (match t with
   | c :: rest => !(c = '0' && !rest.isEmpty)
   | [] => true) &&
  decide (digitsVal t ≤ 255)

/-- Spec-side: `s` is a dotted-quad string of four octets each in 0–255
(canonical decimal notation). -/
def CanonicalQuad (s : List Char) : Prop :=
  ∃ t1 t2 t3 t4,
    isCanonOctet t1 = true ∧ isCanonOctet t2 = true ∧
    isCanonOctet t3 = true ∧ isCanonOctet t4 = true ∧
    s = t1 ++ '.' :: (t2 ++ '.' :: (t3 ++ '.' :: t4))

/-- Spec-side: a hextet — one to four hexadecimal digits. -/
def isH16B (t : List Char) : Bool :=
  (decide (t ≠ [])) && (decide (t.length ≤ 4)) && t.all isHexC

/-- Groups joined with single colons: `joinColon [a, b, c] = a:b:c`. -/
def joinColon : List (List Char) → List Char
  | [] => []
  | [g] => g
  | g :: rest => g ++ ':' :: joinColon rest

/-- Groups each followed by a trailing colon: `trailCat [a, b] = a:b:`
(the shape consumed by `(h16:){j}`). -/
def trailCat : List (List Char) → List Char
  | [] => []
  | g :: rest => g ++ ':' :: trailCat rest

/-- Groups each preceded by a colon: `colCat [a, b] = :a:b`
(the shape consumed by `(:h16){k}`). -/
def colCat : List (List Char) → List Char
  | [] => []
  | g :: rest => ':' :: (g ++ colCat rest)

/-- Spec-side: the canonical and `::`-compressed IPv6 text forms,
including the IPv4-mapped (dotted-quad) suffix forms:
eight hextets; six hextets and a quad; `gs1::gs2` with at most seven
hextets in total; `gs1::gs2:quad` with at most five hextets in total. -/
def IPv6CoreForm (s : List Char) : Prop :=
  (∃ gs : List (List Char), gs.length = 8 ∧ (∀ g ∈ gs, isH16B g = true) ∧
    s = joinColon gs) ∨
  (∃ (gs : List (List Char)) (q : List Char), gs.length = 6 ∧
    (∀ g ∈ gs, isH16B g = true) ∧ CanonicalQuad q ∧
    s = joinColon gs ++ ':' :: q) ∨
  (∃ gs1 gs2 : List (List Char), gs1.length + gs2.length ≤ 7 ∧
    (∀ g ∈ gs1, isH16B g = true) ∧ (∀ g ∈ gs2, isH16B g = true) ∧
    s = joinColon gs1 ++ ':' :: ':' :: joinColon gs2) ∨
  (∃ (gs1 gs2 : List (List Char)) (q : List Char),
    gs1.length + gs2.length ≤ 5 ∧
    (∀ g ∈ gs1, isH16B g = true) ∧ (∀ g ∈ gs2, isH16B g = true) ∧
    CanonicalQuad q ∧
    s = joinColon gs1 ++ ':' :: ':' ::
      (joinColon gs2 ++ (if gs2.isEmpty then q else ':' :: q)))

/-- Spec-side: an optional zone-id suffix — empty, or `%` followed by a
nonempty run of non-line-terminator characters. -/
def ZoneSuffix (z : List Char) : Prop :=
  z = [] ∨ ∃ t, t ≠ [] ∧ t.all isDotC = true ∧ z = '%' :: t

/-- Spec-side: the claim's IPv6 class — a canonical or compressed form
with an optional zone-id, with no surrounding whitespace. -/
def IPv6Claimed (s : List Char) : Prop :=
  ∃ core z, IPv6CoreForm core ∧ ZoneSuffix z ∧ s = core ++ z

/-- What the IPv6 regex actually accepts (proved below): an `IPv6Claimed`
string padded with arbitrary JS whitespace on either side. -/
def IPv6Padded (s : List Char) : Prop :=
  ∃ w1 w2 body, w1.all isJsWs = true ∧ w2.all isJsWs = true ∧
    IPv6Claimed body ∧ s = w1 ++ body ++ w2

/-- An all-absent Cloudflare metadata record (every field falsy). -/
def cfBlank : CloudflareRequestData :=
  ⟨"", "", "", "", "", none, none, "", 0, "", "", "", "", "", none, none⟩

/-- An all-absent IPInfo response body. -/
def infoBlank : IPInfoData :=
  ⟨"", "", "", "", "", "", none, none, none, none, none⟩

/-! ## Helper lemmas -/

/-- If both the `tor` and `proxy` privacy flags are set, the privacy
block alone contributes at least `3 + 2 = 5` risk points, so the threat
level is `high` whatever the bot score adds. -/
theorem assessThreatLevel_high_of_tor_proxy (cfData : CloudflareRequestData)
    (ipinfoData : Option IPInfoData)
    (htor : privacyFlag ipinfoData (·.tor) = true)
    (hproxy : privacyFlag ipinfoData (·.proxy) = true) :
    assessThreatLevel cfData (ipinfoData.bind (·.privacy)) = .high := by
  rcases ipinfoData with _ | d
  · simp [privacyFlag] at htor
  · rcases hp : d.privacy with _ | p
    · simp [privacyFlag, hp] at htor
    · simp only [privacyFlag, hp] at htor hproxy
      have h5 : 5 ≤ privacyRiskScore (some p) := by
        simp only [privacyRiskScore, htor, hproxy, if_true]
        cases hv : p.vpn <;> cases hh : p.hosting <;> simp [hv, hh]
      have hbind : (some d).bind (fun x => x.privacy) = some p := by
        simp [hp]
      unfold assessThreatLevel
      rw [hbind, if_pos]
      have hb := Nat.zero_le (botRiskScore cfData)
      generalize botRiskScore cfData = b at *
      generalize privacyRiskScore (some p) = q at *
      omega

/-! ## Cache lemmas -/

theorem mapFind_mapInsert_self (m : List (String × CacheEntry α)) (k : String)
    (e : CacheEntry α) : mapFind (mapInsert m k e) k = some e := by
  induction m with
  | nil => simp [mapInsert, mapFind]
  | cons p rest ih =>
    by_cases hp : p.1 = k
    · have hany : (p :: rest).any (fun q => q.1 = k) = true := by
        simp [List.any_cons, hp]
      simp [mapInsert, hany, mapFind, hp]
    · by_cases ha : rest.any (fun q => q.1 = k) = true
      · have hany : (p :: rest).any (fun q => q.1 = k) = true := by
          simp [List.any_cons, ha]
        simp only [mapInsert, hany, if_true, List.map_cons, if_neg hp]
        simp only [mapFind, if_neg hp]
        have := ih
        simpa [mapInsert, ha] using this
      · have ha' : rest.any (fun q => q.1 = k) = false := Bool.eq_false_iff.mpr ha
        have hany : (p :: rest).any (fun q => q.1 = k) = false := by
          simp [List.any_cons, hp, ha']
        simp only [mapInsert, hany, Bool.false_eq_true, if_false, List.cons_append]
        simp only [mapFind, if_neg hp]
        have := ih
        simpa [mapInsert, ha'] using this

theorem mapFind_mapDelete_self (m : List (String × CacheEntry α)) (k : String) :
    mapFind (mapDelete m k) k = none := by
  induction m with
  | nil => rfl
  | cons p rest ih =>
    by_cases hp : p.1 = k
    · simpa [mapDelete, hp] using ih
    · simpa [mapDelete, mapFind, hp] using ih

/-- `MemoryCache.set` always stores a fresh entry that `mapFind` sees. -/
theorem mapFind_set_self (c : MemoryCache α) (k : String) (d : α) (ttl now : Nat) :
    mapFind (c.set k d ttl now).entries k = some ⟨d, now, ttl⟩ := by
  unfold MemoryCache.set
  exact mapFind_mapInsert_self _ _ _

theorem keys_mapDelete (m : List (String × CacheEntry α)) (k : String) :
    (mapDelete m k).map Prod.fst = (m.map Prod.fst).filter (fun s => s ≠ k) := by
  induction m with
  | nil => rfl
  | cons p rest ih =>
    by_cases hp : p.1 = k <;> simp [mapDelete, List.filter_cons, hp, ih] <;>
      simpa [mapDelete] using ih

theorem length_mapDelete_of_mem {m : List (String × CacheEntry α)} {k : String}
    (hnd : (m.map Prod.fst).Nodup) (hk : k ∈ m.map Prod.fst) :
    (mapDelete m k).length + 1 = m.length := by
  induction m with
  | nil => simp at hk
  | cons p rest ih =>
    simp only [List.map_cons, List.nodup_cons] at hnd
    by_cases hp : p.1 = k
    · have hnotin : k ∉ rest.map Prod.fst := hp ▸ hnd.1
      have hrest : mapDelete rest k = rest := by
        unfold mapDelete
        apply List.filter_eq_self.mpr
        intro q hq
        simp only [ne_eq, decide_eq_true_eq]
        exact fun he => hnotin (he ▸ List.mem_map_of_mem Prod.fst hq)
      have hhead : mapDelete (p :: rest) k = mapDelete rest k := by
        simp [mapDelete, List.filter_cons, hp]
      rw [hhead, hrest]
      simp
    · have hk' : k ∈ rest.map Prod.fst := by
        rcases List.mem_cons.mp hk with h | h
        · exact absurd h.symm hp
        · exact h
      have hhead : mapDelete (p :: rest) k = p :: mapDelete rest k := by
        simp [mapDelete, List.filter_cons, hp]
      have := ih hnd.2 hk'
      rw [hhead]
      simp only [List.length_cons]
      omega

theorem foldl_mapDelete_sublist (l : List (String × CacheEntry α))
    (m : List (String × CacheEntry α)) :
    List.Sublist (l.foldl (fun acc p => mapDelete acc p.1) m) m := by
  induction l generalizing m with
  | nil => exact List.Sublist.refl m
  | cons p rest ih =>
    exact (ih (mapDelete m p.1)).trans (List.filter_sublist m)

theorem length_foldl_mapDelete (l : List (String × CacheEntry α))
    (m : List (String × CacheEntry α))
    (hnd : (m.map Prod.fst).Nodup) (hndl : (l.map Prod.fst).Nodup)
    (hmem : ∀ p ∈ l, p.1 ∈ m.map Prod.fst) :
    (l.foldl (fun acc p => mapDelete acc p.1) m).length + l.length = m.length := by
  induction l generalizing m with
  | nil => simp
  | cons p rest ih =>
    simp only [List.foldl_cons, List.length_cons]
    simp only [List.map_cons, List.nodup_cons] at hndl
    have hk : p.1 ∈ m.map Prod.fst := hmem p (List.mem_cons_self p rest)
    have hdel : (mapDelete m p.1).length + 1 = m.length := length_mapDelete_of_mem hnd hk
    have hnd' : ((mapDelete m p.1).map Prod.fst).Nodup := by
      rw [keys_mapDelete]
      exact hnd.filter _
    have hmem' : ∀ q ∈ rest, q.1 ∈ (mapDelete m p.1).map Prod.fst := by
      intro q hq
      rw [keys_mapDelete]
      refine List.mem_filter.mpr ⟨hmem q (List.mem_cons_of_mem p hq), ?_⟩
      simp only [ne_eq, decide_eq_true_eq]
      exact fun he => hndl.1 (he ▸ List.mem_map_of_mem Prod.fst hq)
    have := ih (mapDelete m p.1) hnd' hndl.2 hmem'
    omega

theorem length_mapInsert_le (m : List (String × CacheEntry α)) (k : String)
    (e : CacheEntry α) : (mapInsert m k e).length ≤ m.length + 1 := by
  unfold mapInsert
  split
  · simp
  · simp

theorem keys_map_replace (m : List (String × CacheEntry α)) (k : String)
    (e : CacheEntry α) :
    (m.map (fun p => if p.1 = k then (k, e) else p)).map Prod.fst = m.map Prod.fst := by
  induction m with
  | nil => rfl
  | cons p rest ih =>
    by_cases hp : p.1 = k <;> simp [hp, ih]

theorem nodupKeys_mapInsert (m : List (String × CacheEntry α)) (k : String)
    (e : CacheEntry α) (hnd : (m.map Prod.fst).Nodup) :
    ((mapInsert m k e).map Prod.fst).Nodup := by
  unfold mapInsert
  split
  · rw [keys_map_replace]
    exact hnd
  · rename_i hany
    have hk : k ∉ m.map Prod.fst := by
      intro hmem
      rcases List.mem_map.mp hmem with ⟨p, hp, hfst⟩
      exact hany (List.any_eq_true.mpr ⟨p, hp, by simp [hfst]⟩)
    simp only [List.map_append, List.map_cons, List.map_nil]
    rw [List.nodup_append]
    exact ⟨hnd, List.nodup_singleton k, by simpa using hk⟩

/-- `cleanup` on a within-capacity cache of capacity at least 5 always
frees at least one slot. -/
theorem cleanup_length_lt (c : MemoryCache α) (now : Nat) (hmax : 5 ≤ c.maxEntries)
    (hnd : (c.entries.map Prod.fst).Nodup) (hsz : c.entries.length ≤ c.maxEntries) :
    (c.cleanup now).entries.length < c.maxEntries ∧
      ((c.cleanup now).entries.map Prod.fst).Nodup := by
  simp only [MemoryCache.cleanup]
  have hae_sub : List.Sublist
      (c.entries.filter (fun p => ¬ (now - p.2.timestamp > p.2.ttl))) c.entries :=
    List.filter_sublist c.entries
  have hae_len : (c.entries.filter (fun p => ¬ (now - p.2.timestamp > p.2.ttl))).length ≤
      c.entries.length := hae_sub.length_le
  have hae_nd : ((c.entries.filter (fun p => ¬ (now - p.2.timestamp > p.2.ttl))).map
      Prod.fst).Nodup := hnd.sublist (hae_sub.map Prod.fst)
  split
  · rename_i hge
    set ae := c.entries.filter (fun p => ¬ (now - p.2.timestamp > p.2.ttl)) with hae
    set sorted := List.insertionSort (fun a b => a.2.timestamp ≤ b.2.timestamp) ae with hsorted
    have hperm : List.Perm sorted ae := List.perm_insertionSort _ _
    have hsorted_len : sorted.length = ae.length := hperm.length_eq
    have hsorted_nd : (sorted.map Prod.fst).Nodup := ((hperm.map Prod.fst).nodup_iff).mpr hae_nd
    have htake_sub : List.Sublist (sorted.take (c.maxEntries / 5)) sorted :=
      List.take_sublist _ _
    have htake_nd : ((sorted.take (c.maxEntries / 5)).map Prod.fst).Nodup :=
      hsorted_nd.sublist (htake_sub.map Prod.fst)
    have htake_len : (sorted.take (c.maxEntries / 5)).length = c.maxEntries / 5 := by
      rw [List.length_take, hsorted_len]
      have : c.maxEntries / 5 ≤ ae.length := by omega
      omega
    have htake_mem : ∀ p ∈ sorted.take (c.maxEntries / 5), p.1 ∈ ae.map Prod.fst := by
      intro p hp
      exact List.mem_map_of_mem Prod.fst (hperm.subset (List.take_subset _ _ hp))
    have hfold := length_foldl_mapDelete (sorted.take (c.maxEntries / 5)) ae
      hae_nd htake_nd htake_mem
    constructor
    · rw [htake_len] at hfold
      have hle : ae.length ≤ c.maxEntries := le_trans hae_len hsz
      have hgoal : (List.foldl (fun m p => mapDelete m p.1) ae
          (sorted.take (c.maxEntries / 5))).length < c.maxEntries := by omega
      exact hgoal
    · exact hae_nd.sublist ((foldl_mapDelete_sublist _ _).map Prod.fst)
  · rename_i hlt
    exact ⟨Nat.not_le.mp hlt, hae_nd⟩

/-! ## Regex engine lemmas -/

theorem mem_runRegex_cat {r1 r2 : Regex} {c c2 : RCtx} :
    c2 ∈ runRegex (.cat r1 r2) c ↔ ∃ c1 ∈ runRegex r1 c, c2 ∈ runRegex r2 c1 := by
  simp [runRegex, List.mem_flatMap]

theorem mem_runRegex_alt {r1 r2 : Regex} {c c2 : RCtx} :
    c2 ∈ runRegex (.alt r1 r2) c ↔ c2 ∈ runRegex r1 c ∨ c2 ∈ runRegex r2 c := by
  simp [runRegex]

theorem mem_runRegex_eps {c c2 : RCtx} :
    c2 ∈ runRegex .eps c ↔ c2 = c := by
  simp [runRegex]

theorem mem_runRegex_cls {p : Char → Bool} {prev : Option Char} {s : List Char}
    {c2 : RCtx} :
    c2 ∈ runRegex (.cls p) (prev, s) ↔
      ∃ ch rest, s = ch :: rest ∧ p ch = true ∧ c2 = (some ch, rest) := by
  cases s with
  | nil => simp [runRegex]
  | cons ch rest =>
    by_cases h : p ch
    · simp only [runRegex, if_pos h, List.mem_singleton]
      constructor
      · rintro rfl
        exact ⟨ch, rest, rfl, h, rfl⟩
      · rintro ⟨ch2, rest2, heq, hp, rfl⟩
        injection heq with h1 h2
        subst h1
        subst h2
        rfl
    · constructor
      · intro hmem
        simp [runRegex, h] at hmem
      · rintro ⟨ch2, rest2, heq, hp, rfl⟩
        injection heq with h1 h2
        subst h1
        exact absurd hp h

theorem mem_runRegex_wb {prev : Option Char} {s : List Char} {c2 : RCtx} :
    c2 ∈ runRegex .wb (prev, s) ↔ atBoundary prev s = true ∧ c2 = (prev, s) := by
  by_cases h : atBoundary prev s <;> simp [runRegex, h]

theorem mem_runIter_succ {f : RCtx → List RCtx} {k : Nat} {c c2 : RCtx} :
    c2 ∈ runIter f (k + 1) c ↔ ∃ c1 ∈ f c, c2 ∈ runIter f k c1 := by
  simp [runIter, List.mem_flatMap]

theorem mem_runIter_zero {f : RCtx → List RCtx} {c c2 : RCtx} :
    c2 ∈ runIter f 0 c ↔ c2 = c := by
  simp [runIter]

theorem mem_runRep_iff {f : RCtx → List RCtx} :
    ∀ {lo hi : Nat} {c c2 : RCtx}, lo ≤ hi →
      (c2 ∈ runRep f lo hi c ↔ ∃ k, lo ≤ k ∧ k ≤ hi ∧ c2 ∈ runIter f k c) := by
  intro lo hi
  induction hi generalizing lo with
  | zero =>
    intro c c2 h
    have hlo : lo = 0 := Nat.le_zero.mp h
    subst hlo
    have hrw : runRep f 0 0 c = [c] := by simp [runRep]
    rw [hrw]
    simp only [List.mem_singleton]
    constructor
    · rintro rfl
      exact ⟨0, le_refl 0, le_refl 0, mem_runIter_zero.mpr rfl⟩
    · rintro ⟨k, _, hk0, hmem⟩
      have hk : k = 0 := Nat.le_zero.mp hk0
      subst hk
      exact mem_runIter_zero.mp hmem
  | succ hi ih =>
    intro c c2 h
    cases lo with
    | zero =>
      have hrw : runRep f 0 (hi + 1) c = c :: (f c).flatMap (runRep f 0 hi) := by
        simp [runRep]
      rw [hrw]
      simp only [List.mem_cons, List.mem_flatMap]
      constructor
      · rintro (rfl | ⟨c1, hc1, hmem⟩)
        · exact ⟨0, le_refl 0, Nat.zero_le _, mem_runIter_zero.mpr rfl⟩
        · rcases (ih (Nat.zero_le hi)).mp hmem with ⟨k, _, hk, hit⟩
          exact ⟨k + 1, Nat.zero_le _, by omega,
            mem_runIter_succ.mpr ⟨c1, hc1, hit⟩⟩
      · rintro ⟨k, _, hk, hit⟩
        cases k with
        | zero => exact Or.inl (mem_runIter_zero.mp hit)
        | succ k =>
          rcases mem_runIter_succ.mp hit with ⟨c1, hc1, hit2⟩
          exact Or.inr ⟨c1, hc1, (ih (Nat.zero_le hi)).mpr ⟨k, Nat.zero_le _, by omega, hit2⟩⟩
    | succ lo =>
      have hrw : runRep f (lo + 1) (hi + 1) c = (f c).flatMap (runRep f lo hi) := by
        simp [runRep]
      rw [hrw]
      simp only [List.mem_flatMap]
      have hlh : lo ≤ hi := by omega
      constructor
      · rintro ⟨c1, hc1, hmem⟩
        rcases (ih hlh).mp hmem with ⟨k, hk1, hk2, hit⟩
        exact ⟨k + 1, by omega, by omega, mem_runIter_succ.mpr ⟨c1, hc1, hit⟩⟩
      · rintro ⟨k, hk1, hk2, hit⟩
        cases k with
        | zero => omega
        | succ k =>
          rcases mem_runIter_succ.mp hit with ⟨c1, hc1, hit2⟩
          exact ⟨c1, hc1, (ih hlh).mpr ⟨k, by omega, by omega, hit2⟩⟩

theorem prevAfter_cons {prev : Option Char} {ch : Char} {t : List Char} :
    prevAfter prev (ch :: t) = prevAfter (some ch) t := by
  cases t with
  | nil => simp [prevAfter]
  | cons a t2 =>
    have hsome : (a :: t2).getLast?.isSome := by
      rw [List.getLast?_isSome]
      simp
    rcases Option.isSome_iff_exists.mp hsome with ⟨c, hc⟩
    simp [prevAfter, List.getLast?_cons_cons, hc]

theorem mem_runIter_cls {p : Char → Bool} :
    ∀ {k : Nat} {prev : Option Char} {s : List Char} {c2 : RCtx},
      c2 ∈ runIter (runRegex (.cls p)) k (prev, s) ↔
        ∃ t, t.length = k ∧ t.all p = true ∧ s = t ++ c2.2 ∧
          c2.1 = prevAfter prev t := by
  intro k
  induction k with
  | zero =>
    intro prev s c2
    rw [mem_runIter_zero]
    constructor
    · rintro rfl
      exact ⟨[], rfl, rfl, rfl, rfl⟩
    · rintro ⟨t, hlen, _, hs, hprev⟩
      have ht : t = [] := List.length_eq_zero.mp hlen
      subst ht
      simp only [List.nil_append] at hs
      simp only [prevAfter, List.getLast?_nil] at hprev
      cases c2
      simp_all
  | succ k ih =>
    intro prev s c2
    rw [mem_runIter_succ]
    constructor
    · rintro ⟨c1, hc1, hmem⟩
      rcases mem_runRegex_cls.mp hc1 with ⟨ch, rest, rfl, hch, rfl⟩
      rcases ih.mp hmem with ⟨t, hlen, hall, hs, hprev⟩
      refine ⟨ch :: t, by simp [hlen], by simp [hch, hall], by simp [hs], ?_⟩
      rw [prevAfter_cons]
      exact hprev
    · rintro ⟨t, hlen, hall, hs, hprev⟩
      cases t with
      | nil => simp at hlen
      | cons ch t2 =>
        simp only [List.all_cons, Bool.and_eq_true] at hall
        simp only [List.cons_append] at hs
        rw [prevAfter_cons] at hprev
        refine ⟨(some ch, t2 ++ c2.2),
          mem_runRegex_cls.mpr ⟨ch, t2 ++ c2.2, hs, hall.1, rfl⟩, ?_⟩
        exact ih.mpr ⟨t2, by simpa using hlen, hall.2, rfl, hprev⟩

theorem mem_runStar_iff {p : Char → Bool} :
    ∀ {s : List Char} {prev : Option Char} {c2 : RCtx},
      c2 ∈ runStar p (prev, s) ↔
        ∃ t, t.all p = true ∧ s = t ++ c2.2 ∧ c2.1 = prevAfter prev t := by
  intro s
  induction s with
  | nil =>
    intro prev c2
    simp only [runStar, List.mem_singleton]
    constructor
    · rintro rfl
      exact ⟨[], rfl, rfl, rfl⟩
    · rintro ⟨t, _, hs, hprev⟩
      have ht : t = [] := by
        cases t with
        | nil => rfl
        | cons a t2 => simp at hs
      subst ht
      simp only [List.nil_append] at hs
      simp only [prevAfter, List.getLast?_nil] at hprev
      cases c2
      simp_all
  | cons ch rest ih =>
    intro prev c2
    simp only [runStar, List.mem_cons]
    constructor
    · rintro (rfl | hmem)
      · exact ⟨[], rfl, rfl, rfl⟩
      · by_cases hch : p ch
        · rw [if_pos hch] at hmem
          rcases ih.mp hmem with ⟨t2, hall, hs, hprev⟩
          exact ⟨ch :: t2, by simp [hch, hall], by simp [hs],
            by rw [prevAfter_cons]; exact hprev⟩
        · rw [if_neg hch] at hmem
          simp at hmem
    · rintro ⟨t, hall, hs, hprev⟩
      cases t with
      | nil =>
        simp only [List.nil_append] at hs
        simp only [prevAfter, List.getLast?_nil] at hprev
        left
        cases c2
        simp_all
      | cons ch2 t2 =>
        simp only [List.cons_append, List.cons.injEq] at hs
        rcases hs with ⟨rfl, hs⟩
        simp only [List.all_cons, Bool.and_eq_true] at hall
        right
        rw [if_pos hall.1]
        rw [prevAfter_cons] at hprev
        exact ih.mpr ⟨t2, hall.2, hs, hprev⟩

/-! ## Character arithmetic helpers -/

theorem isDigit_toNat {c : Char} (h : c.isDigit = true) :
    48 ≤ c.toNat ∧ c.toNat ≤ 57 := by
  simp only [Char.isDigit, Bool.and_eq_true, decide_eq_true_eq] at h
  exact ⟨h.1, h.2⟩

theorem isDigit_of_toNat {c : Char} (h1 : 48 ≤ c.toNat) (h2 : c.toNat ≤ 57) :
    c.isDigit = true := by
  simp only [Char.isDigit, Bool.and_eq_true, decide_eq_true_eq]
  exact ⟨h1, h2⟩

theorem char_le_iff {a b : Char} : a ≤ b ↔ a.toNat ≤ b.toNat := by
  rw [Char.le_def]
  rfl

theorem char_toNat_eq_iff {a b : Char} : a = b ↔ a.toNat = b.toNat :=
  ⟨fun h => h ▸ rfl, fun h => Char.eq_of_val_eq (UInt32.ext h)⟩

/-! ## The octet sub-pattern of the IPv4 regex -/

theorem digitsVal_one (a : Char) : digitsVal [a] = a.toNat - 48 := by
  simp [digitsVal]

theorem digitsVal_two (a b : Char) (ha : 48 ≤ a.toNat) :
    digitsVal [a, b] = (a.toNat - 48) * 10 + (b.toNat - 48) := by
  simp only [digitsVal, List.foldl]
  omega

theorem digitsVal_three (a b c : Char) (ha : 48 ≤ a.toNat) (hb : 48 ≤ b.toNat) :
    digitsVal [a, b, c] =
      (a.toNat - 48) * 100 + (b.toNat - 48) * 10 + (c.toNat - 48) := by
  simp only [digitsVal, List.foldl]
  omega

theorem isCanonOctet_one {a : Char} (h1 : 48 ≤ a.toNat) (h2 : a.toNat ≤ 57) :
    isCanonOctet [a] = true := by
  simp only [isCanonOctet, Bool.and_eq_true, decide_eq_true_eq]
  refine ⟨⟨⟨⟨by simp, by simp [isDigit_of_toNat h1 h2]⟩, by simp⟩, by simp⟩, ?_⟩
  rw [digitsVal_one]
  omega

theorem isCanonOctet_two {a b : Char} (h1 : 49 ≤ a.toNat) (h2 : a.toNat ≤ 57)
    (h3 : 48 ≤ b.toNat) (h4 : b.toNat ≤ 57) :
    isCanonOctet [a, b] = true := by
  have hne : a ≠ '0' := by
    intro he
    rw [he] at h1
    simp at h1
  simp only [isCanonOctet, Bool.and_eq_true, decide_eq_true_eq]
  refine ⟨⟨⟨⟨by simp, by simp [isDigit_of_toNat (by omega : 48 ≤ a.toNat) h2,
    isDigit_of_toNat h3 h4]⟩, by simp⟩, by simp [hne]⟩, ?_⟩
  rw [digitsVal_two a b (by omega)]
  omega

theorem isCanonOctet_three {a b c : Char} (h1 : 49 ≤ a.toNat) (h2 : a.toNat ≤ 57)
    (h3 : 48 ≤ b.toNat) (h4 : b.toNat ≤ 57) (h5 : 48 ≤ c.toNat) (h6 : c.toNat ≤ 57)
    (hval : (a.toNat - 48) * 100 + (b.toNat - 48) * 10 + (c.toNat - 48) ≤ 255) :
    isCanonOctet [a, b, c] = true := by
  have hne : a ≠ '0' := by
    intro he
    rw [he] at h1
    simp at h1
  simp only [isCanonOctet, Bool.and_eq_true, decide_eq_true_eq]
  refine ⟨⟨⟨⟨by simp, by simp [isDigit_of_toNat (by omega : 48 ≤ a.toNat) h2,
    isDigit_of_toNat h3 h4, isDigit_of_toNat h5 h6]⟩, by simp⟩, by simp [hne]⟩, ?_⟩
  rw [digitsVal_three a b c (by omega) h3]
  omega

theorem isCanonOctet_cases {t : List Char} (h : isCanonOctet t = true) :
    (∃ a, t = [a] ∧ 48 ≤ a.toNat ∧ a.toNat ≤ 57) ∨
    (∃ a b, t = [a, b] ∧ 49 ≤ a.toNat ∧ a.toNat ≤ 57 ∧
      48 ≤ b.toNat ∧ b.toNat ≤ 57) ∨
    (∃ a b c, t = [a, b, c] ∧ 49 ≤ a.toNat ∧ a.toNat ≤ 57 ∧
      48 ≤ b.toNat ∧ b.toNat ≤ 57 ∧ 48 ≤ c.toNat ∧ c.toNat ≤ 57 ∧
      (a.toNat - 48) * 100 + (b.toNat - 48) * 10 + (c.toNat - 48) ≤ 255) := by
  simp only [isCanonOctet, Bool.and_eq_true, decide_eq_true_eq] at h
  obtain ⟨⟨⟨⟨hne, hdig⟩, hlen⟩, hlead⟩, hval⟩ := h
  match t with
  | [] => simp at hne
  | [a] =>
    simp only [List.all_cons, List.all_nil, Bool.and_eq_true] at hdig
    have := isDigit_toNat hdig.1
    exact Or.inl ⟨a, rfl, this.1, this.2⟩
  | [a, b] =>
    simp only [List.all_cons, List.all_nil, Bool.and_eq_true] at hdig
    have ha := isDigit_toNat hdig.1
    have hb := isDigit_toNat hdig.2.1
    have hne0 : a ≠ '0' := by
      intro he
      subst he
      simp at hlead
    have h49 : 49 ≤ a.toNat := by
      rcases Nat.lt_or_ge a.toNat 49 with hl | hg
      · refine absurd (char_toNat_eq_iff.mpr ?_) hne0
        have h0 : ('0' : Char).toNat = 48 := rfl
        omega
      · exact hg
    exact Or.inr (Or.inl ⟨a, b, rfl, h49, ha.2, hb.1, hb.2⟩)
  | [a, b, c] =>
    simp only [List.all_cons, List.all_nil, Bool.and_eq_true] at hdig
    have ha := isDigit_toNat hdig.1
    have hb := isDigit_toNat hdig.2.1
    have hc := isDigit_toNat hdig.2.2.1
    have hne0 : a ≠ '0' := by
      intro he
      subst he
      simp at hlead
    have h49 : 49 ≤ a.toNat := by
      rcases Nat.lt_or_ge a.toNat 49 with hl | hg
      · refine absurd (char_toNat_eq_iff.mpr ?_) hne0
        have h0 : ('0' : Char).toNat = 48 := rfl
        omega
      · exact hg
    rw [digitsVal_three a b c ha.1 hb.1] at hval
    exact Or.inr (Or.inr ⟨a, b, c, rfl, h49, ha.2, hb.1, hb.2, hc.1, hc.2, hval⟩)
  | _ :: _ :: _ :: _ :: _ => simp at hlen

/-- The octet pattern of the IPv4 regex consumes exactly the canonical
decimal representations of 0–255. -/
theorem mem_run_octet {prev : Option Char} {s : List Char} {c2 : RCtx} :
    c2 ∈ runRegex octetRegex (prev, s) ↔
      ∃ t, isCanonOctet t = true ∧ s = t ++ c2.2 ∧ c2.1 = prevAfter prev t := by
  have e0 : ('0' : Char).toNat = 48 := rfl
  have e1 : ('1' : Char).toNat = 49 := rfl
  have e2 : ('2' : Char).toNat = 50 := rfl
  have e4 : ('4' : Char).toNat = 52 := rfl
  have e5 : ('5' : Char).toNat = 53 := rfl
  have e9 : ('9' : Char).toNat = 57 := rfl
  constructor
  · intro hmem
    rcases mem_runRegex_alt.mp hmem with hA | hB
    · rcases mem_runRegex_cat.mp hA with ⟨m1, h1, hrest⟩
      rcases mem_runRegex_cls.mp h1 with ⟨ch1, r1, rfl, hp1, rfl⟩
      rcases mem_runRegex_cat.mp hrest with ⟨m2, h2, h3⟩
      rcases mem_runRegex_cls.mp h2 with ⟨ch2, r2, rfl, hp2, rfl⟩
      rcases mem_runRegex_cls.mp h3 with ⟨ch3, r3, rfl, hp3, rfl⟩
      simp only [decide_eq_true_eq] at hp1 hp2 hp3
      subst hp1
      subst hp2
      rw [char_le_iff, char_le_iff] at hp3
      refine ⟨['2', '5', ch3], ?_, by simp, by simp [prevAfter]⟩
      refine isCanonOctet_three (by omega) (by omega) (by omega) (by omega)
        (by omega) (by omega) (by omega)
    · rcases mem_runRegex_cat.mp hB with ⟨m1, hP, hd⟩
      rcases mem_runRegex_alt.mp hP with h20 | hP2
      · -- 2[0-4] \d
        rcases mem_runRegex_cat.mp h20 with ⟨mm, hm2, hm04⟩
        rcases mem_runRegex_cls.mp hm2 with ⟨ch1, r1, rfl, hp1, rfl⟩
        rcases mem_runRegex_cls.mp hm04 with ⟨ch2, r2, rfl, hp2, rfl⟩
        rcases mem_runRegex_cls.mp hd with ⟨ch3, r3, rfl, hp3, rfl⟩
        simp only [decide_eq_true_eq] at hp1 hp2
        subst hp1
        rw [char_le_iff, char_le_iff] at hp2
        have hd3 := isDigit_toNat hp3
        refine ⟨['2', ch2, ch3], ?_, by simp, by simp [prevAfter]⟩
        refine isCanonOctet_three (by omega) (by omega) (by omega) (by omega)
          (by omega) (by omega) (by omega)
      · rcases mem_runRegex_alt.mp hP2 with h1d | hP3
        · -- 1 \d \d
          rcases mem_runRegex_cat.mp h1d with ⟨mm, hm1, hmd⟩
          rcases mem_runRegex_cls.mp hm1 with ⟨ch1, r1, rfl, hp1, rfl⟩
          rcases mem_runRegex_cls.mp hmd with ⟨ch2, r2, rfl, hp2, rfl⟩
          rcases mem_runRegex_cls.mp hd with ⟨ch3, r3, rfl, hp3, rfl⟩
          simp only [decide_eq_true_eq] at hp1
          subst hp1
          have hd2 := isDigit_toNat hp2
          have hd3 := isDigit_toNat hp3
          refine ⟨['1', ch2, ch3], ?_, by simp, by simp [prevAfter]⟩
          refine isCanonOctet_three (by omega) (by omega) (by omega) (by omega)
            (by omega) (by omega) (by omega)
        · rcases mem_runRegex_alt.mp hP3 with h19 | hEps
          · -- [1-9] \d
            rcases mem_runRegex_cls.mp h19 with ⟨ch1, r1, rfl, hp1, rfl⟩
            rcases mem_runRegex_cls.mp hd with ⟨ch2, r2, rfl, hp2, rfl⟩
            simp only [decide_eq_true_eq] at hp1
            rw [char_le_iff, char_le_iff] at hp1
            have hd2 := isDigit_toNat hp2
            refine ⟨[ch1, ch2], ?_, by simp, by simp [prevAfter]⟩
            exact isCanonOctet_two (by omega) (by omega) (by omega) (by omega)
          · -- ε \d
            rw [mem_runRegex_eps] at hEps
            subst hEps
            rcases mem_runRegex_cls.mp hd with ⟨ch1, r1, rfl, hp1, rfl⟩
            have hd1 := isDigit_toNat hp1
            refine ⟨[ch1], ?_, by simp, by simp [prevAfter]⟩
            exact isCanonOctet_one (by omega) (by omega)
  · rintro ⟨t, hoct, rfl, hprev⟩
    rcases isCanonOctet_cases hoct with ⟨a, rfl, h1, h2⟩ | ⟨a, b, rfl, h1, h2, h3, h4⟩ |
      ⟨a, b, c, rfl, h1, h2, h3, h4, h5, h6, hval⟩
    · -- single digit: ε then \d
      refine mem_runRegex_alt.mpr (Or.inr (mem_runRegex_cat.mpr
        ⟨(prev, a :: c2.2), ?_, ?_⟩))
      · exact mem_runRegex_alt.mpr (Or.inr (mem_runRegex_alt.mpr (Or.inr
          (mem_runRegex_alt.mpr (Or.inr (mem_runRegex_eps.mpr rfl))))))
      · refine mem_runRegex_cls.mpr ⟨a, c2.2, rfl, isDigit_of_toNat h1 h2, ?_⟩
        have : c2.1 = some a := by
          rw [hprev]
          simp [prevAfter]
        rw [← this]
    · -- two digits: [1-9] then \d
      refine mem_runRegex_alt.mpr (Or.inr (mem_runRegex_cat.mpr
        ⟨(some a, b :: c2.2), ?_, ?_⟩))
      · refine mem_runRegex_alt.mpr (Or.inr (mem_runRegex_alt.mpr (Or.inr
          (mem_runRegex_alt.mpr (Or.inl ?_)))))
        refine mem_runRegex_cls.mpr ⟨a, b :: c2.2, rfl, ?_, rfl⟩
        simp only [decide_eq_true_eq]
        rw [char_le_iff, char_le_iff]
        omega
      · refine mem_runRegex_cls.mpr ⟨b, c2.2, rfl, isDigit_of_toNat h3 h4, ?_⟩
        have : c2.1 = some b := by
          rw [hprev]
          simp [prevAfter]
        rw [← this]
    · -- three digits
      have ha2 : a.toNat = 49 ∨ a.toNat = 50 := by omega
      rcases ha2 with ha49 | ha50
      · -- a = '1' : the 1\d branch then \d
        have haeq : a = '1' := char_toNat_eq_iff.mpr (by omega)
        subst haeq
        refine mem_runRegex_alt.mpr (Or.inr (mem_runRegex_cat.mpr
          ⟨(some b, c :: c2.2), ?_, ?_⟩))
        · refine mem_runRegex_alt.mpr (Or.inr (mem_runRegex_alt.mpr (Or.inl
            (mem_runRegex_cat.mpr ⟨(some '1', b :: c :: c2.2), ?_, ?_⟩))))
          · exact mem_runRegex_cls.mpr ⟨'1', b :: c :: c2.2, rfl, by simp, rfl⟩
          · exact mem_runRegex_cls.mpr ⟨b, c :: c2.2, rfl, isDigit_of_toNat h3 h4, rfl⟩
        · refine mem_runRegex_cls.mpr ⟨c, c2.2, rfl, isDigit_of_toNat h5 h6, ?_⟩
          have : c2.1 = some c := by
            rw [hprev]
            simp [prevAfter]
          rw [← this]
      · -- a = '2'
        have haeq : a = '2' := char_toNat_eq_iff.mpr (by omega)
        subst haeq
        have hb55 : b.toNat ≤ 53 := by omega
        rcases Nat.lt_or_ge b.toNat 53 with hb52 | hb53
        · -- b ≤ '4' : the 2[0-4]\d branch
          refine mem_runRegex_alt.mpr (Or.inr (mem_runRegex_cat.mpr
            ⟨(some b, c :: c2.2), ?_, ?_⟩))
          · refine mem_runRegex_alt.mpr (Or.inl
              (mem_runRegex_cat.mpr ⟨(some '2', b :: c :: c2.2), ?_, ?_⟩))
            · exact mem_runRegex_cls.mpr ⟨'2', b :: c :: c2.2, rfl, by simp, rfl⟩
            · refine mem_runRegex_cls.mpr ⟨b, c :: c2.2, rfl, ?_, rfl⟩
              simp only [decide_eq_true_eq]
              rw [char_le_iff, char_le_iff]
              omega
          · refine mem_runRegex_cls.mpr ⟨c, c2.2, rfl, isDigit_of_toNat h5 h6, ?_⟩
            have : c2.1 = some c := by
              rw [hprev]
              simp [prevAfter]
            rw [← this]
        · -- b = '5' : the 25[0-5] branch
          have hbeq : b = '5' := char_toNat_eq_iff.mpr (by omega)
          subst hbeq
          have hc53 : c.toNat ≤ 53 := by omega
          refine mem_runRegex_alt.mpr (Or.inl (mem_runRegex_cat.mpr
            ⟨(some '2', '5' :: c :: c2.2), ?_, ?_⟩))
          · exact mem_runRegex_cls.mpr ⟨'2', '5' :: c :: c2.2, rfl, by simp, rfl⟩
          · refine mem_runRegex_cat.mpr ⟨(some '5', c :: c2.2), ?_, ?_⟩
            · exact mem_runRegex_cls.mpr ⟨'5', c :: c2.2, rfl, by simp, rfl⟩
            · refine mem_runRegex_cls.mpr ⟨c, c2.2, rfl, ?_, ?_⟩
              · simp only [decide_eq_true_eq]
                rw [char_le_iff, char_le_iff]
                omega
              · have : c2.1 = some c := by
                  rw [hprev]
                  simp [prevAfter]
                rw [← this]

theorem isWordChar_digit {c : Char} (h1 : 48 ≤ c.toNat) (h2 : c.toNat ≤ 57) :
    isWordChar c = true := by
  simp only [isWordChar, Char.isAlphanum, Bool.or_eq_true]
  exact Or.inl (Or.inr (isDigit_of_toNat h1 h2))

theorem isCanonOctet_head {t : List Char} (h : isCanonOctet t = true) :
    ∃ a t2, t = a :: t2 ∧ 48 ≤ a.toNat ∧ a.toNat ≤ 57 := by
  rcases isCanonOctet_cases h with ⟨a, rfl, h1, h2⟩ | ⟨a, b, rfl, h1, h2, _⟩ |
    ⟨a, b, c, rfl, h1, h2, _⟩
  · exact ⟨a, [], rfl, h1, h2⟩
  · exact ⟨a, [b], rfl, by omega, h2⟩
  · exact ⟨a, [b, c], rfl, by omega, h2⟩

theorem isCanonOctet_last {t : List Char} (h : isCanonOctet t = true) :
    ∃ a, t.getLast? = some a ∧ 48 ≤ a.toNat ∧ a.toNat ≤ 57 := by
  rcases isCanonOctet_cases h with ⟨a, rfl, h1, h2⟩ | ⟨a, b, rfl, _, _, h3, h4⟩ |
    ⟨a, b, c, rfl, _, _, _, _, h5, h6, _⟩
  · exact ⟨a, rfl, h1, h2⟩
  · exact ⟨b, rfl, h3, h4⟩
  · exact ⟨c, rfl, h5, h6⟩

theorem isWordChar_dot : isWordChar '.' = false := by decide

theorem atBoundary_some_cons (c a : Char) (rest : List Char) :
    atBoundary (some c) (a :: rest) = (isWordChar c != isWordChar a) := rfl

theorem atBoundary_some_nil (c : Char) :
    atBoundary (some c) [] = (isWordChar c != false) := rfl

/-- One IPv4 group `(octet)\\.?\\b`: consumes a canonical octet and an
optional dot, with a word boundary at the resulting position. -/
theorem mem_run_ipv4Group {prev : Option Char} {s : List Char} {c2 : RCtx} :
    c2 ∈ runRegex ipv4Group (prev, s) ↔
      ∃ (t : List Char) (dot : Bool), isCanonOctet t = true ∧
        s = t ++ (cond dot ['.'] []) ++ c2.2 ∧
        c2.1 = (cond dot (some '.') (prevAfter prev t)) ∧
        atBoundary c2.1 c2.2 = true := by
  constructor
  · intro hmem
    rcases mem_runRegex_cat.mp hmem with ⟨m1, hoct, hrest⟩
    rcases m1 with ⟨p1, s1⟩
    rcases mem_run_octet.mp hoct with ⟨t, hcanon, hs, hp1⟩
    simp only at hs hp1
    rcases mem_runRegex_cat.mp hrest with ⟨m2, hopt, hwb⟩
    rcases mem_runRegex_alt.mp hopt with hdot | heps
    · rcases mem_runRegex_cls.mp hdot with ⟨ch, r2, hs1, hpch, hm2⟩
      simp only [decide_eq_true_eq] at hpch
      subst hpch
      subst hm2
      rcases mem_runRegex_wb.mp hwb with ⟨hb, rfl⟩
      refine ⟨t, true, hcanon, ?_, rfl, hb⟩
      simp only [Bool.cond_true, hs, hs1]
      simp
    · rw [mem_runRegex_eps] at heps
      subst heps
      rcases mem_runRegex_wb.mp hwb with ⟨hb, rfl⟩
      refine ⟨t, false, hcanon, ?_, ?_, hb⟩
      · simp only [Bool.cond_false, hs]
        simp
      · simpa using hp1
  · rintro ⟨t, dot, hcanon, rfl, hc1, hb⟩
    refine mem_runRegex_cat.mpr ⟨(prevAfter prev t,
      (cond dot ['.'] []) ++ c2.2), ?_, ?_⟩
    · exact mem_run_octet.mpr ⟨t, hcanon, by simp, rfl⟩
    · cases dot with
      | true =>
        simp only [Bool.cond_true] at hc1 ⊢
        refine mem_runRegex_cat.mpr ⟨(some '.', c2.2), ?_, ?_⟩
        · exact mem_runRegex_alt.mpr (Or.inl (mem_runRegex_cls.mpr
            ⟨'.', c2.2, rfl, by simp, rfl⟩))
        · refine mem_runRegex_wb.mpr ⟨?_, ?_⟩
          · rw [← hc1]
            exact hb
          · rcases c2 with ⟨cp, cs⟩
            simp only at hc1
            rw [hc1]
      | false =>
        simp only [Bool.cond_false] at hc1 ⊢
        refine mem_runRegex_cat.mpr ⟨(prevAfter prev t, c2.2), ?_, ?_⟩
        · exact mem_runRegex_alt.mpr (Or.inr (mem_runRegex_eps.mpr rfl))
        · refine mem_runRegex_wb.mpr ⟨?_, ?_⟩
          · rw [← hc1]
            exact hb
          · rcases c2 with ⟨cp, cs⟩
            simp only at hc1
            rw [hc1]

/-- The IPv4 regex accepts exactly the canonical dotted quads. -/
theorem accepts_ipv4_iff {s : List Char} :
    accepts ipv4Regex s = true ↔ CanonicalQuad s := by
  constructor
  · intro hacc
    simp only [accepts, List.any_eq_true] at hacc
    rcases hacc with ⟨ctx, hmem, hempty⟩
    have hrest : ctx.2 = [] := by
      simpa [List.isEmpty_iff] using hempty
    have hmemr : ctx ∈ runRep (runRegex ipv4Group) 4 4 (none, s) := hmem
    have hmem2 := (mem_runRep_iff (le_refl 4)).mp hmemr
    rcases hmem2 with ⟨k, hk1, hk2, hit⟩
    have hk : k = 4 := by omega
    subst hk
    rcases mem_runIter_succ.mp hit with ⟨d1, hg1, hit⟩
    rcases mem_runIter_succ.mp hit with ⟨d2, hg2, hit⟩
    rcases mem_runIter_succ.mp hit with ⟨d3, hg3, hit⟩
    rcases mem_runIter_succ.mp hit with ⟨d4, hg4, hit⟩
    rw [mem_runIter_zero] at hit
    subst hit
    rcases d1 with ⟨p1, s1⟩
    rcases d2 with ⟨p2, s2⟩
    rcases d3 with ⟨p3, s3⟩
    rcases mem_run_ipv4Group.mp hg1 with ⟨t1, dot1, hc1, hs1, hp1, hb1⟩
    rcases mem_run_ipv4Group.mp hg2 with ⟨t2, dot2, hc2, hs2, hp2, hb2⟩
    rcases mem_run_ipv4Group.mp hg3 with ⟨t3, dot3, hc3, hs3, hp3, hb3⟩
    rcases mem_run_ipv4Group.mp hg4 with ⟨t4, dot4, hc4, hs4, hp4, hb4⟩
    simp only at hs1 hs2 hs3 hs4 hp1 hp2 hp3 hp4 hb1 hb2 hb3 hb4
    rw [hrest] at hs4 hb4
    have hdot4 : dot4 = false := by
      cases dot4
      · rfl
      · simp only [Bool.cond_true] at hp4
        rw [hp4] at hb4
        simp [atBoundary, isWordChar] at hb4
    subst hdot4
    simp only [Bool.cond_false, List.append_nil] at hs4 hp4
    rcases isCanonOctet_head hc2 with ⟨a2, t2r, he2, ha2, ha2b⟩
    rcases isCanonOctet_head hc3 with ⟨a3, t3r, he3, ha3, ha3b⟩
    rcases isCanonOctet_head hc4 with ⟨a4, t4r, he4, ha4, ha4b⟩
    have hdot1 : dot1 = true := by
      cases dot1
      · exfalso
        simp only [Bool.cond_false, List.append_nil] at hs1 hp1
        rcases isCanonOctet_last hc1 with ⟨l1, hl1, hl1a, hl1b⟩
        rw [hp1] at hb1
        rw [hs2, he2] at hb1
        simp only [prevAfter, hl1] at hb1
        simp [atBoundary, isWordChar_digit hl1a hl1b, isWordChar_digit ha2 ha2b] at hb1
      · rfl
    subst hdot1
    have hdot2 : dot2 = true := by
      cases dot2
      · exfalso
        simp only [Bool.cond_false, List.append_nil] at hs2 hp2
        rcases isCanonOctet_last hc2 with ⟨l2, hl2, hl2a, hl2b⟩
        rw [hp2] at hb2
        rw [hs3, he3] at hb2
        simp only [prevAfter, hl2] at hb2
        simp [atBoundary, isWordChar_digit hl2a hl2b, isWordChar_digit ha3 ha3b] at hb2
      · rfl
    subst hdot2
    have hdot3 : dot3 = true := by
      cases dot3
      · exfalso
        simp only [Bool.cond_false, List.append_nil] at hs3 hp3
        rcases isCanonOctet_last hc3 with ⟨l3, hl3, hl3a, hl3b⟩
        rw [hp3] at hb3
        rw [hs4, he4] at hb3
        simp only [prevAfter, hl3] at hb3
        simp [atBoundary, isWordChar_digit hl3a hl3b, isWordChar_digit ha4 ha4b] at hb3
      · rfl
    subst hdot3
    simp only [Bool.cond_true] at hs1 hs2 hs3
    refine ⟨t1, t2, t3, t4, hc1, hc2, hc3, hc4, ?_⟩
    rw [hs1, hs2, hs3, hs4]
    simp
  · rintro ⟨t1, t2, t3, t4, hc1, hc2, hc3, hc4, rfl⟩
    simp only [accepts, List.any_eq_true]
    rcases isCanonOctet_head hc2 with ⟨a2, t2r, he2, ha2, ha2b⟩
    rcases isCanonOctet_head hc3 with ⟨a3, t3r, he3, ha3, ha3b⟩
    rcases isCanonOctet_head hc4 with ⟨a4, t4r, he4, ha4, ha4b⟩
    rcases isCanonOctet_last hc4 with ⟨l4, hl4, hl4a, hl4b⟩
    refine ⟨(some l4, []), ?_, by simp⟩
    show (some l4, []) ∈ runRep (runRegex ipv4Group) 4 4 _
    refine (mem_runRep_iff (le_refl 4)).mpr ⟨4, le_refl 4, le_refl 4, ?_⟩
    refine mem_runIter_succ.mpr ⟨(some '.', t2 ++ '.' :: (t3 ++ '.' :: t4)), ?_, ?_⟩
    · refine mem_run_ipv4Group.mpr ⟨t1, true, hc1, by simp, rfl, ?_⟩
      rw [he2]
      dsimp only
      rw [List.cons_append, atBoundary_some_cons, isWordChar_dot, isWordChar_digit ha2 ha2b]
      rfl
    refine mem_runIter_succ.mpr ⟨(some '.', t3 ++ '.' :: t4), ?_, ?_⟩
    · refine mem_run_ipv4Group.mpr ⟨t2, true, hc2, by simp, rfl, ?_⟩
      rw [he3]
      dsimp only
      rw [List.cons_append, atBoundary_some_cons, isWordChar_dot, isWordChar_digit ha3 ha3b]
      rfl
    refine mem_runIter_succ.mpr ⟨(some '.', t4), ?_, ?_⟩
    · refine mem_run_ipv4Group.mpr ⟨t3, true, hc3, by simp, rfl, ?_⟩
      rw [he4]
      dsimp only
      rw [atBoundary_some_cons, isWordChar_dot, isWordChar_digit ha4 ha4b]
      rfl
    refine mem_runIter_succ.mpr ⟨(some l4, []), ?_, ?_⟩
    · refine mem_run_ipv4Group.mpr ⟨t4, false, hc4, by simp, ?_, ?_⟩
      · dsimp only
        simp [prevAfter, hl4]
      · dsimp only
        rw [atBoundary_some_nil, isWordChar_digit hl4a hl4b]
        rfl
    exact mem_runIter_zero.mpr rfl

/-! ## IPv6 regex pieces -/

theorem mem_run_h16_inv {prev : Option Char} {s : List Char} {c2 : RCtx}
    (h : c2 ∈ runRegex h16 (prev, s)) :
    ∃ t, isH16B t = true ∧ s = t ++ c2.2 := by
  have hr : c2 ∈ runRep (runRegex (.cls isHexC)) 1 4 (prev, s) := h
  rcases (mem_runRep_iff (by omega)).mp hr with ⟨k, hk1, hk4, hit⟩
  rcases mem_runIter_cls.mp hit with ⟨t, hlen, hall, hs, _⟩
  refine ⟨t, ?_, hs⟩
  simp only [isH16B, Bool.and_eq_true, decide_eq_true_eq]
  refine ⟨⟨?_, by omega⟩, hall⟩
  intro he
  subst he
  simp at hlen
  omega

theorem mem_run_h16_con {t rest : List Char} (h : isH16B t = true)
    (prev : Option Char) :
    (prevAfter prev t, rest) ∈ runRegex h16 (prev, t ++ rest) := by
  simp only [isH16B, Bool.and_eq_true, decide_eq_true_eq] at h
  show _ ∈ runRep (runRegex (.cls isHexC)) 1 4 _
  refine (mem_runRep_iff (by omega)).mpr ⟨t.length, ?_, h.1.2, ?_⟩
  · exact List.length_pos.mpr h.1.1
  · exact mem_runIter_cls.mpr ⟨t, rfl, h.2, rfl, rfl⟩

theorem mem_run_colon_inv {prev : Option Char} {s : List Char} {c2 : RCtx}
    (h : c2 ∈ runRegex (chC ':') (prev, s)) :
    s = ':' :: c2.2 := by
  rcases mem_runRegex_cls.mp h with ⟨ch, r, hs, hp, hc⟩
  simp only [decide_eq_true_eq] at hp
  subst hp
  subst hc
  exact hs

theorem mem_run_colon_con (rest : List Char) (prev : Option Char) :
    (some ':', rest) ∈ runRegex (chC ':') (prev, ':' :: rest) :=
  mem_runRegex_cls.mpr ⟨':', rest, rfl, by simp, rfl⟩

theorem mem_run_h16c_inv {prev : Option Char} {s : List Char} {c2 : RCtx}
    (h : c2 ∈ runRegex h16c (prev, s)) :
    ∃ t, isH16B t = true ∧ s = t ++ ':' :: c2.2 := by
  rcases mem_runRegex_cat.mp h with ⟨m, hh, hc⟩
  rcases m with ⟨p1, s1⟩
  rcases mem_run_h16_inv hh with ⟨t, ht, hs⟩
  have hcol := mem_run_colon_inv hc
  simp only at hs hcol
  refine ⟨t, ht, ?_⟩
  rw [hs, hcol]

theorem mem_run_h16c_con {t rest : List Char} (h : isH16B t = true)
    (prev : Option Char) :
    (some ':', rest) ∈ runRegex h16c (prev, t ++ ':' :: rest) :=
  mem_runRegex_cat.mpr ⟨(prevAfter prev t, ':' :: rest),
    mem_run_h16_con h prev, mem_run_colon_con rest _⟩

theorem mem_runIter_h16c_inv :
    ∀ {j : Nat} {prev : Option Char} {s : List Char} {c2 : RCtx},
      c2 ∈ runIter (runRegex h16c) j (prev, s) →
      ∃ gs : List (List Char), gs.length = j ∧ (∀ g ∈ gs, isH16B g = true) ∧
        s = trailCat gs ++ c2.2 := by
  intro j
  induction j with
  | zero =>
    intro prev s c2 h
    rw [mem_runIter_zero] at h
    subst h
    exact ⟨[], rfl, by simp, by simp [trailCat]⟩
  | succ j ih =>
    intro prev s c2 h
    rcases mem_runIter_succ.mp h with ⟨c1, hc1, hit⟩
    rcases c1 with ⟨p1, s1⟩
    rcases mem_run_h16c_inv hc1 with ⟨t, ht, hs⟩
    rcases ih hit with ⟨gs, hlen, hall, hs1⟩
    refine ⟨t :: gs, by simp [hlen], ?_, ?_⟩
    · intro g hg
      rcases List.mem_cons.mp hg with rfl | hg2
      · exact ht
      · exact hall g hg2
    · simp only at hs hs1
      rw [hs, hs1]
      simp [trailCat]

theorem mem_runIter_h16c_con :
    ∀ {gs : List (List Char)} {rest : List Char} {prev : Option Char},
      (∀ g ∈ gs, isH16B g = true) →
      ∃ p2, (p2, rest) ∈ runIter (runRegex h16c) gs.length
        (prev, trailCat gs ++ rest) := by
  intro gs
  induction gs with
  | nil =>
    intro rest prev _
    exact ⟨prev, mem_runIter_zero.mpr (by simp [trailCat])⟩
  | cons g gs ih =>
    intro rest prev hall
    rcases @ih rest (some ':')
      (fun g2 hg2 => hall g2 (List.mem_cons_of_mem g hg2)) with ⟨p2, hp2⟩
    refine ⟨p2, mem_runIter_succ.mpr ⟨(some ':', trailCat gs ++ rest), ?_, hp2⟩⟩
    have := @mem_run_h16c_con g (trailCat gs ++ rest)
      (hall g (List.mem_cons_self g gs)) prev
    simpa [trailCat, List.append_assoc] using this

theorem mem_run_ch16_inv {prev : Option Char} {s : List Char} {c2 : RCtx}
    (h : c2 ∈ runRegex ch16 (prev, s)) :
    ∃ t, isH16B t = true ∧ s = ':' :: (t ++ c2.2) := by
  rcases mem_runRegex_cat.mp h with ⟨m, hc, hh⟩
  rcases m with ⟨p1, s1⟩
  have hcol := mem_run_colon_inv hc
  rcases mem_run_h16_inv hh with ⟨t, ht, hs⟩
  simp only at hcol hs
  refine ⟨t, ht, ?_⟩
  rw [hcol, hs]

theorem mem_run_ch16_con {t rest : List Char} (h : isH16B t = true)
    (prev : Option Char) :
    (prevAfter (some ':') t, rest) ∈ runRegex ch16 (prev, ':' :: (t ++ rest)) :=
  mem_runRegex_cat.mpr ⟨(some ':', t ++ rest),
    mem_run_colon_con _ _, mem_run_h16_con h (some ':')⟩

theorem mem_runIter_ch16_inv :
    ∀ {k : Nat} {prev : Option Char} {s : List Char} {c2 : RCtx},
      c2 ∈ runIter (runRegex ch16) k (prev, s) →
      ∃ gs : List (List Char), gs.length = k ∧ (∀ g ∈ gs, isH16B g = true) ∧
        s = colCat gs ++ c2.2 := by
  intro k
  induction k with
  | zero =>
    intro prev s c2 h
    rw [mem_runIter_zero] at h
    subst h
    exact ⟨[], rfl, by simp, by simp [colCat]⟩
  | succ k ih =>
    intro prev s c2 h
    rcases mem_runIter_succ.mp h with ⟨c1, hc1, hit⟩
    rcases c1 with ⟨p1, s1⟩
    rcases mem_run_ch16_inv hc1 with ⟨t, ht, hs⟩
    rcases ih hit with ⟨gs, hlen, hall, hs1⟩
    refine ⟨t :: gs, by simp [hlen], ?_, ?_⟩
    · intro g hg
      rcases List.mem_cons.mp hg with rfl | hg2
      · exact ht
      · exact hall g hg2
    · simp only at hs hs1
      rw [hs, hs1]
      simp [colCat]

theorem mem_runIter_ch16_con :
    ∀ {gs : List (List Char)} {rest : List Char} {prev : Option Char},
      (∀ g ∈ gs, isH16B g = true) →
      ∃ p2, (p2, rest) ∈ runIter (runRegex ch16) gs.length
        (prev, colCat gs ++ rest) := by
  intro gs
  induction gs with
  | nil =>
    intro rest prev _
    exact ⟨prev, mem_runIter_zero.mpr (by simp [colCat])⟩
  | cons g gs ih =>
    intro rest prev hall
    rcases @ih rest (prevAfter (some ':') g)
      (fun g2 hg2 => hall g2 (List.mem_cons_of_mem g hg2)) with ⟨p2, hp2⟩
    refine ⟨p2, mem_runIter_succ.mpr
      ⟨(prevAfter (some ':') g, colCat gs ++ rest), ?_, hp2⟩⟩
    have := @mem_run_ch16_con g (colCat gs ++ rest)
      (hall g (List.mem_cons_self g gs)) prev
    simpa [colCat, List.append_assoc] using this

theorem mem_run_chC_con0 (c : Char) (rest : List Char) (prev : Option Char) :
    (some c, rest) ∈ runRegex (chC c) (prev, c :: rest) :=
  mem_runRegex_cls.mpr ⟨c, rest, rfl, by simp, rfl⟩

theorem mem_run_v4oct_inv {prev : Option Char} {s : List Char} {c2 : RCtx}
    (h : c2 ∈ runRegex v4octRegex (prev, s)) :
    ∃ t, isCanonOctet t = true ∧ s = t ++ c2.2 := by
  have e0 : ('0' : Char).toNat = 48 := rfl
  have e1 : ('1' : Char).toNat = 49 := rfl
  have e2 : ('2' : Char).toNat = 50 := rfl
  have e4 : ('4' : Char).toNat = 52 := rfl
  have e5 : ('5' : Char).toNat = 53 := rfl
  have e9 : ('9' : Char).toNat = 57 := rfl
  rcases mem_runRegex_alt.mp h with hA | hRest
  · rcases mem_runRegex_cat.mp hA with ⟨m1, h1, hr⟩
    rcases mem_runRegex_cls.mp h1 with ⟨ch1, r1, rfl, hp1, rfl⟩
    rcases mem_runRegex_cat.mp hr with ⟨m2, h2, h3⟩
    rcases mem_runRegex_cls.mp h2 with ⟨ch2, r2, rfl, hp2, rfl⟩
    rcases mem_runRegex_cls.mp h3 with ⟨ch3, r3, rfl, hp3, rfl⟩
    simp only [decide_eq_true_eq] at hp1 hp2 hp3
    subst hp1
    subst hp2
    rw [char_le_iff, char_le_iff] at hp3
    refine ⟨['2', '5', ch3], ?_, by simp⟩
    exact isCanonOctet_three (by omega) (by omega) (by omega) (by omega)
      (by omega) (by omega) (by omega)
  rcases mem_runRegex_alt.mp hRest with hB | hRest2
  · rcases mem_runRegex_cat.mp hB with ⟨m1, h1, hr⟩
    rcases mem_runRegex_cls.mp h1 with ⟨ch1, r1, rfl, hp1, rfl⟩
    rcases mem_runRegex_cat.mp hr with ⟨m2, h2, h3⟩
    rcases mem_runRegex_cls.mp h2 with ⟨ch2, r2, rfl, hp2, rfl⟩
    rcases mem_runRegex_cls.mp h3 with ⟨ch3, r3, rfl, hp3, rfl⟩
    simp only [decide_eq_true_eq] at hp1 hp2
    subst hp1
    rw [char_le_iff, char_le_iff] at hp2
    have hd3 := isDigit_toNat hp3
    refine ⟨['2', ch2, ch3], ?_, by simp⟩
    exact isCanonOctet_three (by omega) (by omega) (by omega) (by omega)
      (by omega) (by omega) (by omega)
  rcases mem_runRegex_alt.mp hRest2 with hC | hDE
  · rcases mem_runRegex_cat.mp hC with ⟨m1, h1, hr⟩
    rcases mem_runRegex_cls.mp h1 with ⟨ch1, r1, rfl, hp1, rfl⟩
    rcases mem_runRegex_cat.mp hr with ⟨m2, h2, h3⟩
    rcases mem_runRegex_cls.mp h2 with ⟨ch2, r2, rfl, hp2, rfl⟩
    rcases mem_runRegex_cls.mp h3 with ⟨ch3, r3, rfl, hp3, rfl⟩
    simp only [decide_eq_true_eq] at hp1
    subst hp1
    have hd2 := isDigit_toNat hp2
    have hd3 := isDigit_toNat hp3
    refine ⟨['1', ch2, ch3], ?_, by simp⟩
    exact isCanonOctet_three (by omega) (by omega) (by omega) (by omega)
      (by omega) (by omega) (by omega)
  · rcases mem_runRegex_cat.mp hDE with ⟨m1, hopt, hd⟩
    rcases mem_runRegex_alt.mp hopt with h19 | heps
    · rcases mem_runRegex_cls.mp h19 with ⟨ch1, r1, rfl, hp1, rfl⟩
      rcases mem_runRegex_cls.mp hd with ⟨ch2, r2, rfl, hp2, rfl⟩
      simp only [decide_eq_true_eq] at hp1
      rw [char_le_iff, char_le_iff] at hp1
      have hd2 := isDigit_toNat hp2
      refine ⟨[ch1, ch2], ?_, by simp⟩
      exact isCanonOctet_two (by omega) (by omega) (by omega) (by omega)
    · rw [mem_runRegex_eps] at heps
      subst heps
      rcases mem_runRegex_cls.mp hd with ⟨ch1, r1, rfl, hp1, rfl⟩
      have hd1 := isDigit_toNat hp1
      refine ⟨[ch1], ?_, by simp⟩
      exact isCanonOctet_one (by omega) (by omega)

theorem mem_run_v4oct_con {t rest : List Char} (h : isCanonOctet t = true)
    (prev : Option Char) :
    ∃ p2, (p2, rest) ∈ runRegex v4octRegex (prev, t ++ rest) := by
  have e0 : ('0' : Char).toNat = 48 := rfl
  have e1 : ('1' : Char).toNat = 49 := rfl
  have e2 : ('2' : Char).toNat = 50 := rfl
  have e4 : ('4' : Char).toNat = 52 := rfl
  have e5 : ('5' : Char).toNat = 53 := rfl
  have e9 : ('9' : Char).toNat = 57 := rfl
  rcases isCanonOctet_cases h with ⟨a, rfl, h1, h2⟩ | ⟨a, b, rfl, h1, h2, h3, h4⟩ |
    ⟨a, b, c, rfl, h1, h2, h3, h4, h5, h6, hval⟩
  · have hcls : (some a, rest) ∈ runRegex digitC (prev, a :: rest) :=
      mem_runRegex_cls.mpr ⟨a, rest, rfl, isDigit_of_toNat h1 h2, rfl⟩
    exact ⟨some a, mem_runRegex_alt.mpr (Or.inr (mem_runRegex_alt.mpr (Or.inr
      (mem_runRegex_alt.mpr (Or.inr (mem_runRegex_cat.mpr
        ⟨(prev, a :: rest),
          mem_runRegex_alt.mpr (Or.inr (mem_runRegex_eps.mpr rfl)), hcls⟩))))))⟩
  · have hcls1 : (some a, b :: rest) ∈ runRegex (rng '1' '9') (prev, a :: b :: rest) := by
      refine mem_runRegex_cls.mpr ⟨a, b :: rest, rfl, ?_, rfl⟩
      simp only [decide_eq_true_eq]
      rw [char_le_iff, char_le_iff]
      omega
    have hcls2 : (some b, rest) ∈ runRegex digitC (some a, b :: rest) :=
      mem_runRegex_cls.mpr ⟨b, rest, rfl, isDigit_of_toNat h3 h4, rfl⟩
    exact ⟨some b, mem_runRegex_alt.mpr (Or.inr (mem_runRegex_alt.mpr (Or.inr
      (mem_runRegex_alt.mpr (Or.inr (mem_runRegex_cat.mpr
        ⟨(some a, b :: rest), mem_runRegex_alt.mpr (Or.inl hcls1), hcls2⟩))))))⟩
  · have ha2 : a.toNat = 49 ∨ a.toNat = 50 := by omega
    rcases ha2 with ha49 | ha50
    · have haeq : a = '1' := char_toNat_eq_iff.mpr (by omega)
      subst haeq
      have hcls1 : (some '1', b :: c :: rest) ∈
          runRegex (chC '1') (prev, '1' :: b :: c :: rest) :=
        mem_run_chC_con0 '1' (b :: c :: rest) prev
      have hcls2 : (some b, c :: rest) ∈ runRegex digitC (some '1', b :: c :: rest) :=
        mem_runRegex_cls.mpr ⟨b, c :: rest, rfl, isDigit_of_toNat h3 h4, rfl⟩
      have hcls3 : (some c, rest) ∈ runRegex digitC (some b, c :: rest) :=
        mem_runRegex_cls.mpr ⟨c, rest, rfl, isDigit_of_toNat h5 h6, rfl⟩
      exact ⟨some c, mem_runRegex_alt.mpr (Or.inr (mem_runRegex_alt.mpr (Or.inr
        (mem_runRegex_alt.mpr (Or.inl (mem_runRegex_cat.mpr
          ⟨(some '1', b :: c :: rest), hcls1, mem_runRegex_cat.mpr
            ⟨(some b, c :: rest), hcls2, hcls3⟩⟩))))))⟩
    · have haeq : a = '2' := char_toNat_eq_iff.mpr (by omega)
      subst haeq
      rcases Nat.lt_or_ge b.toNat 53 with hb52 | hb53
      · have hcls1 : (some '2', b :: c :: rest) ∈
            runRegex (chC '2') (prev, '2' :: b :: c :: rest) :=
          mem_run_chC_con0 '2' (b :: c :: rest) prev
        have hcls2 : (some b, c :: rest) ∈
            runRegex (rng '0' '4') (some '2', b :: c :: rest) := by
          refine mem_runRegex_cls.mpr ⟨b, c :: rest, rfl, ?_, rfl⟩
          simp only [decide_eq_true_eq]
          rw [char_le_iff, char_le_iff]
          omega
        have hcls3 : (some c, rest) ∈ runRegex digitC (some b, c :: rest) :=
          mem_runRegex_cls.mpr ⟨c, rest, rfl, isDigit_of_toNat h5 h6, rfl⟩
        exact ⟨some c, mem_runRegex_alt.mpr (Or.inr (mem_runRegex_alt.mpr (Or.inl
          (mem_runRegex_cat.mpr ⟨(some '2', b :: c :: rest), hcls1,
            mem_runRegex_cat.mpr ⟨(some b, c :: rest), hcls2, hcls3⟩⟩))))⟩
      · have hbeq : b = '5' := char_toNat_eq_iff.mpr (by omega)
        subst hbeq
        have hcls1 : (some '2', '5' :: c :: rest) ∈
            runRegex (chC '2') (prev, '2' :: '5' :: c :: rest) :=
          mem_run_chC_con0 '2' ('5' :: c :: rest) prev
        have hcls2 : (some '5', c :: rest) ∈
            runRegex (chC '5') (some '2', '5' :: c :: rest) :=
          mem_run_chC_con0 '5' (c :: rest) (some '2')
        have hcls3 : (some c, rest) ∈
            runRegex (rng '0' '5') (some '5', c :: rest) := by
          refine mem_runRegex_cls.mpr ⟨c, rest, rfl, ?_, rfl⟩
          simp only [decide_eq_true_eq]
          rw [char_le_iff, char_le_iff]
          omega
        exact ⟨some c, mem_runRegex_alt.mpr (Or.inl
          (mem_runRegex_cat.mpr ⟨(some '2', '5' :: c :: rest), hcls1,
            mem_runRegex_cat.mpr ⟨(some '5', c :: rest), hcls2, hcls3⟩⟩))⟩

theorem mem_run_chC_inv {c : Char} {prev : Option Char} {s : List Char} {c2 : RCtx}
    (h : c2 ∈ runRegex (chC c) (prev, s)) :
    s = c :: c2.2 := by
  rcases mem_runRegex_cls.mp h with ⟨ch, r, hs, hp, hc⟩
  simp only [decide_eq_true_eq] at hp
  subst hp
  subst hc
  exact hs

theorem mem_run_chC_con (c : Char) (rest : List Char) (prev : Option Char) :
    (some c, rest) ∈ runRegex (chC c) (prev, c :: rest) :=
  mem_runRegex_cls.mpr ⟨c, rest, rfl, by simp, rfl⟩

theorem mem_run_dotoct_inv {prev : Option Char} {s : List Char} {c2 : RCtx}
    (h : c2 ∈ runRegex (.cat (chC '.') v4octRegex) (prev, s)) :
    ∃ t, isCanonOctet t = true ∧ s = '.' :: (t ++ c2.2) := by
  rcases mem_runRegex_cat.mp h with ⟨m, hdot, hoct⟩
  rcases m with ⟨p1, s1⟩
  have hs := mem_run_chC_inv hdot
  rcases mem_run_v4oct_inv hoct with ⟨t, hct, hs1⟩
  simp only at hs hs1
  exact ⟨t, hct, by rw [hs, hs1]⟩

theorem mem_run_v4_inv {prev : Option Char} {s : List Char} {c2 : RCtx}
    (h : c2 ∈ runRegex v4InV6Regex (prev, s)) :
    ∃ q, CanonicalQuad q ∧ s = q ++ c2.2 := by
  rcases mem_runRegex_cat.mp h with ⟨m1, h1, hr⟩
  rcases m1 with ⟨p1, s1⟩
  rcases mem_run_v4oct_inv h1 with ⟨t1, hc1, hs1⟩
  have hrep : c2 ∈ runRep (runRegex (.cat (chC '.') v4octRegex)) 3 3 (p1, s1) := hr
  rcases (mem_runRep_iff (le_refl 3)).mp hrep with ⟨k, hk1, hk2, hit⟩
  have hk : k = 3 := by omega
  subst hk
  rcases mem_runIter_succ.mp hit with ⟨d1, hg1, hit⟩
  rcases mem_runIter_succ.mp hit with ⟨d2, hg2, hit⟩
  rcases mem_runIter_succ.mp hit with ⟨d3, hg3, hit⟩
  rw [mem_runIter_zero] at hit
  subst hit
  rcases d1 with ⟨q1, u1⟩
  rcases d2 with ⟨q2, u2⟩
  rcases mem_run_dotoct_inv hg1 with ⟨t2, hc2, hu1⟩
  rcases mem_run_dotoct_inv hg2 with ⟨t3, hc3, hu2⟩
  rcases mem_run_dotoct_inv hg3 with ⟨t4, hc4, hu3⟩
  simp only at hs1 hu1 hu2 hu3
  refine ⟨t1 ++ '.' :: (t2 ++ '.' :: (t3 ++ '.' :: t4)),
    ⟨t1, t2, t3, t4, hc1, hc2, hc3, hc4, rfl⟩, ?_⟩
  rw [hs1, hu1, hu2, hu3]
  simp

theorem mem_run_v4_con {q rest : List Char} (h : CanonicalQuad q)
    (prev : Option Char) :
    ∃ p2, (p2, rest) ∈ runRegex v4InV6Regex (prev, q ++ rest) := by
  rcases h with ⟨t1, t2, t3, t4, hc1, hc2, hc3, hc4, rfl⟩
  rcases @mem_run_v4oct_con t1 ('.' :: (t2 ++ '.' :: (t3 ++ '.' :: t4)) ++ rest)
    hc1 prev with ⟨p1, hp1⟩
  rcases @mem_run_v4oct_con t2 ('.' :: (t3 ++ '.' :: t4) ++ rest)
    hc2 (some '.') with ⟨p2, hp2⟩
  rcases @mem_run_v4oct_con t3 ('.' :: t4 ++ rest)
    hc3 (some '.') with ⟨p3, hp3⟩
  rcases @mem_run_v4oct_con t4 rest hc4 (some '.') with ⟨p4, hp4⟩
  refine ⟨p4, mem_runRegex_cat.mpr
    ⟨(p1, '.' :: (t2 ++ '.' :: (t3 ++ '.' :: t4)) ++ rest), ?_, ?_⟩⟩
  · have := hp1
    simpa [List.append_assoc] using this
  · show _ ∈ runRep (runRegex (.cat (chC '.') v4octRegex)) 3 3 _
    refine (mem_runRep_iff (le_refl 3)).mpr ⟨3, le_refl 3, le_refl 3, ?_⟩
    refine mem_runIter_succ.mpr ⟨(p2, '.' :: (t3 ++ '.' :: t4) ++ rest), ?_, ?_⟩
    · refine mem_runRegex_cat.mpr
        ⟨(some '.', t2 ++ '.' :: (t3 ++ '.' :: t4) ++ rest), ?_, ?_⟩
      · have := mem_run_chC_con '.' (t2 ++ '.' :: (t3 ++ '.' :: t4) ++ rest) p1
        simpa [List.append_assoc] using this
      · have := hp2
        simpa [List.append_assoc] using this
    refine mem_runIter_succ.mpr ⟨(p3, '.' :: t4 ++ rest), ?_, ?_⟩
    · refine mem_runRegex_cat.mpr
        ⟨(some '.', t3 ++ '.' :: t4 ++ rest), ?_, ?_⟩
      · have := mem_run_chC_con '.' (t3 ++ '.' :: t4 ++ rest) p2
        simpa [List.append_assoc] using this
      · have := hp3
        simpa [List.append_assoc] using this
    refine mem_runIter_succ.mpr ⟨(p4, rest), ?_, ?_⟩
    · refine mem_runRegex_cat.mpr ⟨(some '.', t4 ++ rest), ?_, ?_⟩
      · exact mem_run_chC_con '.' (t4 ++ rest) p3
      · exact hp4
    exact mem_runIter_zero.mpr rfl

theorem trailCat_append_eq :
    ∀ {gs : List (List Char)}, gs ≠ [] → ∀ (t : List Char),
      trailCat gs ++ t = joinColon gs ++ ':' :: t := by
  intro gs
  induction gs with
  | nil => exact fun hne _ => absurd rfl hne
  | cons g rest ih =>
    intro _ t
    cases rest with
    | nil => simp [trailCat, joinColon]
    | cons g2 r2 =>
      have := ih (by simp) t
      simp only [trailCat, joinColon, List.append_assoc, List.cons_append] at this ⊢
      rw [this]

theorem colCat_eq :
    ∀ {gs : List (List Char)}, gs ≠ [] → colCat gs = ':' :: joinColon gs := by
  intro gs
  induction gs with
  | nil => exact fun hne => absurd rfl hne
  | cons g rest ih =>
    intro _
    cases rest with
    | nil => simp [colCat, joinColon]
    | cons g2 r2 =>
      have := ih (by simp)
      simp only [colCat, joinColon] at this ⊢
      rw [this]

theorem joinColon_append_single :
    ∀ {gs : List (List Char)}, gs ≠ [] → ∀ (t : List Char),
      joinColon (gs ++ [t]) = joinColon gs ++ ':' :: t := by
  intro gs
  induction gs with
  | nil => exact fun hne _ => absurd rfl hne
  | cons g rest ih =>
    intro _ t
    cases rest with
    | nil => simp [joinColon]
    | cons g2 r2 =>
      have := ih (by simp) t
      simp only [joinColon, List.cons_append, List.append_assoc, List.append_eq]
        at this ⊢
      rw [this]

theorem ipv6Alt1_inv {prev : Option Char} {s : List Char} {c2 : RCtx}
    (h : c2 ∈ runRegex ipv6Alt1 (prev, s)) :
    ∃ core, IPv6CoreForm core ∧ s = core ++ c2.2 := by
  rcases mem_runRegex_cat.mp h with ⟨m, hrep, htail⟩
  rcases m with ⟨p1, s1⟩
  have hrep2 : (p1, s1) ∈ runRep (runRegex h16c) 7 7 (prev, s) := hrep
  rcases (mem_runRep_iff (le_refl 7)).mp hrep2 with ⟨k, hk1, hk2, hit⟩
  have hk : k = 7 := by omega
  subst hk
  rcases mem_runIter_h16c_inv hit with ⟨gs, hlen, hall, hs⟩
  simp only at hs
  have hne : gs ≠ [] := by
    intro he
    subst he
    simp at hlen
  rcases mem_runRegex_alt.mp htail with hh | hc
  · rcases mem_run_h16_inv hh with ⟨t, ht, hs1⟩
    refine ⟨joinColon (gs ++ [t]), Or.inl ⟨gs ++ [t], by simp [hlen], ?_, rfl⟩, ?_⟩
    · intro g hg
      rcases List.mem_append.mp hg with hg1 | hg1
      · exact hall g hg1
      · rw [List.mem_singleton.mp hg1]
        exact ht
    · rw [hs, hs1, joinColon_append_single hne, trailCat_append_eq hne]
      simp
  · have hs1 := mem_run_colon_inv hc
    refine ⟨joinColon gs ++ ':' :: ':' :: joinColon [],
      Or.inr (Or.inr (Or.inl ⟨gs, [], by simp [hlen], hall, by simp, rfl⟩)), ?_⟩
    rw [hs, hs1, trailCat_append_eq hne]
    simp [joinColon]

theorem ipv6Alt2_inv {prev : Option Char} {s : List Char} {c2 : RCtx}
    (h : c2 ∈ runRegex ipv6Alt2 (prev, s)) :
    ∃ core, IPv6CoreForm core ∧ s = core ++ c2.2 := by
  rcases mem_runRegex_cat.mp h with ⟨m, hrep, htail⟩
  rcases m with ⟨p1, s1⟩
  have hrep2 : (p1, s1) ∈ runRep (runRegex h16c) 6 6 (prev, s) := hrep
  rcases (mem_runRep_iff (le_refl 6)).mp hrep2 with ⟨k, hk1, hk2, hit⟩
  have hk : k = 6 := by omega
  subst hk
  rcases mem_runIter_h16c_inv hit with ⟨gs, hlen, hall, hs⟩
  simp only at hs
  have hne : gs ≠ [] := by
    intro he
    subst he
    simp at hlen
  rcases mem_runRegex_alt.mp htail with hch | htail2
  · rcases mem_run_ch16_inv hch with ⟨t, ht, hs1⟩
    refine ⟨joinColon gs ++ ':' :: ':' :: joinColon [t],
      Or.inr (Or.inr (Or.inl ⟨gs, [t], by simp [hlen], hall, ?_, rfl⟩)), ?_⟩
    · intro g hg
      rw [List.mem_singleton.mp hg]
      exact ht
    · rw [hs, hs1, trailCat_append_eq hne]
      simp [joinColon]
  rcases mem_runRegex_alt.mp htail2 with hv4 | hc
  · rcases mem_run_v4_inv hv4 with ⟨q, hq, hs1⟩
    refine ⟨joinColon gs ++ ':' :: q,
      Or.inr (Or.inl ⟨gs, q, hlen, hall, hq, rfl⟩), ?_⟩
    rw [hs, hs1, trailCat_append_eq hne]
    simp
  · have hs1 := mem_run_colon_inv hc
    refine ⟨joinColon gs ++ ':' :: ':' :: joinColon [],
      Or.inr (Or.inr (Or.inl ⟨gs, [], by simp [hlen], hall, by simp, rfl⟩)), ?_⟩
    rw [hs, hs1, trailCat_append_eq hne]
    simp [joinColon]

theorem ipv6Alt3_inv {prev : Option Char} {s : List Char} {c2 : RCtx}
    (h : c2 ∈ runRegex ipv6Alt3 (prev, s)) :
    ∃ core, IPv6CoreForm core ∧ s = core ++ c2.2 := by
  rcases mem_runRegex_cat.mp h with ⟨m, hrep, htail⟩
  rcases m with ⟨p1, s1⟩
  have hrep2 : (p1, s1) ∈ runRep (runRegex h16c) 5 5 (prev, s) := hrep
  rcases (mem_runRep_iff (le_refl 5)).mp hrep2 with ⟨k, hk1, hk2, hit⟩
  have hk : k = 5 := by omega
  subst hk
  rcases mem_runIter_h16c_inv hit with ⟨gs, hlen, hall, hs⟩
  simp only at hs
  have hne : gs ≠ [] := by
    intro he
    subst he
    simp at hlen
  rcases mem_runRegex_alt.mp htail with hch | htail2
  · have hch2 : c2 ∈ runRep (runRegex ch16) 1 2 (p1, s1) := hch
    rcases (mem_runRep_iff (by omega)).mp hch2 with ⟨k2, hk21, hk22, hit2⟩
    rcases mem_runIter_ch16_inv hit2 with ⟨gs2, hlen2, hall2, hs1⟩
    have hne2 : gs2 ≠ [] := by
      intro he
      subst he
      simp at hlen2
      omega
    refine ⟨joinColon gs ++ ':' :: ':' :: joinColon gs2,
      Or.inr (Or.inr (Or.inl ⟨gs, gs2, by omega, hall, hall2, rfl⟩)), ?_⟩
    rw [hs, hs1, colCat_eq hne2, trailCat_append_eq hne]
    simp
  rcases mem_runRegex_alt.mp htail2 with hv4 | hc
  · rcases mem_runRegex_cat.mp hv4 with ⟨m2, hcol, hq⟩
    rcases m2 with ⟨p2, s2⟩
    have hs1 := mem_run_colon_inv hcol
    rcases mem_run_v4_inv hq with ⟨q, hcq, hs2⟩
    simp only at hs1 hs2
    refine ⟨joinColon gs ++ ':' :: ':' ::
      (joinColon [] ++ (if ([] : List (List Char)).isEmpty then q else ':' :: q)),
      Or.inr (Or.inr (Or.inr ⟨gs, [], q, by simp [hlen], hall, by simp, hcq, rfl⟩)), ?_⟩
    rw [hs, hs1, hs2, trailCat_append_eq hne]
    simp [joinColon]
  · have hs1 := mem_run_colon_inv hc
    refine ⟨joinColon gs ++ ':' :: ':' :: joinColon [],
      Or.inr (Or.inr (Or.inl ⟨gs, [], by simp [hlen], hall, by simp, rfl⟩)), ?_⟩
    rw [hs, hs1, trailCat_append_eq hne]
    simp [joinColon]

theorem ipv6Alt4_inv {prev : Option Char} {s : List Char} {c2 : RCtx}
    (h : c2 ∈ runRegex ipv6Alt4 (prev, s)) :
    ∃ core, IPv6CoreForm core ∧ s = core ++ c2.2 := by
  rcases mem_runRegex_cat.mp h with ⟨m, hrep, htail⟩
  rcases m with ⟨p1, s1⟩
  have hrep2 : (p1, s1) ∈ runRep (runRegex h16c) 4 4 (prev, s) := hrep
  rcases (mem_runRep_iff (le_refl 4)).mp hrep2 with ⟨k, hk1, hk2, hit⟩
  have hk : k = 4 := by omega
  subst hk
  rcases mem_runIter_h16c_inv hit with ⟨gs, hlen, hall, hs⟩
  simp only at hs
  have hne : gs ≠ [] := by
    intro he
    subst he
    simp at hlen
  rcases mem_runRegex_alt.mp htail with hch | htail2
  · have hch2 : c2 ∈ runRep (runRegex ch16) 1 3 (p1, s1) := hch
    rcases (mem_runRep_iff (by omega)).mp hch2 with ⟨k2, hk21, hk22, hit2⟩
    rcases mem_runIter_ch16_inv hit2 with ⟨gs2, hlen2, hall2, hs1⟩
    have hne2 : gs2 ≠ [] := by
      intro he
      subst he
      simp at hlen2
      omega
    refine ⟨joinColon gs ++ ':' :: ':' :: joinColon gs2,
      Or.inr (Or.inr (Or.inl ⟨gs, gs2, by omega, hall, hall2, rfl⟩)), ?_⟩
    rw [hs, hs1, colCat_eq hne2, trailCat_append_eq hne]
    simp
  rcases mem_runRegex_alt.mp htail2 with hv4 | hc
  · rcases mem_runRegex_cat.mp hv4 with ⟨m2, hopt, hcv⟩
    rcases m2 with ⟨p2, s2⟩
    rcases mem_runRegex_cat.mp hcv with ⟨m3, hcol, hq⟩
    rcases m3 with ⟨p3, s3⟩
    have hs2 := mem_run_colon_inv hcol
    rcases mem_run_v4_inv hq with ⟨q, hcq, hs3⟩
    simp only at hs2 hs3
    rcases mem_runRegex_alt.mp hopt with hone | heps
    · rcases mem_run_ch16_inv hone with ⟨t, ht, hs1⟩
      simp only at hs1
      refine ⟨joinColon gs ++ ':' :: ':' ::
        (joinColon [t] ++ (if ([t] : List (List Char)).isEmpty then q else ':' :: q)),
        Or.inr (Or.inr (Or.inr ⟨gs, [t], q, by simp [hlen], hall, ?_, hcq, rfl⟩)), ?_⟩
      · intro g hg
        rw [List.mem_singleton.mp hg]
        exact ht
      · rw [hs, hs1, hs2, hs3, trailCat_append_eq hne]
        simp [joinColon]
    · rw [mem_runRegex_eps] at heps
      injection heps with hpe hse
      subst hpe
      subst hse
      refine ⟨joinColon gs ++ ':' :: ':' ::
        (joinColon [] ++ (if ([] : List (List Char)).isEmpty then q else ':' :: q)),
        Or.inr (Or.inr (Or.inr ⟨gs, [], q, by simp [hlen], hall, by simp, hcq, rfl⟩)), ?_⟩
      rw [hs, hs2, hs3, trailCat_append_eq hne]
      simp [joinColon]
  · have hs1 := mem_run_colon_inv hc
    refine ⟨joinColon gs ++ ':' :: ':' :: joinColon [],
      Or.inr (Or.inr (Or.inl ⟨gs, [], by simp [hlen], hall, by simp, rfl⟩)), ?_⟩
    rw [hs, hs1, trailCat_append_eq hne]
    simp [joinColon]

theorem ipv6Alt5_inv {prev : Option Char} {s : List Char} {c2 : RCtx}
    (h : c2 ∈ runRegex ipv6Alt5 (prev, s)) :
    ∃ core, IPv6CoreForm core ∧ s = core ++ c2.2 := by
  rcases mem_runRegex_cat.mp h with ⟨m, hrep, htail⟩
  rcases m with ⟨p1, s1⟩
  have hrep2 : (p1, s1) ∈ runRep (runRegex h16c) 3 3 (prev, s) := hrep
  rcases (mem_runRep_iff (le_refl 3)).mp hrep2 with ⟨k, hk1, hk2, hit⟩
  have hk : k = 3 := by omega
  subst hk
  rcases mem_runIter_h16c_inv hit with ⟨gs, hlen, hall, hs⟩
  simp only at hs
  have hne : gs ≠ [] := by
    intro he
    subst he
    simp at hlen
  rcases mem_runRegex_alt.mp htail with hch | htail2
  · have hch2 : c2 ∈ runRep (runRegex ch16) 1 4 (p1, s1) := hch
    rcases (mem_runRep_iff (by omega)).mp hch2 with ⟨k2, hk21, hk22, hit2⟩
    rcases mem_runIter_ch16_inv hit2 with ⟨gs2, hlen2, hall2, hs1⟩
    have hne2 : gs2 ≠ [] := by
      intro he
      subst he
      simp at hlen2
      omega
    refine ⟨joinColon gs ++ ':' :: ':' :: joinColon gs2,
      Or.inr (Or.inr (Or.inl ⟨gs, gs2, by omega, hall, hall2, rfl⟩)), ?_⟩
    rw [hs, hs1, colCat_eq hne2, trailCat_append_eq hne]
    simp
  rcases mem_runRegex_alt.mp htail2 with hv4 | hc
  · rcases mem_runRegex_cat.mp hv4 with ⟨m2, hreps, hcv⟩
    rcases m2 with ⟨p2, s2⟩
    have hreps2 : (p2, s2) ∈ runRep (runRegex ch16) 0 2 (p1, s1) := hreps
    rcases (mem_runRep_iff (by omega)).mp hreps2 with ⟨k2, hk21, hk22, hit2⟩
    rcases mem_runIter_ch16_inv hit2 with ⟨gs2, hlen2, hall2, hs1⟩
    rcases mem_runRegex_cat.mp hcv with ⟨m3, hcol, hq⟩
    rcases m3 with ⟨p3, s3⟩
    have hs2 := mem_run_colon_inv hcol
    rcases mem_run_v4_inv hq with ⟨q, hcq, hs3⟩
    simp only at hs1 hs2 hs3
    cases gs2 with
    | nil =>
      refine ⟨joinColon gs ++ ':' :: ':' ::
        (joinColon [] ++ (if ([] : List (List Char)).isEmpty then q else ':' :: q)),
        Or.inr (Or.inr (Or.inr ⟨gs, [], q, by simp [hlen], hall, by simp, hcq, rfl⟩)), ?_⟩
      rw [hs, hs1, hs2, hs3, trailCat_append_eq hne]
      simp [joinColon, colCat]
    | cons g0 gr =>
      refine ⟨joinColon gs ++ ':' :: ':' ::
        (joinColon (g0 :: gr) ++ (if (g0 :: gr).isEmpty then q else ':' :: q)),
        Or.inr (Or.inr (Or.inr ⟨gs, g0 :: gr, q, by omega, hall, hall2, hcq, rfl⟩)), ?_⟩
      rw [hs, hs1, hs2, hs3, colCat_eq (List.cons_ne_nil g0 gr),
        trailCat_append_eq hne]
      simp
  · have hs1 := mem_run_colon_inv hc
    refine ⟨joinColon gs ++ ':' :: ':' :: joinColon [],
      Or.inr (Or.inr (Or.inl ⟨gs, [], by simp [hlen], hall, by simp, rfl⟩)), ?_⟩
    rw [hs, hs1, trailCat_append_eq hne]
    simp [joinColon]

theorem ipv6Alt6_inv {prev : Option Char} {s : List Char} {c2 : RCtx}
    (h : c2 ∈ runRegex ipv6Alt6 (prev, s)) :
    ∃ core, IPv6CoreForm core ∧ s = core ++ c2.2 := by
  rcases mem_runRegex_cat.mp h with ⟨m, hrep, htail⟩
  rcases m with ⟨p1, s1⟩
  have hrep2 : (p1, s1) ∈ runRep (runRegex h16c) 2 2 (prev, s) := hrep
  rcases (mem_runRep_iff (le_refl 2)).mp hrep2 with ⟨k, hk1, hk2, hit⟩
  have hk : k = 2 := by omega
  subst hk
  rcases mem_runIter_h16c_inv hit with ⟨gs, hlen, hall, hs⟩
  simp only at hs
  have hne : gs ≠ [] := by
    intro he
    subst he
    simp at hlen
  rcases mem_runRegex_alt.mp htail with hch | htail2
  · have hch2 : c2 ∈ runRep (runRegex ch16) 1 5 (p1, s1) := hch
    rcases (mem_runRep_iff (by omega)).mp hch2 with ⟨k2, hk21, hk22, hit2⟩
    rcases mem_runIter_ch16_inv hit2 with ⟨gs2, hlen2, hall2, hs1⟩
    have hne2 : gs2 ≠ [] := by
      intro he
      subst he
      simp at hlen2
      omega
    refine ⟨joinColon gs ++ ':' :: ':' :: joinColon gs2,
      Or.inr (Or.inr (Or.inl ⟨gs, gs2, by omega, hall, hall2, rfl⟩)), ?_⟩
    rw [hs, hs1, colCat_eq hne2, trailCat_append_eq hne]
    simp
  rcases mem_runRegex_alt.mp htail2 with hv4 | hc
  · rcases mem_runRegex_cat.mp hv4 with ⟨m2, hreps, hcv⟩
    rcases m2 with ⟨p2, s2⟩
    have hreps2 : (p2, s2) ∈ runRep (runRegex ch16) 0 3 (p1, s1) := hreps
    rcases (mem_runRep_iff (by omega)).mp hreps2 with ⟨k2, hk21, hk22, hit2⟩
    rcases mem_runIter_ch16_inv hit2 with ⟨gs2, hlen2, hall2, hs1⟩
    rcases mem_runRegex_cat.mp hcv with ⟨m3, hcol, hq⟩
    rcases m3 with ⟨p3, s3⟩
    have hs2 := mem_run_colon_inv hcol
    rcases mem_run_v4_inv hq with ⟨q, hcq, hs3⟩
    simp only at hs1 hs2 hs3
    cases gs2 with
    | nil =>
      refine ⟨joinColon gs ++ ':' :: ':' ::
        (joinColon [] ++ (if ([] : List (List Char)).isEmpty then q else ':' :: q)),
        Or.inr (Or.inr (Or.inr ⟨gs, [], q, by simp [hlen], hall, by simp, hcq, rfl⟩)), ?_⟩
      rw [hs, hs1, hs2, hs3, trailCat_append_eq hne]
      simp [joinColon, colCat]
    | cons g0 gr =>
      refine ⟨joinColon gs ++ ':' :: ':' ::
        (joinColon (g0 :: gr) ++ (if (g0 :: gr).isEmpty then q else ':' :: q)),
        Or.inr (Or.inr (Or.inr ⟨gs, g0 :: gr, q, by omega, hall, hall2, hcq, rfl⟩)), ?_⟩
      rw [hs, hs1, hs2, hs3, colCat_eq (List.cons_ne_nil g0 gr),
        trailCat_append_eq hne]
      simp
  · have hs1 := mem_run_colon_inv hc
    refine ⟨joinColon gs ++ ':' :: ':' :: joinColon [],
      Or.inr (Or.inr (Or.inl ⟨gs, [], by simp [hlen], hall, by simp, rfl⟩)), ?_⟩
    rw [hs, hs1, trailCat_append_eq hne]
    simp [joinColon]

theorem ipv6Alt7_inv {prev : Option Char} {s : List Char} {c2 : RCtx}
    (h : c2 ∈ runRegex ipv6Alt7 (prev, s)) :
    ∃ core, IPv6CoreForm core ∧ s = core ++ c2.2 := by
  rcases mem_runRegex_cat.mp h with ⟨m, hrep, htail⟩
  rcases m with ⟨p1, s1⟩
  have hrep2 : (p1, s1) ∈ runRep (runRegex h16c) 1 1 (prev, s) := hrep
  rcases (mem_runRep_iff (le_refl 1)).mp hrep2 with ⟨k, hk1, hk2, hit⟩
  have hk : k = 1 := by omega
  subst hk
  rcases mem_runIter_h16c_inv hit with ⟨gs, hlen, hall, hs⟩
  simp only at hs
  have hne : gs ≠ [] := by
    intro he
    subst he
    simp at hlen
  rcases mem_runRegex_alt.mp htail with hch | htail2
  · have hch2 : c2 ∈ runRep (runRegex ch16) 1 6 (p1, s1) := hch
    rcases (mem_runRep_iff (by omega)).mp hch2 with ⟨k2, hk21, hk22, hit2⟩
    rcases mem_runIter_ch16_inv hit2 with ⟨gs2, hlen2, hall2, hs1⟩
    have hne2 : gs2 ≠ [] := by
      intro he
      subst he
      simp at hlen2
      omega
    refine ⟨joinColon gs ++ ':' :: ':' :: joinColon gs2,
      Or.inr (Or.inr (Or.inl ⟨gs, gs2, by omega, hall, hall2, rfl⟩)), ?_⟩
    rw [hs, hs1, colCat_eq hne2, trailCat_append_eq hne]
    simp
  rcases mem_runRegex_alt.mp htail2 with hv4 | hc
  · rcases mem_runRegex_cat.mp hv4 with ⟨m2, hreps, hcv⟩
    rcases m2 with ⟨p2, s2⟩
    have hreps2 : (p2, s2) ∈ runRep (runRegex ch16) 0 4 (p1, s1) := hreps
    rcases (mem_runRep_iff (by omega)).mp hreps2 with ⟨k2, hk21, hk22, hit2⟩
    rcases mem_runIter_ch16_inv hit2 with ⟨gs2, hlen2, hall2, hs1⟩
    rcases mem_runRegex_cat.mp hcv with ⟨m3, hcol, hq⟩
    rcases m3 with ⟨p3, s3⟩
    have hs2 := mem_run_colon_inv hcol
    rcases mem_run_v4_inv hq with ⟨q, hcq, hs3⟩
    simp only at hs1 hs2 hs3
    cases gs2 with
    | nil =>
      refine ⟨joinColon gs ++ ':' :: ':' ::
        (joinColon [] ++ (if ([] : List (List Char)).isEmpty then q else ':' :: q)),
        Or.inr (Or.inr (Or.inr ⟨gs, [], q, by simp [hlen], hall, by simp, hcq, rfl⟩)), ?_⟩
      rw [hs, hs1, hs2, hs3, trailCat_append_eq hne]
      simp [joinColon, colCat]
    | cons g0 gr =>
      refine ⟨joinColon gs ++ ':' :: ':' ::
        (joinColon (g0 :: gr) ++ (if (g0 :: gr).isEmpty then q else ':' :: q)),
        Or.inr (Or.inr (Or.inr ⟨gs, g0 :: gr, q, by omega, hall, hall2, hcq, rfl⟩)), ?_⟩
      rw [hs, hs1, hs2, hs3, colCat_eq (List.cons_ne_nil g0 gr),
        trailCat_append_eq hne]
      simp
  · have hs1 := mem_run_colon_inv hc
    refine ⟨joinColon gs ++ ':' :: ':' :: joinColon [],
      Or.inr (Or.inr (Or.inl ⟨gs, [], by simp [hlen], hall, by simp, rfl⟩)), ?_⟩
    rw [hs, hs1, trailCat_append_eq hne]
    simp [joinColon]

theorem ipv6Alt8_inv {prev : Option Char} {s : List Char} {c2 : RCtx}
    (h : c2 ∈ runRegex ipv6Alt8 (prev, s)) :
    ∃ core, IPv6CoreForm core ∧ s = core ++ c2.2 := by
  rcases mem_runRegex_cat.mp h with ⟨m, hc0, htail⟩
  rcases m with ⟨p1, s1⟩
  have hs := mem_run_colon_inv hc0
  simp only at hs
  rcases mem_runRegex_alt.mp htail with hch | htail2
  · have hch2 : c2 ∈ runRep (runRegex ch16) 1 7 (p1, s1) := hch
    rcases (mem_runRep_iff (by omega)).mp hch2 with ⟨k2, hk21, hk22, hit2⟩
    rcases mem_runIter_ch16_inv hit2 with ⟨gs2, hlen2, hall2, hs1⟩
    have hne2 : gs2 ≠ [] := by
      intro he
      subst he
      simp at hlen2
      omega
    refine ⟨joinColon [] ++ ':' :: ':' :: joinColon gs2,
      Or.inr (Or.inr (Or.inl ⟨[], gs2, by simp [hlen2]; omega, by simp, hall2, rfl⟩)), ?_⟩
    rw [hs, hs1, colCat_eq hne2]
    simp [joinColon]
  rcases mem_runRegex_alt.mp htail2 with hv4 | hc
  · rcases mem_runRegex_cat.mp hv4 with ⟨m2, hreps, hcv⟩
    rcases m2 with ⟨p2, s2⟩
    have hreps2 : (p2, s2) ∈ runRep (runRegex ch16) 0 5 (p1, s1) := hreps
    rcases (mem_runRep_iff (by omega)).mp hreps2 with ⟨k2, hk21, hk22, hit2⟩
    rcases mem_runIter_ch16_inv hit2 with ⟨gs2, hlen2, hall2, hs1⟩
    rcases mem_runRegex_cat.mp hcv with ⟨m3, hcol, hq⟩
    rcases m3 with ⟨p3, s3⟩
    have hs2 := mem_run_colon_inv hcol
    rcases mem_run_v4_inv hq with ⟨q, hcq, hs3⟩
    simp only at hs1 hs2 hs3
    cases gs2 with
    | nil =>
      refine ⟨joinColon [] ++ ':' :: ':' ::
        (joinColon [] ++ (if ([] : List (List Char)).isEmpty then q else ':' :: q)),
        Or.inr (Or.inr (Or.inr ⟨[], [], q, by simp, by simp, by simp, hcq, rfl⟩)), ?_⟩
      rw [hs, hs1, hs2, hs3]
      simp [joinColon, colCat]
    | cons g0 gr =>
      refine ⟨joinColon [] ++ ':' :: ':' ::
        (joinColon (g0 :: gr) ++ (if (g0 :: gr).isEmpty then q else ':' :: q)),
        Or.inr (Or.inr (Or.inr ⟨[], g0 :: gr, q,
          by simp only [List.length_nil, Nat.zero_add]; omega,
          by simp, hall2, hcq, rfl⟩)), ?_⟩
      rw [hs, hs1, hs2, hs3, colCat_eq (List.cons_ne_nil g0 gr)]
      simp [joinColon]
  · have hs1 := mem_run_colon_inv hc
    refine ⟨joinColon [] ++ ':' :: ':' :: joinColon [],
      Or.inr (Or.inr (Or.inl ⟨[], [], by simp, by simp, by simp, rfl⟩)), ?_⟩
    rw [hs, hs1]
    simp [joinColon]

theorem ipv6Core_inv {prev : Option Char} {s : List Char} {c2 : RCtx}
    (h : c2 ∈ runRegex ipv6Core (prev, s)) :
    ∃ core, IPv6CoreForm core ∧ s = core ++ c2.2 := by
  rcases mem_runRegex_alt.mp h with h1 | h
  · exact ipv6Alt1_inv h1
  rcases mem_runRegex_alt.mp h with h2 | h
  · exact ipv6Alt2_inv h2
  rcases mem_runRegex_alt.mp h with h3 | h
  · exact ipv6Alt3_inv h3
  rcases mem_runRegex_alt.mp h with h4 | h
  · exact ipv6Alt4_inv h4
  rcases mem_runRegex_alt.mp h with h5 | h
  · exact ipv6Alt5_inv h5
  rcases mem_runRegex_alt.mp h with h6 | h
  · exact ipv6Alt6_inv h6
  rcases mem_runRegex_alt.mp h with h7 | h8
  · exact ipv6Alt7_inv h7
  · exact ipv6Alt8_inv h8

theorem core_alt1 {c c2 : RCtx} (h : c2 ∈ runRegex ipv6Alt1 c) :
    c2 ∈ runRegex ipv6Core c :=
  mem_runRegex_alt.mpr (Or.inl h)

theorem core_alt2 {c c2 : RCtx} (h : c2 ∈ runRegex ipv6Alt2 c) :
    c2 ∈ runRegex ipv6Core c :=
  mem_runRegex_alt.mpr (Or.inr (mem_runRegex_alt.mpr (Or.inl h)))

theorem core_alt3 {c c2 : RCtx} (h : c2 ∈ runRegex ipv6Alt3 c) :
    c2 ∈ runRegex ipv6Core c :=
  mem_runRegex_alt.mpr (Or.inr (mem_runRegex_alt.mpr (Or.inr
    (mem_runRegex_alt.mpr (Or.inl h)))))

theorem core_alt4 {c c2 : RCtx} (h : c2 ∈ runRegex ipv6Alt4 c) :
    c2 ∈ runRegex ipv6Core c :=
  mem_runRegex_alt.mpr (Or.inr (mem_runRegex_alt.mpr (Or.inr
    (mem_runRegex_alt.mpr (Or.inr (mem_runRegex_alt.mpr (Or.inl h)))))))

theorem core_alt5 {c c2 : RCtx} (h : c2 ∈ runRegex ipv6Alt5 c) :
    c2 ∈ runRegex ipv6Core c :=
  mem_runRegex_alt.mpr (Or.inr (mem_runRegex_alt.mpr (Or.inr
    (mem_runRegex_alt.mpr (Or.inr (mem_runRegex_alt.mpr (Or.inr
      (mem_runRegex_alt.mpr (Or.inl h)))))))))

theorem core_alt6 {c c2 : RCtx} (h : c2 ∈ runRegex ipv6Alt6 c) :
    c2 ∈ runRegex ipv6Core c :=
  mem_runRegex_alt.mpr (Or.inr (mem_runRegex_alt.mpr (Or.inr
    (mem_runRegex_alt.mpr (Or.inr (mem_runRegex_alt.mpr (Or.inr
      (mem_runRegex_alt.mpr (Or.inr (mem_runRegex_alt.mpr (Or.inl h)))))))))))

theorem core_alt7 {c c2 : RCtx} (h : c2 ∈ runRegex ipv6Alt7 c) :
    c2 ∈ runRegex ipv6Core c :=
  mem_runRegex_alt.mpr (Or.inr (mem_runRegex_alt.mpr (Or.inr
    (mem_runRegex_alt.mpr (Or.inr (mem_runRegex_alt.mpr (Or.inr
      (mem_runRegex_alt.mpr (Or.inr (mem_runRegex_alt.mpr (Or.inr
        (mem_runRegex_alt.mpr (Or.inl h)))))))))))))

theorem core_alt8 {c c2 : RCtx} (h : c2 ∈ runRegex ipv6Alt8 c) :
    c2 ∈ runRegex ipv6Core c :=
  mem_runRegex_alt.mpr (Or.inr (mem_runRegex_alt.mpr (Or.inr
    (mem_runRegex_alt.mpr (Or.inr (mem_runRegex_alt.mpr (Or.inr
      (mem_runRegex_alt.mpr (Or.inr (mem_runRegex_alt.mpr (Or.inr
        (mem_runRegex_alt.mpr (Or.inr h)))))))))))))

theorem rep_h16c_con (lo hi : Nat) {gs : List (List Char)}
    (hall : ∀ g ∈ gs, isH16B g = true)
    (h1 : lo ≤ gs.length) (h2 : gs.length ≤ hi)
    (rest : List Char) (prev : Option Char) :
    ∃ p2, (p2, rest) ∈ runRep (runRegex h16c) lo hi (prev, trailCat gs ++ rest) := by
  rcases @mem_runIter_h16c_con gs rest prev hall with ⟨p2, hp⟩
  exact ⟨p2, (mem_runRep_iff (le_trans h1 h2)).mpr ⟨gs.length, h1, h2, hp⟩⟩

theorem rep_ch16_con (lo hi : Nat) {gs : List (List Char)}
    (hall : ∀ g ∈ gs, isH16B g = true)
    (h1 : lo ≤ gs.length) (h2 : gs.length ≤ hi)
    (rest : List Char) (prev : Option Char) :
    ∃ p2, (p2, rest) ∈ runRep (runRegex ch16) lo hi (prev, colCat gs ++ rest) := by
  rcases @mem_runIter_ch16_con gs rest prev hall with ⟨p2, hp⟩
  exact ⟨p2, (mem_runRep_iff (le_trans h1 h2)).mpr ⟨gs.length, h1, h2, hp⟩⟩

theorem colon_v4_con {q : List Char} (hcq : CanonicalQuad q)
    (rest : List Char) (prev : Option Char) :
    ∃ p2, (p2, rest) ∈ runRegex (.cat (chC ':') v4InV6Regex)
      (prev, ':' :: (q ++ rest)) := by
  rcases @mem_run_v4_con q rest hcq (some ':') with ⟨p2, hp⟩
  exact ⟨p2, mem_runRegex_cat.mpr ⟨(some ':', q ++ rest), mem_run_colon_con _ _, hp⟩⟩

theorem repv4_con (m : Nat) {gs2 : List (List Char)}
    (hall2 : ∀ g ∈ gs2, isH16B g = true) (hk : gs2.length ≤ m)
    {q : List Char} (hcq : CanonicalQuad q)
    (rest : List Char) (prev : Option Char) :
    ∃ p2, (p2, rest) ∈ runRegex
      (.cat (.rep 0 m ch16) (.cat (chC ':') v4InV6Regex))
      (prev, colCat gs2 ++ (':' :: (q ++ rest))) := by
  rcases rep_ch16_con 0 m hall2 (Nat.zero_le _) hk (':' :: (q ++ rest)) prev
    with ⟨p2, hp2⟩
  rcases colon_v4_con hcq rest p2 with ⟨p3, hp3⟩
  exact ⟨p3, mem_runRegex_cat.mpr ⟨(p2, ':' :: (q ++ rest)), hp2, hp3⟩⟩

theorem ipv6Core_con {core : List Char} (h : IPv6CoreForm core)
    (rest : List Char) (prev : Option Char) :
    ∃ p2, (p2, rest) ∈ runRegex ipv6Core (prev, core ++ rest) := by
  rcases h with ⟨gs, hlen, hall, rfl⟩ | ⟨gs, q, hlen, hall, hcq, rfl⟩ |
    ⟨gs1, gs2, hlen, hall1, hall2, rfl⟩ |
    ⟨gs1, gs2, q, hlen, hall1, hall2, hcq, rfl⟩
  · -- eight canonical hextets: alternative 1, hextet tail
    rcases List.eq_nil_or_concat gs with rfl | ⟨gs', t, rfl⟩
    · simp at hlen
    · rw [List.concat_eq_append] at hlen hall ⊢
      have hlen' : gs'.length = 7 := by
        simp only [List.length_append, List.length_cons, List.length_nil] at hlen
        omega
      have hne' : gs' ≠ [] := by
        intro he
        subst he
        simp at hlen'
      have hall' : ∀ g ∈ gs', isH16B g = true :=
        fun g hg => hall g (List.mem_append.mpr (Or.inl hg))
      have ht : isH16B t = true :=
        hall t (List.mem_append.mpr (Or.inr (List.mem_singleton.mpr rfl)))
      have hstr : joinColon (gs' ++ [t]) ++ rest = trailCat gs' ++ (t ++ rest) := by
        rw [joinColon_append_single hne', trailCat_append_eq hne']
        simp
      rw [hstr]
      rcases rep_h16c_con 7 7 hall' (by omega) (by omega) (t ++ rest) prev
        with ⟨p2, hp2⟩
      exact ⟨prevAfter p2 t, core_alt1 (mem_runRegex_cat.mpr ⟨(p2, t ++ rest), hp2,
        mem_runRegex_alt.mpr (Or.inl (mem_run_h16_con ht p2))⟩)⟩
  · -- six hextets and a quad: alternative 2, dotted-quad tail
    have hne : gs ≠ [] := by
      intro he
      subst he
      simp at hlen
    have hstr : (joinColon gs ++ ':' :: q) ++ rest = trailCat gs ++ (q ++ rest) := by
      rw [trailCat_append_eq hne]
      simp
    rw [hstr]
    rcases rep_h16c_con 6 6 hall (by omega) (by omega) (q ++ rest) prev
      with ⟨p2, hp2⟩
    rcases @mem_run_v4_con q rest hcq p2 with ⟨p3, hp3⟩
    exact ⟨p3, core_alt2 (mem_runRegex_cat.mpr ⟨(p2, q ++ rest), hp2,
      mem_runRegex_alt.mpr (Or.inr (mem_runRegex_alt.mpr (Or.inl hp3)))⟩)⟩
  · -- a double colon: pick the alternative matching the leading group count
    have hj : gs1.length = 0 ∨ gs1.length = 1 ∨ gs1.length = 2 ∨ gs1.length = 3 ∨
        gs1.length = 4 ∨ gs1.length = 5 ∨ gs1.length = 6 ∨ gs1.length = 7 := by
      omega
    rcases hj with hj | hj | hj | hj | hj | hj | hj | hj
    · -- no leading groups: alternative 8
      have hgs1 : gs1 = [] := List.eq_nil_of_length_eq_zero hj
      subst hgs1
      cases gs2 with
      | nil =>
        have hstr : (joinColon ([] : List (List Char)) ++ ':' :: ':' ::
            joinColon ([] : List (List Char))) ++ rest = ':' :: (':' :: rest) := by
          simp [joinColon]
        rw [hstr]
        exact ⟨some ':', core_alt8 (mem_runRegex_cat.mpr ⟨(some ':', ':' :: rest),
          mem_run_chC_con ':' (':' :: rest) prev,
          mem_runRegex_alt.mpr (Or.inr (mem_runRegex_alt.mpr
            (Or.inr (mem_run_chC_con ':' rest (some ':')))))⟩)⟩
      | cons g0 gr =>
        have hstr : (joinColon ([] : List (List Char)) ++ ':' :: ':' ::
            joinColon (g0 :: gr)) ++ rest
            = ':' :: (colCat (g0 :: gr) ++ rest) := by
          rw [colCat_eq (List.cons_ne_nil g0 gr)]
          simp [joinColon]
        rw [hstr]
        rcases rep_ch16_con 1 7 hall2 (by simp only [List.length_cons]; omega)
          (by simp only [List.length_nil, List.length_cons] at hlen ⊢; omega)
          rest (some ':') with ⟨p3, hp3⟩
        exact ⟨p3, core_alt8 (mem_runRegex_cat.mpr
          ⟨(some ':', colCat (g0 :: gr) ++ rest),
            mem_run_chC_con ':' (colCat (g0 :: gr) ++ rest) prev,
            mem_runRegex_alt.mpr (Or.inl hp3)⟩)⟩
    · -- one leading group: alternative 7
      have hne1 : gs1 ≠ [] := by
        intro he
        subst he
        simp at hj
      cases gs2 with
      | nil =>
        have hstr : (joinColon gs1 ++ ':' :: ':' ::
            joinColon ([] : List (List Char))) ++ rest
            = trailCat gs1 ++ (':' :: rest) := by
          rw [trailCat_append_eq hne1]
          simp [joinColon]
        rw [hstr]
        rcases rep_h16c_con 1 1 hall1 (by omega) (by omega) (':' :: rest) prev
          with ⟨p2, hp2⟩
        exact ⟨some ':', core_alt7 (mem_runRegex_cat.mpr ⟨(p2, ':' :: rest), hp2,
          mem_runRegex_alt.mpr (Or.inr (mem_runRegex_alt.mpr
            (Or.inr (mem_run_chC_con ':' rest p2))))⟩)⟩
      | cons g0 gr =>
        have hstr : (joinColon gs1 ++ ':' :: ':' :: joinColon (g0 :: gr)) ++ rest
            = trailCat gs1 ++ (colCat (g0 :: gr) ++ rest) := by
          rw [trailCat_append_eq hne1, colCat_eq (List.cons_ne_nil g0 gr)]
          simp
        rw [hstr]
        rcases rep_h16c_con 1 1 hall1 (by omega) (by omega)
          (colCat (g0 :: gr) ++ rest) prev with ⟨p2, hp2⟩
        rcases rep_ch16_con 1 6 hall2 (by simp only [List.length_cons]; omega)
          (by simp only [List.length_cons] at hlen ⊢; omega) rest p2 with ⟨p3, hp3⟩
        exact ⟨p3, core_alt7 (mem_runRegex_cat.mpr
          ⟨(p2, colCat (g0 :: gr) ++ rest), hp2,
            mem_runRegex_alt.mpr (Or.inl hp3)⟩)⟩
    · -- two leading groups: alternative 6
      have hne1 : gs1 ≠ [] := by
        intro he
        subst he
        simp at hj
      cases gs2 with
      | nil =>
        have hstr : (joinColon gs1 ++ ':' :: ':' ::
            joinColon ([] : List (List Char))) ++ rest
            = trailCat gs1 ++ (':' :: rest) := by
          rw [trailCat_append_eq hne1]
          simp [joinColon]
        rw [hstr]
        rcases rep_h16c_con 2 2 hall1 (by omega) (by omega) (':' :: rest) prev
          with ⟨p2, hp2⟩
        exact ⟨some ':', core_alt6 (mem_runRegex_cat.mpr ⟨(p2, ':' :: rest), hp2,
          mem_runRegex_alt.mpr (Or.inr (mem_runRegex_alt.mpr
            (Or.inr (mem_run_chC_con ':' rest p2))))⟩)⟩
      | cons g0 gr =>
        have hstr : (joinColon gs1 ++ ':' :: ':' :: joinColon (g0 :: gr)) ++ rest
            = trailCat gs1 ++ (colCat (g0 :: gr) ++ rest) := by
          rw [trailCat_append_eq hne1, colCat_eq (List.cons_ne_nil g0 gr)]
          simp
        rw [hstr]
        rcases rep_h16c_con 2 2 hall1 (by omega) (by omega)
          (colCat (g0 :: gr) ++ rest) prev with ⟨p2, hp2⟩
        rcases rep_ch16_con 1 5 hall2 (by simp only [List.length_cons]; omega)
          (by simp only [List.length_cons] at hlen ⊢; omega) rest p2 with ⟨p3, hp3⟩
        exact ⟨p3, core_alt6 (mem_runRegex_cat.mpr
          ⟨(p2, colCat (g0 :: gr) ++ rest), hp2,
            mem_runRegex_alt.mpr (Or.inl hp3)⟩)⟩
    · -- three leading groups: alternative 5
      have hne1 : gs1 ≠ [] := by
        intro he
        subst he
        simp at hj
      cases gs2 with
      | nil =>
        have hstr : (joinColon gs1 ++ ':' :: ':' ::
            joinColon ([] : List (List Char))) ++ rest
            = trailCat gs1 ++ (':' :: rest) := by
          rw [trailCat_append_eq hne1]
          simp [joinColon]
        rw [hstr]
        rcases rep_h16c_con 3 3 hall1 (by omega) (by omega) (':' :: rest) prev
          with ⟨p2, hp2⟩
        exact ⟨some ':', core_alt5 (mem_runRegex_cat.mpr ⟨(p2, ':' :: rest), hp2,
          mem_runRegex_alt.mpr (Or.inr (mem_runRegex_alt.mpr
            (Or.inr (mem_run_chC_con ':' rest p2))))⟩)⟩
      | cons g0 gr =>
        have hstr : (joinColon gs1 ++ ':' :: ':' :: joinColon (g0 :: gr)) ++ rest
            = trailCat gs1 ++ (colCat (g0 :: gr) ++ rest) := by
          rw [trailCat_append_eq hne1, colCat_eq (List.cons_ne_nil g0 gr)]
          simp
        rw [hstr]
        rcases rep_h16c_con 3 3 hall1 (by omega) (by omega)
          (colCat (g0 :: gr) ++ rest) prev with ⟨p2, hp2⟩
        rcases rep_ch16_con 1 4 hall2 (by simp only [List.length_cons]; omega)
          (by simp only [List.length_cons] at hlen ⊢; omega) rest p2 with ⟨p3, hp3⟩
        exact ⟨p3, core_alt5 (mem_runRegex_cat.mpr
          ⟨(p2, colCat (g0 :: gr) ++ rest), hp2,
            mem_runRegex_alt.mpr (Or.inl hp3)⟩)⟩
    · -- four leading groups: alternative 4
      have hne1 : gs1 ≠ [] := by
        intro he
        subst he
        simp at hj
      cases gs2 with
      | nil =>
        have hstr : (joinColon gs1 ++ ':' :: ':' ::
            joinColon ([] : List (List Char))) ++ rest
            = trailCat gs1 ++ (':' :: rest) := by
          rw [trailCat_append_eq hne1]
          simp [joinColon]
        rw [hstr]
        rcases rep_h16c_con 4 4 hall1 (by omega) (by omega) (':' :: rest) prev
          with ⟨p2, hp2⟩
        exact ⟨some ':', core_alt4 (mem_runRegex_cat.mpr ⟨(p2, ':' :: rest), hp2,
          mem_runRegex_alt.mpr (Or.inr (mem_runRegex_alt.mpr
            (Or.inr (mem_run_chC_con ':' rest p2))))⟩)⟩
      | cons g0 gr =>
        have hstr : (joinColon gs1 ++ ':' :: ':' :: joinColon (g0 :: gr)) ++ rest
            = trailCat gs1 ++ (colCat (g0 :: gr) ++ rest) := by
          rw [trailCat_append_eq hne1, colCat_eq (List.cons_ne_nil g0 gr)]
          simp
        rw [hstr]
        rcases rep_h16c_con 4 4 hall1 (by omega) (by omega)
          (colCat (g0 :: gr) ++ rest) prev with ⟨p2, hp2⟩
        rcases rep_ch16_con 1 3 hall2 (by simp only [List.length_cons]; omega)
          (by simp only [List.length_cons] at hlen ⊢; omega) rest p2 with ⟨p3, hp3⟩
        exact ⟨p3, core_alt4 (mem_runRegex_cat.mpr
          ⟨(p2, colCat (g0 :: gr) ++ rest), hp2,
            mem_runRegex_alt.mpr (Or.inl hp3)⟩)⟩
    · -- five leading groups: alternative 3
      have hne1 : gs1 ≠ [] := by
        intro he
        subst he
        simp at hj
      cases gs2 with
      | nil =>
        have hstr : (joinColon gs1 ++ ':' :: ':' ::
            joinColon ([] : List (List Char))) ++ rest
            = trailCat gs1 ++ (':' :: rest) := by
          rw [trailCat_append_eq hne1]
          simp [joinColon]
        rw [hstr]
        rcases rep_h16c_con 5 5 hall1 (by omega) (by omega) (':' :: rest) prev
          with ⟨p2, hp2⟩
        exact ⟨some ':', core_alt3 (mem_runRegex_cat.mpr ⟨(p2, ':' :: rest), hp2,
          mem_runRegex_alt.mpr (Or.inr (mem_runRegex_alt.mpr
            (Or.inr (mem_run_chC_con ':' rest p2))))⟩)⟩
      | cons g0 gr =>
        have hstr : (joinColon gs1 ++ ':' :: ':' :: joinColon (g0 :: gr)) ++ rest
            = trailCat gs1 ++ (colCat (g0 :: gr) ++ rest) := by
          rw [trailCat_append_eq hne1, colCat_eq (List.cons_ne_nil g0 gr)]
          simp
        rw [hstr]
        rcases rep_h16c_con 5 5 hall1 (by omega) (by omega)
          (colCat (g0 :: gr) ++ rest) prev with ⟨p2, hp2⟩
        rcases rep_ch16_con 1 2 hall2 (by simp only [List.length_cons]; omega)
          (by simp only [List.length_cons] at hlen ⊢; omega) rest p2 with ⟨p3, hp3⟩
        exact ⟨p3, core_alt3 (mem_runRegex_cat.mpr
          ⟨(p2, colCat (g0 :: gr) ++ rest), hp2,
            mem_runRegex_alt.mpr (Or.inl hp3)⟩)⟩
    · -- six leading groups: alternative 2
      have hne1 : gs1 ≠ [] := by
        intro he
        subst he
        simp at hj
      cases gs2 with
      | nil =>
        have hstr : (joinColon gs1 ++ ':' :: ':' ::
            joinColon ([] : List (List Char))) ++ rest
            = trailCat gs1 ++ (':' :: rest) := by
          rw [trailCat_append_eq hne1]
          simp [joinColon]
        rw [hstr]
        rcases rep_h16c_con 6 6 hall1 (by omega) (by omega) (':' :: rest) prev
          with ⟨p2, hp2⟩
        exact ⟨some ':', core_alt2 (mem_runRegex_cat.mpr ⟨(p2, ':' :: rest), hp2,
          mem_runRegex_alt.mpr (Or.inr (mem_runRegex_alt.mpr
            (Or.inr (mem_run_chC_con ':' rest p2))))⟩)⟩
      | cons g0 gr =>
        have hgr : gr = [] := by
          simp only [List.length_cons] at hlen
          exact List.eq_nil_of_length_eq_zero (by omega)
        subst hgr
        have hstr : (joinColon gs1 ++ ':' :: ':' :: joinColon [g0]) ++ rest
            = trailCat gs1 ++ (':' :: (g0 ++ rest)) := by
          rw [trailCat_append_eq hne1]
          simp [joinColon]
        rw [hstr]
        rcases rep_h16c_con 6 6 hall1 (by omega) (by omega)
          (':' :: (g0 ++ rest)) prev with ⟨p2, hp2⟩
        have hg0 : isH16B g0 = true := hall2 g0 (List.mem_cons_self g0 [])
        exact ⟨prevAfter (some ':') g0, core_alt2 (mem_runRegex_cat.mpr
          ⟨(p2, ':' :: (g0 ++ rest)), hp2,
            mem_runRegex_alt.mpr (Or.inl (@mem_run_ch16_con g0 rest hg0 p2))⟩)⟩
    · -- seven leading groups: alternative 1, colon tail
      have hne1 : gs1 ≠ [] := by
        intro he
        subst he
        simp at hj
      cases gs2 with
      | nil =>
        have hstr : (joinColon gs1 ++ ':' :: ':' ::
            joinColon ([] : List (List Char))) ++ rest
            = trailCat gs1 ++ (':' :: rest) := by
          rw [trailCat_append_eq hne1]
          simp [joinColon]
        rw [hstr]
        rcases rep_h16c_con 7 7 hall1 (by omega) (by omega) (':' :: rest) prev
          with ⟨p2, hp2⟩
        exact ⟨some ':', core_alt1 (mem_runRegex_cat.mpr ⟨(p2, ':' :: rest), hp2,
          mem_runRegex_alt.mpr (Or.inr (mem_run_chC_con ':' rest p2))⟩)⟩
      | cons g0 gr =>
        exfalso
        simp only [List.length_cons] at hlen
        omega
  · -- a double colon with a quad tail
    have hj : gs1.length = 0 ∨ gs1.length = 1 ∨ gs1.length = 2 ∨ gs1.length = 3 ∨
        gs1.length = 4 ∨ gs1.length = 5 := by
      omega
    rcases hj with hj | hj | hj | hj | hj | hj
    · -- no leading groups: alternative 8
      have hgs1 : gs1 = [] := List.eq_nil_of_length_eq_zero hj
      subst hgs1
      have hstr : (joinColon ([] : List (List Char)) ++ ':' :: ':' ::
          (joinColon gs2 ++ if gs2.isEmpty then q else ':' :: q)) ++ rest
          = ':' :: (colCat gs2 ++ (':' :: (q ++ rest))) := by
        cases gs2 with
        | nil => simp [joinColon, colCat]
        | cons g0 gr =>
          rw [colCat_eq (List.cons_ne_nil g0 gr)]
          simp [joinColon]
      rw [hstr]
      have hkb : gs2.length ≤ 5 := by omega
      rcases repv4_con 5 hall2 hkb hcq rest (some ':') with ⟨p3, hp3⟩
      exact ⟨p3, core_alt8 (mem_runRegex_cat.mpr
        ⟨(some ':', colCat gs2 ++ (':' :: (q ++ rest))),
          mem_run_chC_con ':' (colCat gs2 ++ (':' :: (q ++ rest))) prev,
          mem_runRegex_alt.mpr (Or.inr (mem_runRegex_alt.mpr (Or.inl hp3)))⟩)⟩
    · -- one leading group: alternative 7
      have hne1 : gs1 ≠ [] := by
        intro he
        subst he
        simp at hj
      have hstr : (joinColon gs1 ++ ':' :: ':' ::
          (joinColon gs2 ++ if gs2.isEmpty then q else ':' :: q)) ++ rest
          = trailCat gs1 ++ (colCat gs2 ++ (':' :: (q ++ rest))) := by
        cases gs2 with
        | nil =>
          rw [trailCat_append_eq hne1]
          simp [joinColon, colCat]
        | cons g0 gr =>
          rw [trailCat_append_eq hne1, colCat_eq (List.cons_ne_nil g0 gr)]
          simp
      rw [hstr]
      rcases rep_h16c_con 1 1 hall1 (by omega) (by omega)
        (colCat gs2 ++ (':' :: (q ++ rest))) prev with ⟨p2, hp2⟩
      have hkb : gs2.length ≤ 4 := by omega
      rcases repv4_con 4 hall2 hkb hcq rest p2 with ⟨p3, hp3⟩
      exact ⟨p3, core_alt7 (mem_runRegex_cat.mpr
        ⟨(p2, colCat gs2 ++ (':' :: (q ++ rest))), hp2,
          mem_runRegex_alt.mpr (Or.inr (mem_runRegex_alt.mpr (Or.inl hp3)))⟩)⟩
    · -- two leading groups: alternative 6
      have hne1 : gs1 ≠ [] := by
        intro he
        subst he
        simp at hj
      have hstr : (joinColon gs1 ++ ':' :: ':' ::
          (joinColon gs2 ++ if gs2.isEmpty then q else ':' :: q)) ++ rest
          = trailCat gs1 ++ (colCat gs2 ++ (':' :: (q ++ rest))) := by
        cases gs2 with
        | nil =>
          rw [trailCat_append_eq hne1]
          simp [joinColon, colCat]
        | cons g0 gr =>
          rw [trailCat_append_eq hne1, colCat_eq (List.cons_ne_nil g0 gr)]
          simp
      rw [hstr]
      rcases rep_h16c_con 2 2 hall1 (by omega) (by omega)
        (colCat gs2 ++ (':' :: (q ++ rest))) prev with ⟨p2, hp2⟩
      have hkb : gs2.length ≤ 3 := by omega
      rcases repv4_con 3 hall2 hkb hcq rest p2 with ⟨p3, hp3⟩
      exact ⟨p3, core_alt6 (mem_runRegex_cat.mpr
        ⟨(p2, colCat gs2 ++ (':' :: (q ++ rest))), hp2,
          mem_runRegex_alt.mpr (Or.inr (mem_runRegex_alt.mpr (Or.inl hp3)))⟩)⟩
    · -- three leading groups: alternative 5
      have hne1 : gs1 ≠ [] := by
        intro he
        subst he
        simp at hj
      have hstr : (joinColon gs1 ++ ':' :: ':' ::
          (joinColon gs2 ++ if gs2.isEmpty then q else ':' :: q)) ++ rest
          = trailCat gs1 ++ (colCat gs2 ++ (':' :: (q ++ rest))) := by
        cases gs2 with
        | nil =>
          rw [trailCat_append_eq hne1]
          simp [joinColon, colCat]
        | cons g0 gr =>
          rw [trailCat_append_eq hne1, colCat_eq (List.cons_ne_nil g0 gr)]
          simp
      rw [hstr]
      rcases rep_h16c_con 3 3 hall1 (by omega) (by omega)
        (colCat gs2 ++ (':' :: (q ++ rest))) prev with ⟨p2, hp2⟩
      have hkb : gs2.length ≤ 2 := by omega
      rcases repv4_con 2 hall2 hkb hcq rest p2 with ⟨p3, hp3⟩
      exact ⟨p3, core_alt5 (mem_runRegex_cat.mpr
        ⟨(p2, colCat gs2 ++ (':' :: (q ++ rest))), hp2,
          mem_runRegex_alt.mpr (Or.inr (mem_runRegex_alt.mpr (Or.inl hp3)))⟩)⟩
    · -- four leading groups: alternative 4 with its optional hextet
      have hne1 : gs1 ≠ [] := by
        intro he
        subst he
        simp at hj
      cases gs2 with
      | nil =>
        have hstr : (joinColon gs1 ++ ':' :: ':' ::
            (joinColon ([] : List (List Char)) ++
              if ([] : List (List Char)).isEmpty then q else ':' :: q)) ++ rest
            = trailCat gs1 ++ (':' :: (q ++ rest)) := by
          rw [trailCat_append_eq hne1]
          simp [joinColon]
        rw [hstr]
        rcases rep_h16c_con 4 4 hall1 (by omega) (by omega)
          (':' :: (q ++ rest)) prev with ⟨p2, hp2⟩
        rcases colon_v4_con hcq rest p2 with ⟨p4, hp4⟩
        exact ⟨p4, core_alt4 (mem_runRegex_cat.mpr ⟨(p2, ':' :: (q ++ rest)), hp2,
          mem_runRegex_alt.mpr (Or.inr (mem_runRegex_alt.mpr (Or.inl
            (mem_runRegex_cat.mpr ⟨(p2, ':' :: (q ++ rest)),
              mem_runRegex_alt.mpr (Or.inr (mem_runRegex_eps.mpr rfl)),
              hp4⟩))))⟩)⟩
      | cons g0 gr =>
        have hgr : gr = [] := by
          simp only [List.length_cons] at hlen
          exact List.eq_nil_of_length_eq_zero (by omega)
        subst hgr
        have hstr : (joinColon gs1 ++ ':' :: ':' ::
            (joinColon [g0] ++
              if ([g0] : List (List Char)).isEmpty then q else ':' :: q)) ++ rest
            = trailCat gs1 ++ (':' :: (g0 ++ ':' :: (q ++ rest))) := by
          rw [trailCat_append_eq hne1]
          simp [joinColon]
        rw [hstr]
        rcases rep_h16c_con 4 4 hall1 (by omega) (by omega)
          (':' :: (g0 ++ ':' :: (q ++ rest))) prev with ⟨p2, hp2⟩
        have hg0 : isH16B g0 = true := hall2 g0 (List.mem_cons_self g0 [])
        rcases colon_v4_con hcq rest (prevAfter (some ':') g0) with ⟨p4, hp4⟩
        exact ⟨p4, core_alt4 (mem_runRegex_cat.mpr
          ⟨(p2, ':' :: (g0 ++ ':' :: (q ++ rest))), hp2,
            mem_runRegex_alt.mpr (Or.inr (mem_runRegex_alt.mpr (Or.inl
              (mem_runRegex_cat.mpr
                ⟨(prevAfter (some ':') g0, ':' :: (q ++ rest)),
                  mem_runRegex_alt.mpr (Or.inl
                    (@mem_run_ch16_con g0 (':' :: (q ++ rest)) hg0 p2)),
                  hp4⟩))))⟩)⟩
    · -- five leading groups: alternative 3, a bare colon before the quad
      have hne1 : gs1 ≠ [] := by
        intro he
        subst he
        simp at hj
      have hgs2 : gs2 = [] := by
        cases gs2 with
        | nil => rfl
        | cons g0 gr =>
          exfalso
          simp only [List.length_cons] at hlen
          omega
      subst hgs2
      have hstr : (joinColon gs1 ++ ':' :: ':' ::
          (joinColon ([] : List (List Char)) ++
            if ([] : List (List Char)).isEmpty then q else ':' :: q)) ++ rest
          = trailCat gs1 ++ (':' :: (q ++ rest)) := by
        rw [trailCat_append_eq hne1]
        simp [joinColon]
      rw [hstr]
      rcases rep_h16c_con 5 5 hall1 (by omega) (by omega)
        (':' :: (q ++ rest)) prev with ⟨p2, hp2⟩
      rcases colon_v4_con hcq rest p2 with ⟨p4, hp4⟩
      exact ⟨p4, core_alt3 (mem_runRegex_cat.mpr ⟨(p2, ':' :: (q ++ rest)), hp2,
        mem_runRegex_alt.mpr (Or.inr (mem_runRegex_alt.mpr (Or.inl hp4)))⟩)⟩

theorem zone_inv {prev : Option Char} {s : List Char} {c2 : RCtx}
    (h : c2 ∈ runRegex zoneRegex (prev, s)) :
    ∃ z, ZoneSuffix z ∧ s = z ++ c2.2 := by
  rcases mem_runRegex_alt.mp h with hz | heps
  · rcases mem_runRegex_cat.mp hz with ⟨m1, hpct, hrest⟩
    rcases m1 with ⟨p1, s1⟩
    have hs := mem_run_chC_inv hpct
    simp only at hs
    rcases mem_runRegex_cat.mp hrest with ⟨m2, hdot, hstar⟩
    rcases m2 with ⟨p2, s2⟩
    rcases mem_runRegex_cls.mp hdot with ⟨ch, r, hs1, hpch, hc⟩
    injection hc with hc1 hc2
    subst hc1
    subst hc2
    rcases mem_runStar_iff.mp hstar with ⟨t2, hall2, hs2, _⟩
    refine ⟨'%' :: ch :: t2, Or.inr ⟨ch :: t2, by simp, ?_, rfl⟩, ?_⟩
    · simp only [List.all_cons, Bool.and_eq_true]
      exact ⟨hpch, hall2⟩
    · rw [hs, hs1, hs2]
      simp
  · rw [mem_runRegex_eps] at heps
    subst heps
    exact ⟨[], Or.inl rfl, by simp⟩

theorem zone_con {z : List Char} (h : ZoneSuffix z) (rest : List Char)
    (prev : Option Char) :
    ∃ p2, (p2, rest) ∈ runRegex zoneRegex (prev, z ++ rest) := by
  rcases h with rfl | ⟨t, hne, hall, rfl⟩
  · exact ⟨prev, mem_runRegex_alt.mpr (Or.inr (mem_runRegex_eps.mpr rfl))⟩
  · cases t with
    | nil => exact absurd rfl hne
    | cons ch t2 =>
      simp only [List.all_cons, Bool.and_eq_true] at hall
      refine ⟨prevAfter (some ch) t2, mem_runRegex_alt.mpr (Or.inl
        (mem_runRegex_cat.mpr ⟨(some '%', ch :: (t2 ++ rest)), ?_,
          mem_runRegex_cat.mpr ⟨(some ch, t2 ++ rest), ?_, ?_⟩⟩))⟩
      · exact mem_run_chC_con '%' (ch :: (t2 ++ rest)) prev
      · exact mem_runRegex_cls.mpr ⟨ch, t2 ++ rest, rfl, hall.1, rfl⟩
      · exact mem_runStar_iff.mpr ⟨t2, hall.2, rfl, rfl⟩

theorem accepts_ipv6_iff {s : List Char} :
    accepts ipv6Regex s = true ↔ IPv6Padded s := by
  constructor
  · intro h
    simp only [accepts] at h
    rcases List.any_eq_true.mp h with ⟨ctx, hmem, hemp⟩
    rcases ctx with ⟨cp, cs⟩
    simp only at hemp
    cases cs with
    | cons a b => simp at hemp
    | nil =>
    rcases mem_runRegex_cat.mp hmem with ⟨m1, hws1, hrest⟩
    rcases m1 with ⟨p1, s1⟩
    rcases mem_runStar_iff.mp hws1 with ⟨w1, hw1, hs, _⟩
    rcases mem_runRegex_cat.mp hrest with ⟨m2, hcore, hrest2⟩
    rcases m2 with ⟨p2, s2⟩
    rcases ipv6Core_inv hcore with ⟨core, hcf, hs1⟩
    rcases mem_runRegex_cat.mp hrest2 with ⟨m3, hzone, hws2⟩
    rcases m3 with ⟨p3, s3⟩
    rcases zone_inv hzone with ⟨z, hzf, hs2⟩
    rcases mem_runStar_iff.mp hws2 with ⟨w2, hw2, hs3, _⟩
    simp only at hs hs1 hs2 hs3
    refine ⟨w1, w2, core ++ z, hw1, hw2, ⟨core, z, hcf, hzf, rfl⟩, ?_⟩
    rw [hs, hs1, hs2, hs3]
    simp
  · rintro ⟨w1, w2, body, hw1, hw2, ⟨core, z, hcf, hzf, rfl⟩, rfl⟩
    have hassoc : w1 ++ (core ++ z) ++ w2 = w1 ++ (core ++ (z ++ w2)) := by
      simp
    simp only [accepts]
    apply List.any_eq_true.mpr
    rw [hassoc]
    rcases ipv6Core_con hcf (z ++ w2) (prevAfter none w1) with ⟨p2, hp2⟩
    rcases zone_con hzf w2 p2 with ⟨p3, hp3⟩
    refine ⟨(prevAfter p3 w2, []), ?_, rfl⟩
    refine mem_runRegex_cat.mpr ⟨(prevAfter none w1, core ++ (z ++ w2)), ?_, ?_⟩
    · exact mem_runStar_iff.mpr ⟨w1, hw1, rfl, rfl⟩
    refine mem_runRegex_cat.mpr ⟨(p2, z ++ w2), hp2, ?_⟩
    refine mem_runRegex_cat.mpr ⟨(p3, w2), hp3, ?_⟩
    exact mem_runStar_iff.mpr ⟨w2, hw2, by simp, rfl⟩

theorem canonOctet_chars {t : List Char} (h : isCanonOctet t = true) :
    ∀ c ∈ t, c.isDigit = true := by
  simp only [isCanonOctet, Bool.and_eq_true, decide_eq_true_eq,
    List.all_eq_true] at h
  exact h.1.1.1.2

theorem canonQuad_no_colon {s : List Char} (h : CanonicalQuad s) : ':' ∉ s := by
  rcases h with ⟨t1, t2, t3, t4, h1, h2, h3, h4, rfl⟩
  intro hmem
  rcases List.mem_append.mp hmem with hm | hm
  · exact absurd (canonOctet_chars h1 ':' hm) (by decide)
  rcases List.mem_cons.mp hm with he | hm
  · exact absurd he (by decide)
  rcases List.mem_append.mp hm with hm | hm
  · exact absurd (canonOctet_chars h2 ':' hm) (by decide)
  rcases List.mem_cons.mp hm with he | hm
  · exact absurd he (by decide)
  rcases List.mem_append.mp hm with hm | hm
  · exact absurd (canonOctet_chars h3 ':' hm) (by decide)
  rcases List.mem_cons.mp hm with he | hm
  · exact absurd he (by decide)
  · exact absurd (canonOctet_chars h4 ':' hm) (by decide)

theorem quad_ne_nil {s : List Char} (h : CanonicalQuad s) : s ≠ [] := by
  rcases h with ⟨t1, t2, t3, t4, h1, h2, h3, h4, rfl⟩
  simp

theorem coreForm_has_colon {core : List Char} (h : IPv6CoreForm core) :
    ':' ∈ core := by
  rcases h with ⟨gs, hlen, hall, rfl⟩ | ⟨gs, q, hlen, hall, hcq, rfl⟩ |
    ⟨gs1, gs2, hlen, hall1, hall2, rfl⟩ |
    ⟨gs1, gs2, q, hlen, hall1, hall2, hcq, rfl⟩
  · cases gs with
    | nil => simp at hlen
    | cons g1 tail =>
      cases tail with
      | nil => simp at hlen
      | cons g2 t2 =>
        simp [joinColon]
  · simp
  · simp
  · simp

theorem joinColon_head_shape (g1 : List Char) (tail : List (List Char))
    (t : List Char) :
    ∃ X, joinColon (g1 :: tail) ++ t = g1 ++ X := by
  cases tail with
  | nil => exact ⟨t, by simp [joinColon]⟩
  | cons g2 tt => exact ⟨':' :: (joinColon (g2 :: tt) ++ t), by simp [joinColon]⟩

theorem head_of_append {g1 : List Char} (hg : isH16B g1 = true) {X : List Char}
    {c : Char} {cs : List Char} (he : g1 ++ X = c :: cs) : isHexC c = true := by
  simp only [isH16B, Bool.and_eq_true, decide_eq_true_eq, List.all_eq_true] at hg
  cases g1 with
  | nil => exact absurd rfl hg.1.1
  | cons a as =>
    simp only [List.cons_append, List.cons.injEq] at he
    rcases he with ⟨rfl, -⟩
    exact hg.2 a (List.mem_cons_self a as)

theorem coreForm_head {core : List Char} (h : IPv6CoreForm core) {c : Char}
    {cs : List Char} (he : core = c :: cs) : isHexC c = true ∨ c = ':' := by
  rcases h with ⟨gs, hlen, hall, rfl⟩ | ⟨gs, q, hlen, hall, hcq, rfl⟩ |
    ⟨gs1, gs2, hlen, hall1, hall2, rfl⟩ |
    ⟨gs1, gs2, q, hlen, hall1, hall2, hcq, rfl⟩
  · cases gs with
    | nil => simp at hlen
    | cons g1 tail =>
      rcases joinColon_head_shape g1 tail [] with ⟨X, hX⟩
      rw [List.append_nil] at hX
      rw [hX] at he
      exact Or.inl (head_of_append (hall g1 (List.mem_cons_self g1 tail)) he)
  · cases gs with
    | nil => simp at hlen
    | cons g1 tail =>
      rcases joinColon_head_shape g1 tail (':' :: q) with ⟨X, hX⟩
      rw [hX] at he
      exact Or.inl (head_of_append (hall g1 (List.mem_cons_self g1 tail)) he)
  · cases gs1 with
    | nil =>
      simp only [joinColon, List.nil_append, List.cons.injEq] at he
      exact Or.inr he.1.symm
    | cons g1 tail =>
      rcases joinColon_head_shape g1 tail (':' :: ':' :: joinColon gs2)
        with ⟨X, hX⟩
      rw [hX] at he
      exact Or.inl (head_of_append (hall1 g1 (List.mem_cons_self g1 tail)) he)
  · cases gs1 with
    | nil =>
      simp only [joinColon, List.nil_append, List.cons.injEq] at he
      exact Or.inr he.1.symm
    | cons g1 tail =>
      rcases joinColon_head_shape g1 tail
        (':' :: ':' :: (joinColon gs2 ++ if gs2.isEmpty then q else ':' :: q))
        with ⟨X, hX⟩
      rw [hX] at he
      exact Or.inl (head_of_append (hall1 g1 (List.mem_cons_self g1 tail)) he)

theorem hex_not_ws {a : Char} (h : isHexC a = true) : isJsWs a = false := by
  have hb : 48 ≤ a.toNat ∧ a.toNat ≤ 102 := by
    have ea : ('a' : Char).toNat = 97 := rfl
    have ef : ('f' : Char).toNat = 102 := rfl
    have eA : ('A' : Char).toNat = 65 := rfl
    have eF : ('F' : Char).toNat = 70 := rfl
    simp only [isHexC, Bool.or_eq_true, Bool.and_eq_true, decide_eq_true_eq,
      char_le_iff] at h
    rcases h with (hd | h2) | h3
    · have := isDigit_toNat hd
      omega
    · omega
    · omega
  cases hjw : isJsWs a with
  | false => rfl
  | true =>
    exfalso
    have e1 : (' ' : Char).toNat = 32 := rfl
    have e2 : ('\t' : Char).toNat = 9 := rfl
    have e3 : ('\n' : Char).toNat = 10 := rfl
    have e4 : ('\u000B' : Char).toNat = 11 := rfl
    have e5 : ('\u000C' : Char).toNat = 12 := rfl
    have e6 : ('\r' : Char).toNat = 13 := rfl
    have e7 : ('\u00A0' : Char).toNat = 160 := rfl
    have e8 : ('\u1680' : Char).toNat = 5760 := rfl
    have e9 : ('\u2000' : Char).toNat = 8192 := rfl
    have e10 : ('\u200A' : Char).toNat = 8202 := rfl
    have e11 : ('\u2028' : Char).toNat = 8232 := rfl
    have e12 : ('\u2029' : Char).toNat = 8233 := rfl
    have e13 : ('\u202F' : Char).toNat = 8239 := rfl
    have e14 : ('\u205F' : Char).toNat = 8287 := rfl
    have e15 : ('\u3000' : Char).toNat = 12288 := rfl
    have e16 : ('\uFEFF' : Char).toNat = 65279 := rfl
    simp only [isJsWs, Bool.or_eq_true, Bool.and_eq_true, decide_eq_true_eq,
      char_toNat_eq_iff, char_le_iff] at hjw
    omega

theorem claimed_head_not_ws {s : List Char} (h : IPv6Claimed s) {c : Char}
    {cs : List Char} (he : s = c :: cs) : isJsWs c = false := by
  rcases h with ⟨core, z, hcf, hz, rfl⟩
  cases hcore : core with
  | nil =>
    have hcol := coreForm_has_colon hcf
    rw [hcore] at hcol
    simp at hcol
  | cons a as =>
    rw [hcore] at he
    simp only [List.cons_append, List.cons.injEq] at he
    rcases he with ⟨rfl, -⟩
    rcases coreForm_head hcf hcore with hhex | hc
    · exact hex_not_ws hhex
    · rw [hc]
      decide

theorem canonQuad_has_dot {s : List Char} (h : CanonicalQuad s) : '.' ∈ s := by
  rcases h with ⟨t1, t2, t3, t4, _, _, _, _, rfl⟩
  exact List.mem_append.mpr (Or.inr (List.mem_cons_self _ _))

theorem padded_has_colon {s : List Char} (h : IPv6Padded s) : ':' ∈ s := by
  rcases h with ⟨w1, w2, body, hw1, hw2, ⟨core, z, hcf, hzf, rfl⟩, rfl⟩
  exact List.mem_append.mpr (Or.inl (List.mem_append.mpr (Or.inr
    (List.mem_append.mpr (Or.inl (coreForm_has_colon hcf))))))

theorem padded_not_quad {s : List Char} (h : IPv6Padded s) : ¬CanonicalQuad s :=
  fun hq => canonQuad_no_colon hq (padded_has_colon h)

theorem padded_ne_nil {s : List Char} (h : IPv6Padded s) : s ≠ [] := by
  intro he
  have hcol := padded_has_colon h
  rw [he] at hcol
  simp at hcol

theorem validateIP_eq_ok4_iff {s : List Char} :
    validateIP s = .ok 4 ↔ CanonicalQuad s := by
  constructor
  · intro h
    by_cases hnil : s = []
    · subst hnil
      simp [validateIP] at h
    by_cases h4 : accepts ipv4Regex s = true
    · exact accepts_ipv4_iff.mp h4
    by_cases h6 : accepts ipv6Regex s = true
    · simp [validateIP, hnil, h4, h6] at h
    · simp [validateIP, hnil, h4, h6] at h
  · intro hq
    have hnil := quad_ne_nil hq
    have h4 := accepts_ipv4_iff.mpr hq
    simp [validateIP, hnil, h4]

theorem validateIP_eq_ok6_iff {s : List Char} :
    validateIP s = .ok 6 ↔ IPv6Padded s := by
  constructor
  · intro h
    by_cases hnil : s = []
    · subst hnil
      simp [validateIP] at h
    by_cases h4 : accepts ipv4Regex s = true
    · simp [validateIP, hnil, h4] at h
    by_cases h6 : accepts ipv6Regex s = true
    · exact accepts_ipv6_iff.mp h6
    · simp [validateIP, hnil, h4, h6] at h
  · intro hp
    have hnil := padded_ne_nil hp
    have h4 : ¬accepts ipv4Regex s = true := fun h4 =>
      padded_not_quad hp (accepts_ipv4_iff.mp h4)
    have h6 := accepts_ipv6_iff.mpr hp
    simp [validateIP, hnil, h4, h6]

/-! ## C3 — TTL boundary behaviour of the cache -/

/-- C3 (counterexample): with `ttl = 0`, a `get` at exactly
`now = storedAt + ttl` still returns the stored value — the claim says
the entry is treated as absent at that instant, but the code expires
only when `now - storedAt > ttl` holds strictly. -/
theorem ttl_boundary_live_cex :
    ((((MemoryCache.empty 10 : MemoryCache Nat).set "k" 7 0 0).get "k" 0).1 = some 7) := by
  decide

/-- C3 (amended): after `set(key, v, ttl)` at `storedAt`, `get(key)` at
`now` returns `v` whenever `now ≤ storedAt + ttl` and returns absent
whenever `now > storedAt + ttl` — the entry is live at the exact instant
`now = storedAt + ttl` and is removed (lazily) the first time it is read
after that instant. -/
theorem memoryCache_get_after_set (c : MemoryCache α) (key : String) (v : α)
    (ttl storedAt now : Nat) :
    ((((c.set key v ttl storedAt).get key now).1 =
        if now ≤ storedAt + ttl then some v else none) ∧
      (storedAt + ttl < now →
        mapFind ((((c.set key v ttl storedAt).get key now).2).entries) key = none)) := by
  have hfind : mapFind (c.set key v ttl storedAt).entries key = some ⟨v, storedAt, ttl⟩ :=
    mapFind_set_self c key v ttl storedAt
  constructor
  · by_cases h : now - storedAt > ttl
    · simp only [MemoryCache.get, hfind, if_pos h]
      rw [if_neg (by omega)]
    · simp only [MemoryCache.get, hfind, if_neg h]
      rw [if_pos (by omega)]
  · intro hlt
    simp only [MemoryCache.get, hfind, if_pos (show now - storedAt > ttl by omega)]
    exact mapFind_mapDelete_self _ _

/-- C3 (witness): a concrete expired read — stored at 2 with ttl 3, read
at 6 — returns absent and removes the entry. -/
theorem memoryCache_get_after_set_witness :
    (((((MemoryCache.empty 10 : MemoryCache Nat).set "k" 5 3 2).get "k" 6).1 = none) ∧
      mapFind (((((MemoryCache.empty 10 : MemoryCache Nat).set "k" 5 3 2).get "k" 6).2).entries)
        "k" = none) := by
  have h := memoryCache_get_after_set (MemoryCache.empty 10 : MemoryCache Nat) "k" 5 3 2 6
  refine ⟨?_, h.2 (by decide)⟩
  have h1 := h.1
  rw [if_neg (by decide)] at h1
  exact h1

/-! ## C1 — cachedFetch and cached nulls -/

/-- C1 (counterexample): when the first fetch produced `null`, a second
call within the TTL fetches *again* (two invocations, not one): the
cached `null` is indistinguishable from a miss in `cache.get`, so the
`cached !== null` test fails.  Here `ttl = 1000` and the second call is
500 ms after the first. -/
theorem cachedFetch_null_refetch_cex :
    cachedFetchTwice (V := Nat) 500 "k" none none 1000 0 500 = (none, none, 2) := by
  decide

/-- C1 (amended): two sequential `cachedFetch` calls for the same key
from a cold cache, the second within the TTL stored by the first: if the
first fetch produced a non-null value, the second call is served from
cache and the fetch function runs exactly once in total; if the first
fetch produced `null`, the second call re-invokes the fetch function
(two invocations in total) and returns the second fetch's result. -/
theorem cachedFetchTwice_spec {V : Type} (max : Nat) (key : String)
    (f1 f2 : Option V) (ttl t1 t2 : Nat) (h2 : t2 - t1 ≤ ttl) :
    cachedFetchTwice max key f1 f2 ttl t1 t2 =
      match f1 with
      | some v => (some v, some v, 1)
      | none => (none, f2, 2) := by
  have hget1 : (MemoryCache.empty (α := Option V) max).get key t1 =
      (none, MemoryCache.empty max) := rfl
  have hfind : mapFind ((MemoryCache.empty (α := Option V) max).set key f1 ttl t1).entries key =
      some ⟨f1, t1, ttl⟩ := mapFind_set_self _ key f1 ttl t1
  have hget2 : (((MemoryCache.empty (α := Option V) max).set key f1 ttl t1).get key t2) =
      (some f1, (MemoryCache.empty (α := Option V) max).set key f1 ttl t1) := by
    simp only [MemoryCache.get, hfind, if_neg (show ¬ (t2 - t1 > ttl) by omega)]
  rcases f1 with _ | v
  · simp only [cachedFetchTwice, cachedFetch, hget1, Option.join, hget2, Option.bind]
    rfl
  · simp only [cachedFetchTwice, cachedFetch, hget1, Option.join, hget2, Option.bind]
    rfl

/-- C1 (witness): a concrete non-null round trip — ttl 1000, calls at 0
and 500 — returns the cached value twice with one fetch. -/
theorem cachedFetchTwice_spec_witness :
    cachedFetchTwice (V := Nat) 500 "k" (some 42) none 1000 0 500 =
      (some 42, some 42, 1) := by
  have h := cachedFetchTwice_spec (V := Nat) 500 "k" (some 42) none 1000 0 500 (by decide)
  exact h

/-! ## C4 — capacity is preserved only for capacity ≥ 5 -/

/-- C4 (counterexample): a cache of capacity 1 holding one fresh entry
(within capacity) grows to 2 entries on the next `set`: the eviction
pass removes `Math.floor(1 * 0.2) = 0` oldest entries, so nothing is
freed and the bound is violated — permanently, as every further `set`
repeats this. -/
theorem memoryCache_capacity_cex :
    ((MemoryCache.mk [("a", ⟨0, 0, 1000⟩)] 1 : MemoryCache Nat).set "b" 0 1000 0).entries.length
      = 2 := by
  decide

/-- C4 (amended): for every cache of capacity at least 5 with
pairwise-distinct keys and size at most capacity, each of `set`, `get`
and `delete` leaves the size at most capacity and the keys
pairwise-distinct — so no sequence of these operations leaves such a
cache over capacity.  For capacity below 5 the eviction count
`⌊capacity·0.2⌋` is 0 and `set` can exceed the bound (see the
counterexample). -/
theorem memoryCache_ops_capacity (c : MemoryCache α) (key : String) (d : α)
    (ttl now : Nat) (hmax : 5 ≤ c.maxEntries)
    (hnd : (c.entries.map Prod.fst).Nodup)
    (hsz : c.entries.length ≤ c.maxEntries) :
    (((c.set key d ttl now).entries.length ≤ c.maxEntries ∧
        ((c.set key d ttl now).entries.map Prod.fst).Nodup) ∧
      (((c.get key now).2.entries.length ≤ c.maxEntries) ∧
        (((c.get key now).2.entries.map Prod.fst).Nodup)) ∧
      (((c.del key).2.entries.length ≤ c.maxEntries) ∧
        (((c.del key).2.entries.map Prod.fst).Nodup))) := by
  refine ⟨?_, ?_, ?_⟩
  · unfold MemoryCache.set
    by_cases hfull : c.entries.length ≥ c.maxEntries
    · simp only [if_pos hfull]
      have hc := cleanup_length_lt c now hmax hnd hsz
      constructor
      · have hins := length_mapInsert_le (c.cleanup now).entries key ⟨d, now, ttl⟩
        have hgoal : (mapInsert (c.cleanup now).entries key ⟨d, now, ttl⟩).length ≤
            c.maxEntries := by omega
        exact hgoal
      · exact nodupKeys_mapInsert _ _ _ hc.2
    · simp only [if_neg hfull]
      constructor
      · have hins := length_mapInsert_le c.entries key ⟨d, now, ttl⟩
        have hlt : c.entries.length < c.maxEntries := by omega
        have hgoal : (mapInsert c.entries key ⟨d, now, ttl⟩).length ≤ c.maxEntries := by
          omega
        exact hgoal
      · exact nodupKeys_mapInsert _ _ _ hnd
  · rcases hf : mapFind c.entries key with _ | e
    · simp only [MemoryCache.get, hf]
      exact ⟨hsz, hnd⟩
    · by_cases h : now - e.timestamp > e.ttl
      · simp only [MemoryCache.get, hf, if_pos h]
        constructor
        · exact le_trans (List.filter_sublist c.entries).length_le hsz
        · exact hnd.sublist ((List.filter_sublist c.entries).map Prod.fst)
      · simp only [MemoryCache.get, hf, if_neg h]
        exact ⟨hsz, hnd⟩
  · constructor
    · exact le_trans (List.filter_sublist c.entries).length_le hsz
    · exact hnd.sublist ((List.filter_sublist c.entries).map Prod.fst)

/-- C4 (witness): the preservation theorem applied to a concrete cache
of capacity 5 holding one entry. -/
theorem memoryCache_ops_capacity_witness :
    ((MemoryCache.mk [("a", ⟨1, 0, 99⟩)] 5 : MemoryCache Nat).set "b" 2 50 10).entries.length ≤ 5 ∧
      (((MemoryCache.mk [("a", ⟨1, 0, 99⟩)] 5 : MemoryCache Nat).set "b" 2 50 10).entries.map
        Prod.fst).Nodup := by
  exact (memoryCache_ops_capacity (MemoryCache.mk [("a", ⟨1, 0, 99⟩)] 5 : MemoryCache Nat)
    "b" 2 50 10 (by decide) (by decide) (by decide)).1

/-! ## C5 — determinism of reconciliation -/

/-- C5 (counterexample): two reconciliation calls with identical edge
metadata and identical external data but made at different times (and
hence with different generated request ids and timestamps) produce
records that are not identical, because the record embeds `requestId`,
`timestamp` and `processingTime`. -/
theorem combineData_not_byte_identical :
    combineData "1.2.3.4" 4 cfBlank none (generateRequestId 0 "aaaaaaaaa") 0 5
        "2024-01-01T00:00:00.000Z" ≠
      combineData "1.2.3.4" 4 cfBlank none (generateRequestId 7 "bbbbbbbbb") 0 9
        "2024-01-01T00:00:00.007Z" := by
  decide

/-- C5 (amended): reconciliation is deterministic in every field other
than the three call-environment fields `requestId`, `timestamp` and
`processingTime`: identical `(edge, external)` inputs yield identical
`ip`, `ipVersion`, `location`, `network`, `security`, `connection`,
`company`, `carrier` and `sources` sections regardless of the clock and
the generated request id. -/
theorem combineData_deterministic_core (ip : String) (v : Nat)
    (cfData : CloudflareRequestData) (ipinfoData : Option IPInfoData)
    (rid₁ rid₂ : String) (st₁ st₂ now₁ now₂ : Nat) (iso₁ iso₂ : String) :
    ((combineData ip v cfData ipinfoData rid₁ st₁ now₁ iso₁).ip =
        (combineData ip v cfData ipinfoData rid₂ st₂ now₂ iso₂).ip) ∧
    ((combineData ip v cfData ipinfoData rid₁ st₁ now₁ iso₁).ipVersion =
        (combineData ip v cfData ipinfoData rid₂ st₂ now₂ iso₂).ipVersion) ∧
    ((combineData ip v cfData ipinfoData rid₁ st₁ now₁ iso₁).location =
        (combineData ip v cfData ipinfoData rid₂ st₂ now₂ iso₂).location) ∧
    ((combineData ip v cfData ipinfoData rid₁ st₁ now₁ iso₁).network =
        (combineData ip v cfData ipinfoData rid₂ st₂ now₂ iso₂).network) ∧
    ((combineData ip v cfData ipinfoData rid₁ st₁ now₁ iso₁).security =
        (combineData ip v cfData ipinfoData rid₂ st₂ now₂ iso₂).security) ∧
    ((combineData ip v cfData ipinfoData rid₁ st₁ now₁ iso₁).connection =
        (combineData ip v cfData ipinfoData rid₂ st₂ now₂ iso₂).connection) ∧
    ((combineData ip v cfData ipinfoData rid₁ st₁ now₁ iso₁).company =
        (combineData ip v cfData ipinfoData rid₂ st₂ now₂ iso₂).company) ∧
    ((combineData ip v cfData ipinfoData rid₁ st₁ now₁ iso₁).carrier =
        (combineData ip v cfData ipinfoData rid₂ st₂ now₂ iso₂).carrier) ∧
    ((combineData ip v cfData ipinfoData rid₁ st₁ now₁ iso₁).sources =
        (combineData ip v cfData ipinfoData rid₂ st₂ now₂ iso₂).sources) :=
  ⟨rfl, rfl, rfl, rfl, rfl, rfl, rfl, rfl, rfl⟩

/-! ## C6 — the `malicious` flag -/

/-- C6: in both the combined-record path and the security-only path the
`malicious` boolean is true exactly when the threat level is `high` or
both the `tor` and `proxy` flags are set.  The combined path only tests
`threatLevel === 'high'`, but `tor ∧ proxy` already forces the risk
score to at least 5 and hence the threat level to `high`, so the
biconditional holds there as well. -/
theorem malicious_iff_high_or_tor_proxy (ip : String) (v : Nat)
    (cfData : CloudflareRequestData) (ipinfoData : Option IPInfoData)
    (rid : String) (st now : Nat) (iso : String) :
    ((combineData ip v cfData ipinfoData rid st now iso).security.malicious = true ↔
      (assessThreatLevel cfData (ipinfoData.bind (·.privacy)) = .high ∨
        (privacyFlag ipinfoData (·.tor) = true ∧ privacyFlag ipinfoData (·.proxy) = true))) ∧
    ((securityView ip cfData ipinfoData).malicious = true ↔
      (assessThreatLevel cfData (ipinfoData.bind (·.privacy)) = .high ∨
        (privacyFlag ipinfoData (·.tor) = true ∧ privacyFlag ipinfoData (·.proxy) = true))) := by
  constructor
  · simp only [combineData, decide_eq_true_eq]
    constructor
    · exact Or.inl
    · rintro (h | ⟨htor, hproxy⟩)
      · exact h
      · exact assessThreatLevel_high_of_tor_proxy cfData ipinfoData htor hproxy
  · simp only [securityView, decide_eq_true_eq]

/-! ## C2 — focused views vs the full reconciliation -/

/-- C2 (counterexample): with edge metadata supplying only a country and
external data present but carrying coordinates and no country, the
geolocation view counts one source and classifies `medium`, while the
full record counts two sources and classifies `high` — the focused view
and the full record disagree on both the sources list and the accuracy. -/
theorem focusedViews_not_equivalent_cex :
    ((geolocationView "1.2.3.4" { cfBlank with country := "US" }
        (some { infoBlank with loc := some (1, 1) })).accuracy ≠
      (combineData "1.2.3.4" 4 { cfBlank with country := "US" }
        (some { infoBlank with loc := some (1, 1) }) "r" 0 0 "t").location.accuracy) ∧
    ((geolocationView "1.2.3.4" { cfBlank with country := "US" }
        (some { infoBlank with loc := some (1, 1) })).sources ≠
      (combineData "1.2.3.4" 4 { cfBlank with country := "US" }
        (some { infoBlank with loc := some (1, 1) }) "r" 0 0 "t").location.sources) := by
  decide

/-- C2 (amended): the security view's threat level and malicious flag
always agree with the security section of the full record, and the
network view's connection quality is `assessConnectionQuality` of the
same edge metadata (the full record has no connection-quality field to
compare).  The geolocation view's sources list agrees with the full
record's whenever external data is present exactly when it carries a
country, and under the further condition that the edge coordinate
strings are present exactly when the extracted coordinates are non-zero
its accuracy agrees as well; without these conditions they can diverge
(see the counterexample). -/
theorem focusedViews_agreement (ip : String) (v : Nat)
    (cfData : CloudflareRequestData) (ipinfoData : Option IPInfoData)
    (rid : String) (st now : Nat) (iso : String) :
    ((securityView ip cfData ipinfoData).threatLevel =
        (combineData ip v cfData ipinfoData rid st now iso).security.threatLevel) ∧
    ((securityView ip cfData ipinfoData).malicious = true ↔
        (combineData ip v cfData ipinfoData rid st now iso).security.malicious = true) ∧
    ((networkView ip cfData ipinfoData).connectionQuality = assessConnectionQuality cfData) ∧
    ((ipinfoData.isSome ↔ chainStr ipinfoData (·.country) ≠ "") →
      (geolocationView ip cfData ipinfoData).sources =
        (combineData ip v cfData ipinfoData rid st now iso).location.sources) ∧
    ((ipinfoData.isSome ↔ chainStr ipinfoData (·.country) ≠ "") →
      ((cfData.latitude.isSome ∧ cfData.longitude.isSome) ↔
        ((extractCoordinates cfData ipinfoData).latitude ≠ 0 ∧
          (extractCoordinates cfData ipinfoData).longitude ≠ 0)) →
      (geolocationView ip cfData ipinfoData).accuracy =
        (combineData ip v cfData ipinfoData rid st now iso).location.accuracy) := by
  have hsrc : ∀ _h : ipinfoData.isSome ↔ chainStr ipinfoData (·.country) ≠ "",
      (if chainStr ipinfoData (·.country) ≠ "" then (["ipinfo"] : List String) else []) =
        (if ipinfoData.isSome then ["ipinfo"] else []) := by
    intro h
    by_cases hc : chainStr ipinfoData (·.country) ≠ ""
    · rw [if_pos hc, if_pos (h.mpr hc)]
    · rw [if_neg hc]
      rw [if_neg (fun hs => hc (h.mp hs))]
  refine ⟨rfl, ?_, rfl, ?_, ?_⟩
  · simp only [securityView, combineData, decide_eq_true_eq]
    constructor
    · rintro (h | ⟨htor, hproxy⟩)
      · exact h
      · exact assessThreatLevel_high_of_tor_proxy cfData ipinfoData htor hproxy
    · exact Or.inl
  · intro h
    simp only [geolocationView, combineData]
    rw [hsrc h]
  · intro h hcoord
    simp only [geolocationView, combineData]
    rw [hsrc h]
    simp only [decide_eq_true_eq]
    refine if_congr ?_ rfl rfl
    constructor
    · rintro ⟨h2, hla, hlo⟩
      exact ⟨h2, (hcoord.mp ⟨hla, hlo⟩).1, (hcoord.mp ⟨hla, hlo⟩).2⟩
    · rintro ⟨h2, hla, hlo⟩
      exact ⟨h2, (hcoord.mpr ⟨hla, hlo⟩).1, (hcoord.mpr ⟨hla, hlo⟩).2⟩

/-- C2 (witness): the agreement theorem applied to concrete inputs that
satisfy both side conditions (edge has country and non-zero coordinates;
external data present with a country). -/
theorem focusedViews_agreement_witness :
    ((geolocationView "1.2.3.4"
        { cfBlank with country := "US", latitude := some 1, longitude := some 2 }
        (some { infoBlank with country := "DE" })).sources =
      (combineData "1.2.3.4" 4
        { cfBlank with country := "US", latitude := some 1, longitude := some 2 }
        (some { infoBlank with country := "DE" }) "r" 0 0 "t").location.sources) ∧
    ((geolocationView "1.2.3.4"
        { cfBlank with country := "US", latitude := some 1, longitude := some 2 }
        (some { infoBlank with country := "DE" })).accuracy =
      (combineData "1.2.3.4" 4
        { cfBlank with country := "US", latitude := some 1, longitude := some 2 }
        (some { infoBlank with country := "DE" }) "r" 0 0 "t").location.accuracy) := by
  have h := focusedViews_agreement "1.2.3.4" 4
    { cfBlank with country := "US", latitude := some 1, longitude := some 2 }
    (some { infoBlank with country := "DE" }) "r" 0 0 "t"
  exact ⟨h.2.2.2.1 (by decide), h.2.2.2.2 (by decide) (by decide)⟩

/-! ## C7 — connection-quality scoring -/

/-- C7 (counterexample): for `HTTP/3 + TLSv1.3 + rtt = 0` the claim's
scoring gives `3 + 2 + 2 = 7 → excellent`, but the code's truthiness
test `cfData.clientTcpRtt && …` drops the rtt bonus for `rtt = 0`,
yielding score 5 → `good`. -/
theorem connectionQuality_rtt_zero_cex :
    specConnectionQuality
        { cfBlank with httpProtocol := "HTTP/3", tlsVersion := "TLSv1.3",
                       clientTcpRtt := some 0 } = .excellent ∧
    assessConnectionQuality
        { cfBlank with httpProtocol := "HTTP/3", tlsVersion := "TLSv1.3",
                       clientTcpRtt := some 0 } = .good := by
  exact ⟨rfl, rfl⟩

/-- C7 (amended): the computed connection quality equals the claimed
mapping of the claimed score, except that a present round-trip time of
exactly 0 ms contributes no bonus — it is treated as if the rtt were
absent. -/
theorem assessConnectionQuality_eq_spec (cfData : CloudflareRequestData) :
    assessConnectionQuality cfData =
      specConnectionQuality
        (if cfData.clientTcpRtt = some 0 then { cfData with clientTcpRtt := none }
         else cfData) := by
  rcases h : cfData.clientTcpRtt with _ | rtt
  · simp [assessConnectionQuality, specConnectionQuality, h]
  · by_cases h0 : rtt = 0
    · subst h0
      simp [assessConnectionQuality, specConnectionQuality, h]
    · rw [if_neg (by simp [h, h0])]
      simp [assessConnectionQuality, specConnectionQuality, h, h0]

/-! ## C9 — the external lookup client never throws -/

/-- C9: for every behaviour of the outbound HTTP call the lookup client
returns normally — a transport error, a thrown exception, a non-2xx
status and an unparsable body all yield `null`, and a 2xx response with
a parsable body yields the parsed body. -/
theorem fetchIPInfoData_total {J : Type} (o : FetchOutcome J) :
    fetchIPInfoData o =
      .ok (match o with
           | .response true (some j) => some j
           | _ => none) := by
  rcases o with _ | ⟨ok, body⟩
  · rfl
  · rcases ok with _ | _ <;> rcases body with _ | j <;> rfl

/-! ## C10 — the two cloudflare-source indicators -/

/-- C10: the top-level `sources.cloudflare` flag is true exactly when the
edge metadata supplied a country or a colo code, while the
`location.sources` list contains `'cloudflare'` exactly when a country
was supplied; with a colo but no country (concrete instance below) the
flag is set while the list omits `'cloudflare'`. -/
theorem sources_cloudflare_vs_location_sources (ip : String) (v : Nat)
    (cfData : CloudflareRequestData) (ipinfoData : Option IPInfoData)
    (rid : String) (st now : Nat) (iso : String) :
    ((combineData ip v cfData ipinfoData rid st now iso).sources.cloudflare = true ↔
      (cfData.country ≠ "" ∨ cfData.colo ≠ "")) ∧
    ("cloudflare" ∈ (combineData ip v cfData ipinfoData rid st now iso).location.sources ↔
      cfData.country ≠ "") ∧
    ((combineData "1.2.3.4" 4 { cfBlank with colo := "LAX" } none rid st now iso).sources.cloudflare = true ∧
      "cloudflare" ∉
        (combineData "1.2.3.4" 4 { cfBlank with colo := "LAX" } none rid st now iso).location.sources) := by
  refine ⟨?_, ?_, ?_, ?_⟩
  · simp [combineData]
  · by_cases h : cfData.country = "" <;> simp [combineData, h]
  · simp [combineData, cfBlank]
  · simp [combineData, cfBlank]

/-! ## C8 — validateIP classification -/

/-- C8: `validateIP` classifies inputs: the empty string is invalid with
the address-required reason; a string is reported valid IPv4 exactly when
it is a dotted quad of four canonical decimal octets in 0–255; every
canonical or `::`-compressed IPv6 form (including IPv4-mapped suffixes
and an optional zone-id) is reported valid with version 6; and —
correcting the claim — version 6 is reported exactly for such forms
padded with arbitrary surrounding JS whitespace, every string outside
these classes being invalid with the format reason. -/
theorem validateIP_classification :
    validateIP [] = .invalid "IP address is required" ∧
    (∀ s, validateIP s = .ok 4 ↔ CanonicalQuad s) ∧
    (∀ s, IPv6Claimed s → validateIP s = .ok 6) ∧
    (∀ s, validateIP s = .ok 6 ↔ IPv6Padded s) ∧
    (∀ s, s ≠ [] → ¬CanonicalQuad s → ¬IPv6Padded s →
      validateIP s = .invalid "Invalid IP address format") := by
  refine ⟨rfl, fun s => validateIP_eq_ok4_iff, fun s hcl => ?_,
    fun s => validateIP_eq_ok6_iff, fun s hnil hnq hnp => ?_⟩
  · exact validateIP_eq_ok6_iff.mpr ⟨[], [], s, rfl, rfl, hcl, by simp⟩
  · have h4 : ¬accepts ipv4Regex s = true := fun h => hnq (accepts_ipv4_iff.mp h)
    have h6 : ¬accepts ipv6Regex s = true := fun h => hnp (accepts_ipv6_iff.mp h)
    simp [validateIP, hnil, h4, h6]

/-- Witness: `"::1"` is a compressed IPv6 form and `validateIP` accepts
it with version 6, while `"x"` is in none of the classes and is rejected
with the format reason. -/
theorem validateIP_classification_witness :
    validateIP (':' :: ':' :: ['1']) = .ok 6 ∧
    validateIP ['x'] = .invalid "Invalid IP address format" := by
  have hcl : IPv6Claimed (':' :: ':' :: ['1']) :=
    ⟨':' :: ':' :: ['1'], [],
      Or.inr (Or.inr (Or.inl ⟨[], [['1']], by simp, by simp,
        by decide, by simp [joinColon]⟩)), Or.inl rfl, by simp⟩
  have hx4 : ¬CanonicalQuad ['x'] := fun hq => by
    have hd := canonQuad_has_dot hq
    simp at hd
  have hx6 : ¬IPv6Padded ['x'] := fun hp => by
    have hc := padded_has_colon hp
    simp at hc
  exact ⟨validateIP_classification.2.2.1 _ hcl,
    validateIP_classification.2.2.2.2 ['x'] (by simp) hx4 hx6⟩

/-- Counterexample to the claim as stated: `" ::1"` (leading space) is
neither a dotted quad nor a canonical/compressed IPv6 form with optional
zone-id, yet `validateIP` reports it valid with version 6: the IPv6
pattern is anchored as `^\s*(...)\s*$` and tolerates surrounding JS
whitespace. -/
theorem validateIP_whitespace_cex :
    validateIP (' ' :: ':' :: ':' :: ['1']) = .ok 6 ∧
    ¬CanonicalQuad (' ' :: ':' :: ':' :: ['1']) ∧
    ¬IPv6Claimed (' ' :: ':' :: ':' :: ['1']) := by
  have hcl : IPv6Claimed (':' :: ':' :: ['1']) :=
    ⟨':' :: ':' :: ['1'], [],
      Or.inr (Or.inr (Or.inl ⟨[], [['1']], by simp, by simp,
        by decide, by simp [joinColon]⟩)), Or.inl rfl, by simp⟩
  refine ⟨?_, fun hq => ?_, fun hcl2 => ?_⟩
  · exact validateIP_eq_ok6_iff.mpr
      ⟨[' '], [], ':' :: ':' :: ['1'], by decide, rfl, hcl, by simp⟩
  · have hd := canonQuad_has_dot hq
    simp at hd
  · have hws := claimed_head_not_ws hcl2 rfl
    exact absurd hws (by decide)

end IPInfo
